import Mathlib

/-!
# libublasaux: shape-dispatched random fill of uBLAS containers

A shallow embedding of `StdDispatchRandomizer.h` and `RandomGenerator.h`.

* The random engine is a value of an arbitrary state type `σ`.  A die
  (`boost::variate_generator<Engine&, Dist>`) is a function `σ → V × σ`: one
  call returns the drawn value and the engine state left behind.
* A fill threads a `Run` through its loops: the container, the engine, and
  three ghost fields (the number of item draws, the number of index draws and
  the log of element assignments, in program order).  Erasing the ghost
  fields gives back the source.
* `Size` values are natural numbers.  The one addition of the source that can
  leave the range of `Size` (`i + matr.upper()` in the banded fill) is taken
  modulo `2 ^ w`, `w` being the width of `Size`.
-/

namespace Ublasaux

/-! ## Dice, runs and loops -/

/-- The engine state after `n` successive calls of a die. -/
def advance {σ V : Type} (die : σ → V × σ) : Nat → σ → σ
  | 0, e => e
  | n + 1, e => advance die n (die e).2

/-- The values returned by `n` successive calls of a die. -/
def draws {σ V : Type} (die : σ → V × σ) : Nat → σ → List V
  | 0, _ => []
  | n + 1, e => (die e).1 :: draws die n (die e).2

/-- The state threaded through a fill: the container and the engine, and as
ghost state the number of item draws, the number of index draws and the log
of element assignments `(position, value)` in program order. -/
structure Run (σ C P V : Type) where
  container : C
  engine : σ
  itemDraws : Nat
  indexDraws : Nat
  writes : List (P × V)

/-- The state in which a fill starts: nothing drawn, nothing written. -/
def Run.start {σ C P V : Type} (c : C) (e : σ) : Run σ C P V :=
  ⟨c, e, 0, 0, []⟩

/-- One element assignment `target(p) = v`. -/
def Run.assign {σ C P V : Type} (assign : C → P → V → C) (p : P) (v : V)
    (s : Run σ C P V) : Run σ C P V :=
  ⟨assign s.container p v, s.engine, s.itemDraws, s.indexDraws, s.writes ++ [(p, v)]⟩

/-- The statement `target(p) = f(die())`: one item draw, then one
assignment of the drawn value as transformed by `f`. -/
def Run.assignDie {σ C P V : Type} (assign : C → P → V → C) (die : σ → V × σ)
    (f : V → V) (p : P) (s : Run σ C P V) : Run σ C P V :=
  Run.assign assign p (f (die s.engine).1)
    ⟨s.container, (die s.engine).2, s.itemDraws + 1, s.indexDraws, s.writes⟩

/-- The loop `for (j = start; cond(j); ++j) body(j)`, run for at most `fuel`
iterations.  Every use below passes a `fuel` that the loop cannot exhaust
while `cond` still holds (`forLoop_eq_foldl`). -/
def forLoop {S : Type} (cond : Nat → Bool) (body : Nat → S → S) : Nat → Nat → S → S
  | 0, _, s => s
  | fuel + 1, j, s => if cond j then forLoop cond body fuel (j + 1) (body j s) else s

/-! ## Container interfaces -/

/-- The part of the uBLAS vector interface the dense fill uses: `size()` and
the element assignment `vect(i) = v`.  Assigning an element does not change
the size, so the fills read it once. -/
structure VectorAccess (C V : Type) where
  size : C → Nat
  assign : C → Nat → V → C

/-- The part of the uBLAS matrix interface the fills use: `size1()`,
`size2()` and the element assignment `matr(i, j) = v`.  Assigning an element
does not change the dimensions, so the fills read them once. -/
structure MatrixAccess (M V : Type) where
  size1 : M → Nat
  size2 : M → Nat
  assign : M → Nat × Nat → V → M

/-- Modelled from the spec: a dense vector (`vector`, `bounded_vector`,
`c_vector` of uBLAS, whose declarations are not part of the repository): a
size and one element per index. -/
structure DenseVector (V : Type) where
  size : Nat
  elem : Nat → V

/-- Element assignment `vect(i) = v` of a dense vector. -/
def DenseVector.assign {V : Type} (c : DenseVector V) (i : Nat) (v : V) : DenseVector V :=
  ⟨c.size, fun a => if a = i then v else c.elem a⟩

/-- The interface of a dense vector. -/
def DenseVector.access (V : Type) : VectorAccess (DenseVector V) V :=
  ⟨DenseVector.size, DenseVector.assign⟩

/-- Modelled from the spec: a dense matrix (`matrix`, `bounded_matrix`,
`c_matrix`, `vector_of_vector` of uBLAS, whose declarations are not part of
the repository): two dimensions and one element per position. -/
structure DenseMatrix (V : Type) where
  size1 : Nat
  size2 : Nat
  elem : Nat → Nat → V

/-- Element assignment `matr(i, j) = v` of a dense matrix. -/
def DenseMatrix.assign {V : Type} (c : DenseMatrix V) (p : Nat × Nat) (v : V) : DenseMatrix V :=
  ⟨c.size1, c.size2, fun a b => if a = p.1 ∧ b = p.2 then v else c.elem a b⟩

/-- The interface of a dense matrix. -/
def DenseMatrix.access (V : Type) : MatrixAccess (DenseMatrix V) V :=
  ⟨DenseMatrix.size1, DenseMatrix.size2, DenseMatrix.assign⟩

/-! ## Fill strategies (`StdDispatchRandomizer`, backends) -/

/-- Source `FullRandomizer_::randomizeVector`:
`for (i = 0; i < vect.size(); ++i) vect(i) = die();` -/
def FullRandomizer_.randomizeVector {σ C V : Type} (acc : VectorAccess C V)
    (vect : C) (engine : σ) (itemDist : σ → V × σ) : Run σ C Nat V :=
  forLoop (fun i => decide (i < acc.size vect))
    (fun i s => Run.assignDie acc.assign itemDist id i s)
    (acc.size vect) 0 (Run.start vect engine)

/-- Source `FullRandomizer_::randomizeMatrix`:
`for (i = 0; i < matr.size1(); ++i) for (j = 0; j < matr.size2(); ++j) matr(i, j) = die();` -/
def FullRandomizer_.randomizeMatrix {σ M V : Type} (acc : MatrixAccess M V)
    (matr : M) (engine : σ) (itemDist : σ → V × σ) : Run σ M (Nat × Nat) V :=
  forLoop (fun i => decide (i < acc.size1 matr))
    (fun i s =>
      forLoop (fun j => decide (j < acc.size2 matr))
        (fun j s => Run.assignDie acc.assign itemDist id (i, j) s)
        (acc.size2 matr) 0 s)
    (acc.size1 matr) 0 (Run.start matr engine)

/-- Source `TriangleRandomizer_::randomizeLower`:
`for (i = 0; i < matr.size1(); ++i) for (j = 0; j < matr.size2() && j <= i; ++j) matr(i, j) = die();` -/
def TriangleRandomizer_.randomizeLower {σ M V : Type} (acc : MatrixAccess M V)
    (matr : M) (engine : σ) (itemDist : σ → V × σ) : Run σ M (Nat × Nat) V :=
  forLoop (fun i => decide (i < acc.size1 matr))
    (fun i s =>
      forLoop (fun j => decide (j < acc.size2 matr) && decide (j ≤ i))
        (fun j s => Run.assignDie acc.assign itemDist id (i, j) s)
        (acc.size2 matr) 0 s)
    (acc.size1 matr) 0 (Run.start matr engine)

/-- Source `TriangleRandomizer_::randomizeUnitLower`:
`for (i = 0; i < matr.size1(); ++i) for (j = 0; j < matr.size2() && j < i; ++j) matr(i, j) = die();` -/
def TriangleRandomizer_.randomizeUnitLower {σ M V : Type} (acc : MatrixAccess M V)
    (matr : M) (engine : σ) (itemDist : σ → V × σ) : Run σ M (Nat × Nat) V :=
  forLoop (fun i => decide (i < acc.size1 matr))
    (fun i s =>
      forLoop (fun j => decide (j < acc.size2 matr) && decide (j < i))
        (fun j s => Run.assignDie acc.assign itemDist id (i, j) s)
        (acc.size2 matr) 0 s)
    (acc.size1 matr) 0 (Run.start matr engine)

/-- Source `TriangleRandomizer_::randomizeUpper`:
`for (i = 0; i < matr.size1(); ++i) for (j = i; j < matr.size2(); ++j) matr(i, j) = die();` -/
def TriangleRandomizer_.randomizeUpper {σ M V : Type} (acc : MatrixAccess M V)
    (matr : M) (engine : σ) (itemDist : σ → V × σ) : Run σ M (Nat × Nat) V :=
  forLoop (fun i => decide (i < acc.size1 matr))
    (fun i s =>
      forLoop (fun j => decide (j < acc.size2 matr))
        (fun j s => Run.assignDie acc.assign itemDist id (i, j) s)
        (acc.size2 matr) i s)
    (acc.size1 matr) 0 (Run.start matr engine)

/-- Source `TriangleRandomizer_::randomizeUnitUpper`:
`for (i = 0; i < matr.size1(); ++i) for (j = i + 1; j < matr.size2(); ++j) matr(i, j) = die();`
(`i + 1` cannot leave the range of `Size`, as `i < matr.size1()`). -/
def TriangleRandomizer_.randomizeUnitUpper {σ M V : Type} (acc : MatrixAccess M V)
    (matr : M) (engine : σ) (itemDist : σ → V × σ) : Run σ M (Nat × Nat) V :=
  forLoop (fun i => decide (i < acc.size1 matr))
    (fun i s =>
      forLoop (fun j => decide (j < acc.size2 matr))
        (fun j s => Run.assignDie acc.assign itemDist id (i, j) s)
        (acc.size2 matr) (i + 1) s)
    (acc.size1 matr) 0 (Run.start matr engine)

/-- Source `SymmetricRandomizer_::randomize`:
`for (i = 0; i < matr.size1(); ++i) for (j = 0; j <= i; ++j) matr(i, j) = die();` -/
def SymmetricRandomizer_.randomize {σ M V : Type} (acc : MatrixAccess M V)
    (matr : M) (engine : σ) (itemDist : σ → V × σ) : Run σ M (Nat × Nat) V :=
  forLoop (fun i => decide (i < acc.size1 matr))
    (fun i s =>
      forLoop (fun j => decide (j ≤ i))
        (fun j s => Run.assignDie acc.assign itemDist id (i, j) s)
        (i + 1) 0 s)
    (acc.size1 matr) 0 (Run.start matr engine)

/-- Source `HermitianRandomizer_::randomize`:
`for (i = 0; i < matr.size1(); ++i) { for (j = 0; j < i; ++j) matr(i, j) = die(); matr(i, i) = real(die()); }`
where `real` is `type_traits<value_type>::real`, the real part of a value
converted back to the element type. -/
def HermitianRandomizer_.randomize {σ M V : Type} (acc : MatrixAccess M V) (real : V → V)
    (matr : M) (engine : σ) (itemDist : σ → V × σ) : Run σ M (Nat × Nat) V :=
  forLoop (fun i => decide (i < acc.size1 matr))
    (fun i s =>
      Run.assignDie acc.assign itemDist real (i, i)
        (forLoop (fun j => decide (j < i))
          (fun j s => Run.assignDie acc.assign itemDist id (i, j) s)
          i 0 s))
    (acc.size1 matr) 0 (Run.start matr engine)

/-- The part of the uBLAS banded-matrix interface the banded fill uses: the
matrix interface and the two bandwidths `lower()` and `upper()`. -/
structure BandedAccess (M V : Type) extends MatrixAccess M V where
  lower : M → Nat
  upper : M → Nat

/-- Source `BandedRandomizer_::startFrom_`: `base >= lower ? base - lower : Size()`. -/
def BandedRandomizer_.startFrom_ (base lower : Nat) : Nat :=
  if base ≥ lower then base - lower else 0

/-- Source `BandedRandomizer_::randomize`:
`for (i = 0; i < matr.size1(); ++i)
   for (j = startFrom_(i, matr.lower()); j <= i + matr.upper() && j < matr.size2(); ++j) matr(i, j) = die();`
with `i + matr.upper()` computed in a `Size` of `w` bits. -/
def BandedRandomizer_.randomize {σ M V : Type} (w : Nat) (acc : BandedAccess M V)
    (matr : M) (engine : σ) (itemDist : σ → V × σ) : Run σ M (Nat × Nat) V :=
  forLoop (fun i => decide (i < acc.size1 matr))
    (fun i s =>
      forLoop (fun j => decide (j ≤ (i + acc.upper matr) % 2 ^ w) && decide (j < acc.size2 matr))
        (fun j s => Run.assignDie acc.assign itemDist id (i, j) s)
        (acc.size2 matr) (BandedRandomizer_.startFrom_ i (acc.lower matr)) s)
    (acc.size1 matr) 0 (Run.start matr engine)

/-- The interface of a dense matrix used as the storage of a banded adaptor
with lower bandwidth `p` and upper bandwidth `q`. -/
def DenseMatrix.banded (V : Type) (p q : Nat) : BandedAccess (DenseMatrix V) V :=
  ⟨DenseMatrix.access V, fun _ => p, fun _ => q⟩

/-! ## Straight-line form of the fills -/

/-- Straight-line form of the loops: for each position of `ps` in turn,
`target(p) = f p (die())`. -/
def Run.fillAt {σ C P V : Type} (assign : C → P → V → C) (die : σ → V × σ)
    (f : P → V → V) (ps : List P) (s : Run σ C P V) : Run σ C P V :=
  ps.foldl (fun s p => Run.assignDie assign die (f p) p s) s

/-- The positions `(i, j)` with `i < m` and `j` in `cols i`, row by row. -/
def rowsCols (m : Nat) (cols : Nat → List Nat) : List (Nat × Nat) :=
  (List.range' 0 m).flatMap (fun i => (cols i).map (fun j => (i, j)))

/-! ## Symmetric and hermitian containers -/

/-- Modelled from the spec: a symmetric or hermitian container
(`symmetric_matrix`, `hermitian_matrix` and their adaptors in uBLAS, whose
declarations are not part of the repository).  Only the lower triangle
`j <= i` is stored; element access to a position above the diagonal is
routed to the transposed stored position, through `conj` (the identity for
a symmetric container, complex conjugation for a hermitian one). -/
structure MirroredMatrix (V : Type) where
  size : Nat
  stored : Nat → Nat → V

/-- Element read `matr(i, j)` of a symmetric or hermitian container. -/
def MirroredMatrix.entry {V : Type} (conj : V → V) (c : MirroredMatrix V) (i j : Nat) : V :=
  if j ≤ i then c.stored i j else conj (c.stored j i)

/-- Element assignment `matr(i, j) = v` of a symmetric or hermitian container. -/
def MirroredMatrix.assign {V : Type} (conj : V → V) (c : MirroredMatrix V)
    (p : Nat × Nat) (v : V) : MirroredMatrix V :=
  if p.2 ≤ p.1 then
    ⟨c.size, fun a b => if a = p.1 ∧ b = p.2 then v else c.stored a b⟩
  else
    ⟨c.size, fun a b => if a = p.2 ∧ b = p.1 then conj v else c.stored a b⟩

/-- The interface of a symmetric or hermitian container: it is square. -/
def MirroredMatrix.access {V : Type} (conj : V → V) : MatrixAccess (MirroredMatrix V) V :=
  ⟨MirroredMatrix.size, MirroredMatrix.size, MirroredMatrix.assign conj⟩

/-- An exact complex element type: Gaussian integers. -/
structure GaussInt where
  re : Int
  im : Int
deriving DecidableEq, Repr

/-- Complex conjugation (`type_traits<complex>::conj`). -/
def GaussInt.conj (z : GaussInt) : GaussInt := ⟨z.re, - z.im⟩

/-- The real part, converted back to the element type
(`type_traits<complex>::real` followed by the conversion the assignment makes). -/
def GaussInt.real (z : GaussInt) : GaussInt := ⟨z.re, 0⟩

/-! ## Sparse containers and the sparse fill -/

/-- Modelled from the spec: a sparse vector (`mapped_vector`,
`compressed_vector`, `coordinate_vector` of uBLAS, whose declarations are not
part of the repository): its size, its declared nonzero capacity (what
`nnz_capacity()` returns once the vector is cleared) and the entries it
stores, in insertion order. -/
structure SparseVector (V : Type) where
  size : Nat
  nnz_capacity : Nat
  stored : List (Nat × V)

/-- The method `clear()`: drops every stored entry. -/
def SparseVector.clear {V : Type} (c : SparseVector V) : SparseVector V :=
  ⟨c.size, c.nnz_capacity, []⟩

/-- The method `find_element(i)`: the stored entry at `i`, or null (`none`). -/
def SparseVector.find_element {V : Type} (c : SparseVector V) (i : Nat) : Option V :=
  (c.stored.find? (fun e => e.1 == i)).map Prod.snd

/-- The method `insert_element(i, t)`: stores `t` at the unoccupied position `i`. -/
def SparseVector.insert_element {V : Type} (c : SparseVector V) (i : Nat) (t : V) :
    SparseVector V :=
  ⟨c.size, c.nnz_capacity, c.stored ++ [(i, t)]⟩

/-- Modelled from the spec: a sparse matrix (`compressed_matrix`,
`coordinate_matrix` of uBLAS, whose declarations are not part of the
repository): its dimensions, its declared nonzero capacity (what
`nnz_capacity()` returns once the matrix is cleared) and the entries it
stores, in insertion order. -/
structure SparseMatrix (V : Type) where
  size1 : Nat
  size2 : Nat
  nnz_capacity : Nat
  stored : List ((Nat × Nat) × V)

/-- The method `clear()`: drops every stored entry. -/
def SparseMatrix.clear {V : Type} (c : SparseMatrix V) : SparseMatrix V :=
  ⟨c.size1, c.size2, c.nnz_capacity, []⟩

/-- The method `find_element(i, j)`: the stored entry at `(i, j)`, or null (`none`). -/
def SparseMatrix.find_element {V : Type} (c : SparseMatrix V) (i j : Nat) : Option V :=
  (c.stored.find? (fun e => e.1 == (i, j))).map Prod.snd

/-- The method `insert_element(i, j, t)`: stores `t` at the unoccupied position `(i, j)`. -/
def SparseMatrix.insert_element {V : Type} (c : SparseMatrix V) (i j : Nat) (t : V) :
    SparseMatrix V :=
  ⟨c.size1, c.size2, c.nnz_capacity, c.stored ++ [((i, j), t)]⟩

/-- The loop of `SparseRandomizer_::randomizeVector`:
`while (remained > 0) { falled = indexDie(); if (!vect.find_element(falled)) { vect.insert_element(falled, itemDie()); --remained; } }`
run for at most `fuel` iterations; `none` means that the fuel ran out with
`remained` still positive. -/
def SparseRandomizer_.vectorLoop {σ V : Type} (itemDie : σ → V × σ) (indexDie : σ → Nat × σ) :
    Nat → Nat → Run σ (SparseVector V) Nat V → Option (Run σ (SparseVector V) Nat V)
  | 0, remained, s => if remained > 0 then none else some s
  | fuel + 1, remained, s =>
    if remained > 0 then
      if (s.container.find_element (indexDie s.engine).1).isNone then
        SparseRandomizer_.vectorLoop itemDie indexDie fuel (remained - 1)
          ⟨s.container.insert_element (indexDie s.engine).1 (itemDie (indexDie s.engine).2).1,
            (itemDie (indexDie s.engine).2).2, s.itemDraws + 1, s.indexDraws + 1,
            s.writes ++ [((indexDie s.engine).1, (itemDie (indexDie s.engine).2).1)]⟩
      else
        SparseRandomizer_.vectorLoop itemDie indexDie fuel remained
          ⟨s.container, (indexDie s.engine).2, s.itemDraws, s.indexDraws + 1, s.writes⟩
    else some s

/-- Source `SparseRandomizer_::randomizeVector`: `vect.clear()`, then the loop with
`remained = vect.nnz_capacity()` and the index die made by
`IndexDistCreator::create(vect.size())`. -/
def SparseRandomizer_.randomizeVector {σ V : Type} (create : Nat → σ → Nat × σ) (fuel : Nat)
    (vect : SparseVector V) (engine : σ) (itemDist : σ → V × σ) :
    Option (Run σ (SparseVector V) Nat V) :=
  SparseRandomizer_.vectorLoop itemDist (create vect.clear.size) fuel
    vect.clear.nnz_capacity (Run.start vect.clear engine)

/-- The loop of `SparseRandomizer_::randomizeMatrix`:
`while (remained > 0) { falledIndex1 = index1Die(), falledIndex2 = index2Die();
   if (!matr.find_element(falledIndex1, falledIndex2)) { matr.insert_element(falledIndex1, falledIndex2, itemDie()); --remained; } }`
run for at most `fuel` iterations; `none` means that the fuel ran out with
`remained` still positive. -/
def SparseRandomizer_.matrixLoop {σ V : Type} (itemDie : σ → V × σ)
    (index1Die index2Die : σ → Nat × σ) :
    Nat → Nat → Run σ (SparseMatrix V) (Nat × Nat) V →
      Option (Run σ (SparseMatrix V) (Nat × Nat) V)
  | 0, remained, s => if remained > 0 then none else some s
  | fuel + 1, remained, s =>
    if remained > 0 then
      if (s.container.find_element (index1Die s.engine).1
            (index2Die (index1Die s.engine).2).1).isNone then
        SparseRandomizer_.matrixLoop itemDie index1Die index2Die fuel (remained - 1)
          ⟨s.container.insert_element (index1Die s.engine).1
              (index2Die (index1Die s.engine).2).1
              (itemDie (index2Die (index1Die s.engine).2).2).1,
            (itemDie (index2Die (index1Die s.engine).2).2).2, s.itemDraws + 1,
            s.indexDraws + 2,
            s.writes ++ [(((index1Die s.engine).1, (index2Die (index1Die s.engine).2).1),
              (itemDie (index2Die (index1Die s.engine).2).2).1)]⟩
      else
        SparseRandomizer_.matrixLoop itemDie index1Die index2Die fuel remained
          ⟨s.container, (index2Die (index1Die s.engine).2).2, s.itemDraws,
            s.indexDraws + 2, s.writes⟩
    else some s

/-- Source `SparseRandomizer_::randomizeMatrix`: `matr.clear()`, then the loop with
`remained = matr.nnz_capacity()` and the index dice made by
`IndexDistCreator::create(matr.size1())` and `IndexDistCreator::create(matr.size2())`. -/
def SparseRandomizer_.randomizeMatrix {σ V : Type} (create : Nat → σ → Nat × σ) (fuel : Nat)
    (matr : SparseMatrix V) (engine : σ) (itemDist : σ → V × σ) :
    Option (Run σ (SparseMatrix V) (Nat × Nat) V) :=
  SparseRandomizer_.matrixLoop itemDist (create matr.clear.size1) (create matr.clear.size2)
    fuel matr.clear.nnz_capacity (Run.start matr.clear engine)

/-! ## Structurally constant containers (`Dispatch_` specializations) -/

/-- Modelled from the spec: `zero_vector` of uBLAS (not part of the
repository): a size; every element reads as zero. -/
structure ZeroVector where
  size : Nat
deriving DecidableEq, Repr

/-- Modelled from the spec: `zero_matrix` of uBLAS (not part of the
repository): two dimensions; every element reads as zero. -/
structure ZeroMatrix where
  size1 : Nat
  size2 : Nat
deriving DecidableEq, Repr

/-- Modelled from the spec: `identity_matrix` of uBLAS (not part of the
repository): two dimensions; the diagonal reads as one, the rest as zero. -/
structure IdentityMatrix where
  size1 : Nat
  size2 : Nat
deriving DecidableEq, Repr

/-- Modelled from the spec: `scalar_vector` of uBLAS (not part of the
repository): a size and the one value every element reads as. -/
structure ScalarVector (V : Type) where
  size : Nat
  value : V
deriving DecidableEq, Repr

/-- Element read `vect(i)` of a uniform-scalar vector. -/
def ScalarVector.elem {V : Type} (c : ScalarVector V) (_i : Nat) : V := c.value

/-- Modelled from the spec: `scalar_matrix` of uBLAS (not part of the
repository): two dimensions and the one value every element reads as. -/
structure ScalarMatrix (V : Type) where
  size1 : Nat
  size2 : Nat
  value : V
deriving DecidableEq, Repr

/-- Element read `matr(i, j)` of a uniform-scalar matrix. -/
def ScalarMatrix.elem {V : Type} (c : ScalarMatrix V) (_i _j : Nat) : V := c.value

/-- Source `Dispatch_<zero_vector>::randomize`: the body is empty. -/
def Dispatch_zero_vector.randomize {σ V : Type} (vect : ZeroVector) (engine : σ)
    (_itemDist : σ → V × σ) : Run σ ZeroVector Nat V :=
  Run.start vect engine

/-- Source `Dispatch_<zero_matrix>::randomize`: the body is empty. -/
def Dispatch_zero_matrix.randomize {σ V : Type} (matr : ZeroMatrix) (engine : σ)
    (_itemDist : σ → V × σ) : Run σ ZeroMatrix (Nat × Nat) V :=
  Run.start matr engine

/-- Source `Dispatch_<identity_matrix>::randomize`: the body is empty. -/
def Dispatch_identity_matrix.randomize {σ V : Type} (matr : IdentityMatrix) (engine : σ)
    (_itemDist : σ → V × σ) : Run σ IdentityMatrix (Nat × Nat) V :=
  Run.start matr engine

/-- Source `Dispatch_<scalar_vector>::randomize`:
`scalar_vector temp(vect.size(), itemDie()); vect = temp;` -/
def Dispatch_scalar_vector.randomize {σ V : Type} (vect : ScalarVector V) (engine : σ)
    (itemDist : σ → V × σ) : Run σ (ScalarVector V) Nat V :=
  ⟨⟨vect.size, (itemDist engine).1⟩, (itemDist engine).2, 1, 0, []⟩

/-- Source `Dispatch_<scalar_matrix>::randomize`:
`scalar_matrix temp(matr.size1(), matr.size2(), itemDie()); matr = temp;` -/
def Dispatch_scalar_matrix.randomize {σ V : Type} (matr : ScalarMatrix V) (engine : σ)
    (itemDist : σ → V × σ) : Run σ (ScalarMatrix V) (Nat × Nat) V :=
  ⟨⟨matr.size1, matr.size2, (itemDist engine).1⟩, (itemDist engine).2, 1, 0, []⟩

/-- A counter engine: the value drawn is the engine state, which then advances by one. -/
def counterDie : Nat → Nat × Nat := fun e => (e, e + 1)

/-- An index distribution creator for the counter engine: the index drawn for
size `n` is the engine state modulo `n`. -/
def modCreate : Nat → Nat → Nat × Nat := fun n e => (e % n, e + 1)

/-- An item die over the Gaussian integers for the counter engine: the value
drawn in state `e` is `e + (e + 1) i`. -/
def gaussDie : Nat → GaussInt × Nat := fun e => (⟨e, e + 1⟩, e + 1)

/-! ## The single-hot vector -/

/-- Modelled from the spec: `unit_vector` of uBLAS (not part of the
repository): a size and the index of the one element that reads as one; the
constructor `unit_vector(size, index)` stores both without a check. -/
structure UnitVector where
  size : Nat
  index : Nat
deriving DecidableEq, Repr

/-- Element read `vect(i)` of a single-hot vector: one at the hot index,
zero elsewhere. -/
def UnitVector.elem {V : Type} (zero one : V) (c : UnitVector) (i : Nat) : V :=
  if i = c.index then one else zero

/-- Source `Dispatch_<unit_vector>::randomize`:
`if (vect.size() > 0) { IndexDie indexDie(engine, IndexDistCreator::create(vect.size()));
   Vector temp(vect.size(), indexDie()); vect = temp; }` -/
def Dispatch_unit_vector.randomize {σ V : Type} (create : Nat → σ → Nat × σ)
    (vect : UnitVector) (engine : σ) (_itemDist : σ → V × σ) : Run σ UnitVector Nat V :=
  if vect.size > 0 then
    ⟨⟨vect.size, (create vect.size engine).1⟩, (create vect.size engine).2, 0, 1, []⟩
  else
    Run.start vect engine

/-! ## One iteration of the sparse loops -/

/-- The body of the loop of `SparseRandomizer_::randomizeVector`, on the
budget counter and the run:
`falled = indexDie(); if (!vect.find_element(falled)) { vect.insert_element(falled, itemDie()); --remained; }` -/
def SparseRandomizer_.vectorBody {σ V : Type} (itemDie : σ → V × σ) (indexDie : σ → Nat × σ)
    (x : Nat × Run σ (SparseVector V) Nat V) : Nat × Run σ (SparseVector V) Nat V :=
  if (x.2.container.find_element (indexDie x.2.engine).1).isNone then
    (x.1 - 1,
      ⟨x.2.container.insert_element (indexDie x.2.engine).1
          (itemDie (indexDie x.2.engine).2).1,
        (itemDie (indexDie x.2.engine).2).2, x.2.itemDraws + 1, x.2.indexDraws + 1,
        x.2.writes ++ [((indexDie x.2.engine).1, (itemDie (indexDie x.2.engine).2).1)]⟩)
  else
    (x.1, ⟨x.2.container, (indexDie x.2.engine).2, x.2.itemDraws, x.2.indexDraws + 1,
      x.2.writes⟩)

/-- The budget counter and the run after at most `n` iterations of the loop
`while (remained > 0) body` of `SparseRandomizer_::randomizeVector`. -/
def SparseRandomizer_.vectorIter {σ V : Type} (itemDie : σ → V × σ) (indexDie : σ → Nat × σ) :
    Nat → Nat × Run σ (SparseVector V) Nat V → Nat × Run σ (SparseVector V) Nat V
  | 0, x => x
  | n + 1, x =>
    if x.1 > 0 then
      SparseRandomizer_.vectorIter itemDie indexDie n
        (SparseRandomizer_.vectorBody itemDie indexDie x)
    else x

/-- The body of the loop of `SparseRandomizer_::randomizeMatrix`, on the
budget counter and the run:
`falledIndex1 = index1Die(), falledIndex2 = index2Die();
 if (!matr.find_element(falledIndex1, falledIndex2)) { matr.insert_element(falledIndex1, falledIndex2, itemDie()); --remained; }` -/
def SparseRandomizer_.matrixBody {σ V : Type} (itemDie : σ → V × σ)
    (index1Die index2Die : σ → Nat × σ)
    (x : Nat × Run σ (SparseMatrix V) (Nat × Nat) V) :
    Nat × Run σ (SparseMatrix V) (Nat × Nat) V :=
  if (x.2.container.find_element (index1Die x.2.engine).1
        (index2Die (index1Die x.2.engine).2).1).isNone then
    (x.1 - 1,
      ⟨x.2.container.insert_element (index1Die x.2.engine).1
          (index2Die (index1Die x.2.engine).2).1
          (itemDie (index2Die (index1Die x.2.engine).2).2).1,
        (itemDie (index2Die (index1Die x.2.engine).2).2).2, x.2.itemDraws + 1,
        x.2.indexDraws + 2,
        x.2.writes ++ [(((index1Die x.2.engine).1, (index2Die (index1Die x.2.engine).2).1),
          (itemDie (index2Die (index1Die x.2.engine).2).2).1)]⟩)
  else
    (x.1, ⟨x.2.container, (index2Die (index1Die x.2.engine).2).2, x.2.itemDraws,
      x.2.indexDraws + 2, x.2.writes⟩)

/-- The budget counter and the run after at most `n` iterations of the loop
`while (remained > 0) body` of `SparseRandomizer_::randomizeMatrix`. -/
def SparseRandomizer_.matrixIter {σ V : Type} (itemDie : σ → V × σ)
    (index1Die index2Die : σ → Nat × σ) :
    Nat → Nat × Run σ (SparseMatrix V) (Nat × Nat) V →
      Nat × Run σ (SparseMatrix V) (Nat × Nat) V
  | 0, x => x
  | n + 1, x =>
    if x.1 > 0 then
      SparseRandomizer_.matrixIter itemDie index1Die index2Die n
        (SparseRandomizer_.matrixBody itemDie index1Die index2Die x)
    else x

/-! ## The Shape Dispatch Registry (`Dispatch_`) -/

/-- A C++ type as the partial specializations of the repository tell types
apart: the uBLAS container class templates with their template arguments,
the triangular type tags, cv-qualified types, and any other type by name. -/
inductive CType where
  | named (name : String)
  | lower
  | unit_lower
  | upper
  | unit_upper
  | strict_lower
  | strict_upper
  | const_ (t : CType)
  | volatile_ (t : CType)
  | vector (item storage : CType)
  | bounded_vector (item : CType) (max_size : Nat)
  | c_vector (item : CType) (size : Nat)
  | zero_vector (item alloc : CType)
  | unit_vector (item alloc : CType)
  | scalar_vector (item alloc : CType)
  | mapped_vector (item storage : CType)
  | compressed_vector (item : CType) (ib : Nat) (indexArray itemArray : CType)
  | coordinate_vector (item : CType) (ib : Nat) (indexArray itemArray : CType)
  | matrix (item orientation storage : CType)
  | bounded_matrix (item : CType) (m n : Nat) (orientation : CType)
  | c_matrix (item : CType) (m n : Nat)
  | vector_of_vector (item orientation storage : CType)
  | zero_matrix (item alloc : CType)
  | identity_matrix (item alloc : CType)
  | scalar_matrix (item alloc : CType)
  | triangular_matrix (item tag orientation storage : CType)
  | triangular_adaptor (matrix tag : CType)
  | symmetric_matrix (item tag orientation storage : CType)
  | symmetric_adaptor (matrix tag : CType)
  | hermitian_matrix (item tag orientation storage : CType)
  | hermitian_adaptor (matrix tag : CType)
  | banded_matrix (item orientation storage : CType)
  | banded_adaptor (matrix : CType)
  | mapped_matrix (item orientation storage : CType)
  | compressed_matrix (item orientation : CType) (ib : Nat) (indexArray itemArray : CType)
  | coordinate_matrix (item orientation : CType) (ib : Nat) (indexArray itemArray : CType)
  | generalized_vector_of_vector (item orientation storage : CType)
deriving DecidableEq, Repr

/-- The bodies a `Dispatch_<Container>::randomize` can have: a call of one
of the backends, the empty body, or one of the three whole-container
replacements. -/
inductive Strategy where
  | fullVector
  | fullMatrix
  | sparseVector
  | sparseMatrix
  | lower
  | unitLower
  | upper
  | unitUpper
  | symmetric
  | hermitian
  | banded
  | noop
  | unitVector
  | scalarVector
  | scalarMatrix
deriving DecidableEq, Repr

/-- The specializations of `Dispatch_` for `triangular_matrix` and
`triangular_adaptor`, by type tag: the generic one is empty, the four for
`lower`, `unit_lower`, `upper` and `unit_upper` call `TriangleRandomizer_`. -/
def Dispatch_.triangular : CType → Option Strategy
  | .lower => some .lower
  | .unit_lower => some .unitLower
  | .upper => some .upper
  | .unit_upper => some .unitUpper
  | _ => none

/-- The registry `Dispatch_<Container>`: the body of `randomize` in the
specialization that matches the container type, or `none` when the matching
specialization (or the primary template) has no `randomize` member. -/
def Dispatch_ : CType → Option Strategy
  | .vector _ _ => some .fullVector
  | .bounded_vector _ _ => some .fullVector
  | .c_vector _ _ => some .fullVector
  | .zero_vector _ _ => some .noop
  | .unit_vector _ _ => some .unitVector
  | .scalar_vector _ _ => some .scalarVector
  | .mapped_vector _ _ => some .sparseVector
  | .compressed_vector _ _ _ _ => some .sparseVector
  | .coordinate_vector _ _ _ _ => some .sparseVector
  | .matrix _ _ _ => some .fullMatrix
  | .bounded_matrix _ _ _ _ => some .fullMatrix
  | .c_matrix _ _ _ => some .fullMatrix
  | .vector_of_vector _ _ _ => some .fullMatrix
  | .zero_matrix _ _ => some .noop
  | .identity_matrix _ _ => some .noop
  | .scalar_matrix _ _ => some .scalarMatrix
  | .triangular_matrix _ tag _ _ => Dispatch_.triangular tag
  | .triangular_adaptor _ tag => Dispatch_.triangular tag
  | .symmetric_matrix _ _ _ _ => some .symmetric
  | .symmetric_adaptor _ _ => some .symmetric
  | .hermitian_matrix _ _ _ _ => some .hermitian
  | .hermitian_adaptor _ _ => some .hermitian
  | .banded_matrix _ _ _ => some .banded
  | .banded_adaptor _ => some .banded
  | .mapped_matrix _ _ _ => none
  | .compressed_matrix _ _ _ _ _ => some .sparseMatrix
  | .coordinate_matrix _ _ _ _ _ => some .sparseMatrix
  | .generalized_vector_of_vector _ _ _ => some .sparseMatrix
  | _ => none

/-! ## Running a resolved strategy, and the facade (`RandomGenerator`) -/

/-- A container value of any of the modelled kinds.  Dense storage also
stands for the storage of a triangular container; a banded container is
dense storage with its two bandwidths. -/
inductive Container (V : Type) where
  | denseVector (c : DenseVector V)
  | denseMatrix (c : DenseMatrix V)
  | banded (lower upper : Nat) (c : DenseMatrix V)
  | mirrored (c : MirroredMatrix V)
  | sparseVector (c : SparseVector V)
  | sparseMatrix (c : SparseMatrix V)
  | zeroVector (c : ZeroVector)
  | unitVector (c : UnitVector)
  | scalarVector (c : ScalarVector V)
  | zeroMatrix (c : ZeroMatrix)
  | identityMatrix (c : IdentityMatrix)
  | scalarMatrix (c : ScalarMatrix V)

/-- What a fill leaves behind: the container, the engine, and the numbers of
item draws and index draws it made. -/
structure Outcome (σ V : Type) where
  container : Container V
  engine : σ
  itemDraws : Nat
  indexDraws : Nat

/-- The outcome of a run, the container wrapped into `Container`. -/
def Run.outcome {σ C P V : Type} (wrap : C → Container V) (r : Run σ C P V) : Outcome σ V :=
  ⟨wrap r.container, r.engine, r.itemDraws, r.indexDraws⟩

/-- How a call of `randomize` ends: `rejected` when the call does not
compile (no `randomize` member for the container type, no `create` in the
index distribution creator, or a body applied to a container of another
kind), `exhausted` when a sparse loop is still running after the allotted
iterations, `done` when it returns. -/
inductive Result (α : Type) where
  | rejected
  | exhausted
  | done (a : α)

/-- What an instantiation `StdDispatchRandomizer<Engine_, ItemDistribution_,
IndexDistributionCreator_>` fixes besides the engine and the item
distribution: the width `w` of `Size`, `IndexDistributionCreator_::create`
(absent for the default `EmptyType`), `type_traits<value_type>::conj` and
`::real` of the element type, and the iterations allotted to a sparse loop. -/
structure Instantiation (σ V : Type) where
  w : Nat
  create : Option (Nat → σ → Nat × σ)
  conj : V → V
  real : V → V
  fuel : Nat

/-- The body of `Dispatch_<Container>::randomize` named by a strategy, run on
a container value. -/
def Strategy.run {σ V : Type} (cfg : Instantiation σ V) :
    Strategy → Container V → σ → (σ → V × σ) → Result (Outcome σ V)
  | .fullVector, .denseVector c, e, d =>
    .done (Run.outcome .denseVector
      (FullRandomizer_.randomizeVector (DenseVector.access V) c e d))
  | .fullMatrix, .denseMatrix c, e, d =>
    .done (Run.outcome .denseMatrix
      (FullRandomizer_.randomizeMatrix (DenseMatrix.access V) c e d))
  | .sparseVector, .sparseVector c, e, d =>
    match cfg.create with
    | none => .rejected
    | some create =>
      match SparseRandomizer_.randomizeVector create cfg.fuel c e d with
      | none => .exhausted
      | some r => .done (Run.outcome .sparseVector r)
  | .sparseMatrix, .sparseMatrix c, e, d =>
    match cfg.create with
    | none => .rejected
    | some create =>
      match SparseRandomizer_.randomizeMatrix create cfg.fuel c e d with
      | none => .exhausted
      | some r => .done (Run.outcome .sparseMatrix r)
  | .lower, .denseMatrix c, e, d =>
    .done (Run.outcome .denseMatrix
      (TriangleRandomizer_.randomizeLower (DenseMatrix.access V) c e d))
  | .unitLower, .denseMatrix c, e, d =>
    .done (Run.outcome .denseMatrix
      (TriangleRandomizer_.randomizeUnitLower (DenseMatrix.access V) c e d))
  | .upper, .denseMatrix c, e, d =>
    .done (Run.outcome .denseMatrix
      (TriangleRandomizer_.randomizeUpper (DenseMatrix.access V) c e d))
  | .unitUpper, .denseMatrix c, e, d =>
    .done (Run.outcome .denseMatrix
      (TriangleRandomizer_.randomizeUnitUpper (DenseMatrix.access V) c e d))
  | .symmetric, .mirrored c, e, d =>
    .done (Run.outcome .mirrored
      (SymmetricRandomizer_.randomize (MirroredMatrix.access id) c e d))
  | .hermitian, .mirrored c, e, d =>
    .done (Run.outcome .mirrored
      (HermitianRandomizer_.randomize (MirroredMatrix.access cfg.conj) cfg.real c e d))
  | .banded, .banded p q c, e, d =>
    .done (Run.outcome (.banded p q)
      (BandedRandomizer_.randomize cfg.w (DenseMatrix.banded V p q) c e d))
  | .noop, .zeroVector c, e, d =>
    .done (Run.outcome .zeroVector (Dispatch_zero_vector.randomize c e d))
  | .noop, .zeroMatrix c, e, d =>
    .done (Run.outcome .zeroMatrix (Dispatch_zero_matrix.randomize c e d))
  | .noop, .identityMatrix c, e, d =>
    .done (Run.outcome .identityMatrix (Dispatch_identity_matrix.randomize c e d))
  | .unitVector, .unitVector c, e, d =>
    match cfg.create with
    | none => .rejected
    | some create =>
      .done (Run.outcome .unitVector (Dispatch_unit_vector.randomize create c e d))
  | .scalarVector, .scalarVector c, e, d =>
    .done (Run.outcome .scalarVector (Dispatch_scalar_vector.randomize c e d))
  | .scalarMatrix, .scalarMatrix c, e, d =>
    .done (Run.outcome .scalarMatrix (Dispatch_scalar_matrix.randomize c e d))
  | _, _, _, _ => .rejected

/-- Source `StdDispatchRandomizer::randomize`:
`Dispatch_<Container>::randomize(container, engine, itemDist);`
for a container of static type `t`. -/
def StdDispatchRandomizer.randomize {σ V : Type} (cfg : Instantiation σ V) (t : CType)
    (container : Container V) (engine : σ) (itemDist : σ → V × σ) : Result (Outcome σ V) :=
  match Dispatch_ t with
  | none => .rejected
  | some s => s.run cfg container engine itemDist

/-- A class template that can be passed as the template template parameter
`DispatchRandomizer` of `RandomGenerator`: its static member `randomize`. -/
abbrev DispatchRandomizer (σ V : Type) : Type :=
  Instantiation σ V → CType → Container V → σ → (σ → V × σ) → Result (Outcome σ V)

/-- The fields of `RandomGenerator`: the engine bound by reference at
construction (its current state) and the copy of the item distribution. -/
structure RandomGenerator (σ V : Type) where
  engine_ : σ
  itemDistribution_ : σ → V × σ

/-- Source `RandomGenerator::operator()`:
`randomize(container, engine_, itemDistribution_);`
where `randomize` is the member inherited from the base class, which the
class head fixes as `StdDispatchRandomizer<Engine_, ItemDistribution_,
IndexDistributionCreator_>`; the template parameter `DispatchRandomizer`
occurs nowhere in the class. -/
def RandomGenerator.call {σ V : Type} (_dispatchRandomizer : DispatchRandomizer σ V)
    (cfg : Instantiation σ V) (g : RandomGenerator σ V) (t : CType)
    (container : Container V) : Result (Outcome σ V) :=
  StdDispatchRandomizer.randomize cfg t container g.engine_ g.itemDistribution_

/-- An instantiation for the counter engine: `Size` of 64 bits, the index
distribution creator `modCreate`, a real element type, 16 iterations
allotted to a sparse loop. -/
def counterInstantiation : Instantiation Nat Nat := ⟨64, some modCreate, id, id, 16⟩

/-! ## Reading triangular and banded containers -/

/-- Modelled from the spec: element read `matr(i, j)` of an upper triangular
container over dense storage (`triangular_matrix` and `triangular_adaptor` of
uBLAS, not part of the repository): positions below the diagonal read as
zero, the diagonal of a unit triangular container reads as one, every other
position reads from the storage. -/
def DenseMatrix.upperEntry {V : Type} (zero one : V) (unit : Bool) (c : DenseMatrix V)
    (i j : Nat) : V :=
  if j < i then zero else if i = j ∧ unit = true then one else c.elem i j

/-- Modelled from the spec: element read `matr(i, j)` of a banded container
over dense storage with lower bandwidth `p` and upper bandwidth `q`
(`banded_matrix` and `banded_adaptor` of uBLAS, not part of the repository):
positions outside the band read as zero, positions inside read from the
storage. -/
def DenseMatrix.bandedEntry {V : Type} (zero : V) (p q : Nat) (c : DenseMatrix V)
    (i j : Nat) : V :=
  if j + p < i ∨ i + q < j then zero else c.elem i j

/-! ## Structural parameters -/

/-- The structural parameters of a container: its kind, its dimensions and,
where it has them, its bandwidths and its declared nonzero capacity. -/
inductive Shape where
  | denseVector (size : Nat)
  | denseMatrix (size1 size2 : Nat)
  | banded (size1 size2 lower upper : Nat)
  | mirrored (size : Nat)
  | sparseVector (size nnz_capacity : Nat)
  | sparseMatrix (size1 size2 nnz_capacity : Nat)
  | zeroVector (size : Nat)
  | unitVector (size : Nat)
  | scalarVector (size : Nat)
  | zeroMatrix (size1 size2 : Nat)
  | identityMatrix (size1 size2 : Nat)
  | scalarMatrix (size1 size2 : Nat)
deriving DecidableEq, Repr

/-- The structural parameters of a container value. -/
def Container.shape {V : Type} : Container V → Shape
  | .denseVector c => .denseVector c.size
  | .denseMatrix c => .denseMatrix c.size1 c.size2
  | .banded p q c => .banded c.size1 c.size2 p q
  | .mirrored c => .mirrored c.size
  | .sparseVector c => .sparseVector c.size c.nnz_capacity
  | .sparseMatrix c => .sparseMatrix c.size1 c.size2 c.nnz_capacity
  | .zeroVector c => .zeroVector c.size
  | .unitVector c => .unitVector c.size
  | .scalarVector c => .scalarVector c.size
  | .zeroMatrix c => .zeroMatrix c.size1 c.size2
  | .identityMatrix c => .identityMatrix c.size1 c.size2
  | .scalarMatrix c => .scalarMatrix c.size1 c.size2

/-! ## Type substitution (`TypeReplacer`) -/

/-- The metafunction `boost::remove_cv`: the type without its top-level
`const` and `volatile` qualifiers. -/
def remove_cv : CType → CType
  | .const_ t => remove_cv t
  | .volatile_ t => remove_cv t
  | t => t

/-- Source `TypeReplacer::ReplaceBackend<Container, New>::Answer`, one clause
per partial specialization; `none` where the matching specialization (the
primary template) has no member `Answer`. -/
def TypeReplacer.ReplaceBackend : CType → CType → Option CType
  | .vector _ storage, new => some (.vector new storage)
  | .bounded_vector _ max_size, new => some (.bounded_vector new max_size)
  | .c_vector _ size, new => some (.c_vector new size)
  | .zero_vector _ alloc, new => some (.zero_vector new alloc)
  | .unit_vector _ alloc, new => some (.unit_vector new alloc)
  | .scalar_vector _ alloc, new => some (.scalar_vector new alloc)
  | .mapped_vector _ storage, new => some (.mapped_vector new storage)
  | .compressed_vector _ ib indexArray itemArray, new =>
    some (.compressed_vector new ib indexArray itemArray)
  | .coordinate_vector _ ib indexArray itemArray, new =>
    some (.coordinate_vector new ib indexArray itemArray)
  | .matrix _ orientation storage, new => some (.matrix new orientation storage)
  | .bounded_matrix _ m n orientation, new => some (.bounded_matrix new m n orientation)
  | .c_matrix _ m n, new => some (.c_matrix new m n)
  | .vector_of_vector _ orientation storage, new =>
    some (.vector_of_vector new orientation storage)
  | .zero_matrix _ alloc, new => some (.zero_matrix new alloc)
  | .identity_matrix _ alloc, new => some (.identity_matrix new alloc)
  | .scalar_matrix _ alloc, new => some (.scalar_matrix new alloc)
  | .triangular_matrix _ tag orientation storage, new =>
    some (.triangular_matrix new tag orientation storage)
  | .triangular_adaptor matrix tag, new =>
    (TypeReplacer.ReplaceBackend matrix new).map (fun matrixAnswer =>
      .triangular_adaptor matrixAnswer tag)
  | .symmetric_matrix _ tag orientation storage, new =>
    some (.symmetric_matrix new tag orientation storage)
  | .symmetric_adaptor matrix tag, new =>
    (TypeReplacer.ReplaceBackend matrix new).map (fun matrixAnswer =>
      .symmetric_adaptor matrixAnswer tag)
  | .hermitian_matrix _ tag orientation storage, new =>
    some (.hermitian_matrix new tag orientation storage)
  | .hermitian_adaptor matrix tag, new =>
    (TypeReplacer.ReplaceBackend matrix new).map (fun matrixAnswer =>
      .hermitian_adaptor matrixAnswer tag)
  | .banded_matrix _ orientation storage, new => some (.banded_matrix new orientation storage)
  | .banded_adaptor matrix, new =>
    (TypeReplacer.ReplaceBackend matrix new).map (fun matrixAnswer =>
      .banded_adaptor matrixAnswer)
  | .mapped_matrix _ orientation storage, new => some (.mapped_matrix new orientation storage)
  | .compressed_matrix _ orientation ib indexArray itemArray, new =>
    some (.compressed_matrix new orientation ib indexArray itemArray)
  | .coordinate_matrix _ orientation ib indexArray itemArray, new =>
    some (.coordinate_matrix new orientation ib indexArray itemArray)
  | .generalized_vector_of_vector _ orientation storage, new =>
    some (.generalized_vector_of_vector new orientation storage)
  | _, _ => none

/-- Source `TypeReplacer::Replace<Container, New>::Answer`:
`ReplaceBackend<typename remove_cv<Container>::type, New>::Answer`. -/
def TypeReplacer.Replace (container new : CType) : Option CType :=
  TypeReplacer.ReplaceBackend (remove_cv container) new

/-! ## The formatter (`BaseNiceOutputer`, `VectorNiceOutputer`, `MatrixNiceOutputer`)

The text written to a stream is a list of characters.  An output function
maps the text written so far to the text written when it returns; the text
is `none` once an exception has left the function.  `StreamSize` is a signed
integer.  How the stream renders an element (`output << value` under its
flags, locale and precision) and a size (through `boost::format`) are
parameters `render` and `renderSize`. -/

/-- The text written to a stream. -/
abbrev Text : Type := List Char

/-- The insertion `output << text`. -/
def put (text : Text) (output : Option Text) : Option Text :=
  output.map (fun written => written ++ text)

/-- The string `std::basic_string(count, ' ')` for a `StreamSize` count: a
negative count converts to a size above `max_size()` and the constructor
throws `std::length_error`. -/
def spaceString (count : Int) : Option Text :=
  if 0 ≤ count then some (List.replicate count.toNat ' ') else none

/-- The insertion `output << std::basic_string(count, ' ')`. -/
def putSpaces (count : Int) (output : Option Text) : Option Text :=
  output.bind (fun written => (spaceString count).map (fun spaces => written ++ spaces))

/-- The fields of `BaseNiceOutputer`. -/
structure BaseNiceOutputer where
  minSpaces_ : Int
  isLineFeedAfterAll_ : Bool

/-- Source `BaseNiceOutputer::outputRowSimply`:
`output << "("; for (i = 0; i + 1 < size; ++i) output << vector(i) << "," << string(getMinSpaces(), ' ');
 if (size >= 1) output << vector(size - 1); output << ")";` -/
def BaseNiceOutputer.outputRowSimply {V : Type} (o : BaseNiceOutputer) (render : V → Text)
    (output : Option Text) (vector : DenseVector V) : Option Text :=
  put [')']
    ((fun afterLoop =>
        if vector.size ≥ 1 then put (render (vector.elem (vector.size - 1))) afterLoop
        else afterLoop)
      (forLoop (fun i => decide (i + 1 < vector.size))
        (fun i out => putSpaces o.minSpaces_ (put [','] (put (render (vector.elem i)) out)))
        vector.size 0 (put ['('] output)))

/-- Source `BaseNiceOutputer::countValueOutputSize`: the length of the text
the value renders to. -/
def BaseNiceOutputer.countValueOutputSize {V : Type} (render : V → Text) (value : V) : Int :=
  ((render value).length : Int)

/-- The fields of `VectorNiceOutputer`. -/
structure VectorNiceOutputer extends BaseNiceOutputer where
  isLineFeedAfterSize_ : Bool

/-- Source `VectorNiceOutputer::operator()`:
`output << Format("[%1%]") % vector.size(); if (isLineFeedAfterSize()) output << "\n";
 outputRowSimply(output, vector); if (isLineFeedAfterAll()) output << "\n";` -/
def VectorNiceOutputer.call {V : Type} (o : VectorNiceOutputer) (render : V → Text)
    (renderSize : Nat → Text) (output : Option Text) (vector : DenseVector V) : Option Text :=
  (fun afterRow => if o.isLineFeedAfterAll_ then put ['\n'] afterRow else afterRow)
    (o.toBaseNiceOutputer.outputRowSimply render
      ((fun afterSize => if o.isLineFeedAfterSize_ then put ['\n'] afterSize else afterSize)
        (put (['['] ++ renderSize vector.size ++ [']']) output))
      vector)

/-- Source `MatrixNiceOutputer::ElementPlacing`. -/
inductive ElementPlacing where
  | SIMPLE
  | BY_COLUMNS
  | BY_EQUALWIDTH_COLUMNS
deriving DecidableEq, Repr

/-- The fields of `MatrixNiceOutputer`. -/
structure MatrixNiceOutputer extends BaseNiceOutputer where
  placing_ : ElementPlacing

/-- The proxy `row(matrix, i)`: row `i` of a matrix as a vector. -/
def DenseMatrix.row {V : Type} (matrix : DenseMatrix V) (i : Nat) : DenseVector V :=
  ⟨matrix.size2, fun j => matrix.elem i j⟩

/-- Source `MatrixNiceOutputer::spacesNeeded`:
`count = justifySize - itemOutputSize + minSpaces_; return string(count, ' ');` -/
def MatrixNiceOutputer.spacesNeeded (o : MatrixNiceOutputer) (itemOutputSize justifySize : Int) :
    Option Text :=
  spaceString (justifySize - itemOutputSize + o.minSpaces_)

/-- The start and the end of a row in the three `do...` methods:
`if (i == 0) output << "("; else output << " ";` before the row and
`if (i + 1 == m) output << ")"; else output << ",\n";` after it. -/
def MatrixNiceOutputer.rowFrame (m i : Nat) (row : Option Text → Option Text)
    (output : Option Text) : Option Text :=
  (fun afterRow => if i + 1 = m then put [')'] afterRow else put [',', '\n'] afterRow)
    (row (if i = 0 then put ['('] output else put [' '] output))

/-- Source `MatrixNiceOutputer::doSimply`:
`for (i = 0; i < matrix.size1(); ++i) { ...; outputRowSimply(output, row(matrix, i)); ... }` -/
def MatrixNiceOutputer.doSimply {V : Type} (o : MatrixNiceOutputer) (render : V → Text)
    (output : Option Text) (matrix : DenseMatrix V) : Option Text :=
  forLoop (fun i => decide (i < matrix.size1))
    (fun i out =>
      MatrixNiceOutputer.rowFrame matrix.size1 i
        (fun out => o.toBaseNiceOutputer.outputRowSimply render out (matrix.row i)) out)
    matrix.size1 0 output

/-- The tables the `do...Columns` methods fill before writing:
`elementOutputSizes` and `columnWidths` (for the equal-width method the one
`width` is kept at index 0 and `lastWidth` at index 1). -/
structure Measures where
  elementOutputSizes : Nat → Nat → Int
  columnWidths : Nat → Int

/-- The measuring loops of `MatrixNiceOutputer::doJustifiedColumns`:
`for (i = 0; i < m; ++i) for (j = 0; j < n; ++j) { current = countValueOutputSize(output, matrix(i, j));
   elementOutputSizes(i, j) = current; if (current > columnWidths[j]) columnWidths[j] = current; }`
starting from `columnWidths` all zero. -/
def MatrixNiceOutputer.measureColumns {V : Type} (render : V → Text) (matrix : DenseMatrix V) :
    Measures :=
  forLoop (fun i => decide (i < matrix.size1))
    (fun i t =>
      forLoop (fun j => decide (j < matrix.size2))
        (fun j t =>
          (fun current =>
            (⟨fun a b => if a = i ∧ b = j then current else t.elementOutputSizes a b,
              fun b => if b = j ∧ current > t.columnWidths b then current
                else t.columnWidths b⟩ : Measures))
            (BaseNiceOutputer.countValueOutputSize render (matrix.elem i j)))
        matrix.size2 0 t)
    matrix.size1 0 ⟨fun _ _ => 0, fun _ => 0⟩

/-- The row of `MatrixNiceOutputer::doJustifiedColumns`:
`output << "("; for (j = 0; j + 1 < n; ++j) output << matrix(i, j) << "," << spacesNeeded(elementOutputSizes(i, j), columnWidths[j]);
 if (n >= 1) output << matrix(i, n-1) << string(columnWidths[n-1] - elementOutputSizes(i, n-1), ' ');
 output << ")";` -/
def MatrixNiceOutputer.justifiedRow {V : Type} (o : MatrixNiceOutputer) (render : V → Text)
    (matrix : DenseMatrix V) (t : Measures) (i : Nat) (output : Option Text) : Option Text :=
  put [')']
    ((fun afterLoop =>
        if matrix.size2 ≥ 1 then
          putSpaces (t.columnWidths (matrix.size2 - 1)
              - t.elementOutputSizes i (matrix.size2 - 1))
            (put (render (matrix.elem i (matrix.size2 - 1))) afterLoop)
        else afterLoop)
      (forLoop (fun j => decide (j + 1 < matrix.size2))
        (fun j out =>
          (fun afterComma =>
            afterComma.bind (fun written =>
              (o.spacesNeeded (t.elementOutputSizes i j) (t.columnWidths j)).map
                (fun spaces => written ++ spaces)))
            (put [','] (put (render (matrix.elem i j)) out)))
        matrix.size2 0 (put ['('] output)))

/-- Source `MatrixNiceOutputer::doJustifiedColumns`: the measuring loops,
then `for (i = 0; i < m; ++i) { ...; the row; ... }`. -/
def MatrixNiceOutputer.doJustifiedColumns {V : Type} (o : MatrixNiceOutputer)
    (render : V → Text) (output : Option Text) (matrix : DenseMatrix V) : Option Text :=
  forLoop (fun i => decide (i < matrix.size1))
    (fun i out =>
      MatrixNiceOutputer.rowFrame matrix.size1 i
        (o.justifiedRow render matrix (MatrixNiceOutputer.measureColumns render matrix) i) out)
    matrix.size1 0 output

/-- The measuring loops of `MatrixNiceOutputer::doEqualWidthColumns`:
`for (i = 0; i < m; ++i) for (j = 0; j < n; ++j) { current = countValueOutputSize(output, matrix(i, j));
   elementOutputSizes(i, j) = current; if (current > width) width = current; }
 if (n > 0) for (i = 0; i < m; ++i) if (elementOutputSizes(i, n-1) > lastWidth) lastWidth = elementOutputSizes(i, n-1);`
starting from `width = 0` (kept in `columnWidths 0`) and `lastWidth = 0`
(kept in `columnWidths 1`). -/
def MatrixNiceOutputer.measureWidth {V : Type} (render : V → Text) (matrix : DenseMatrix V) :
    Measures :=
  (fun t : Measures =>
    if matrix.size2 > 0 then
      forLoop (fun i => decide (i < matrix.size1))
        (fun i t =>
          if t.elementOutputSizes i (matrix.size2 - 1) > t.columnWidths 1 then
            (⟨t.elementOutputSizes,
              fun b => if b = 1 then t.elementOutputSizes i (matrix.size2 - 1)
                else t.columnWidths b⟩ : Measures)
          else t)
        matrix.size1 0 t
    else t)
  (forLoop (fun i => decide (i < matrix.size1))
    (fun i t =>
      forLoop (fun j => decide (j < matrix.size2))
        (fun j t =>
          (fun current =>
            (⟨fun a b => if a = i ∧ b = j then current else t.elementOutputSizes a b,
              fun b => if b = 0 ∧ current > t.columnWidths 0 then current
                else t.columnWidths b⟩ : Measures))
            (BaseNiceOutputer.countValueOutputSize render (matrix.elem i j)))
        matrix.size2 0 t)
    matrix.size1 0 ⟨fun _ _ => 0, fun _ => 0⟩)

/-- The row of `MatrixNiceOutputer::doEqualWidthColumns`:
`output << "("; for (j = 0; j + 1 < n; ++j) output << matrix(i, j) << "," << spacesNeeded(elementOutputSizes(i, j), width);
 if (n >= 1) output << matrix(i, n-1) << string(width - elementOutputSizes(i, n-1), ' ');
 output << ")";` -/
def MatrixNiceOutputer.equalWidthRow {V : Type} (o : MatrixNiceOutputer) (render : V → Text)
    (matrix : DenseMatrix V) (t : Measures) (i : Nat) (output : Option Text) : Option Text :=
  put [')']
    ((fun afterLoop =>
        if matrix.size2 ≥ 1 then
          putSpaces (t.columnWidths 0 - t.elementOutputSizes i (matrix.size2 - 1))
            (put (render (matrix.elem i (matrix.size2 - 1))) afterLoop)
        else afterLoop)
      (forLoop (fun j => decide (j + 1 < matrix.size2))
        (fun j out =>
          (fun afterComma =>
            afterComma.bind (fun written =>
              (o.spacesNeeded (t.elementOutputSizes i j) (t.columnWidths 0)).map
                (fun spaces => written ++ spaces)))
            (put [','] (put (render (matrix.elem i j)) out)))
        matrix.size2 0 (put ['('] output)))

/-- Source `MatrixNiceOutputer::doEqualWidthColumns`: the measuring loops,
then `for (i = 0; i < m; ++i) { ...; the row; ... }`. -/
def MatrixNiceOutputer.doEqualWidthColumns {V : Type} (o : MatrixNiceOutputer)
    (render : V → Text) (output : Option Text) (matrix : DenseMatrix V) : Option Text :=
  forLoop (fun i => decide (i < matrix.size1))
    (fun i out =>
      MatrixNiceOutputer.rowFrame matrix.size1 i
        (o.equalWidthRow render matrix (MatrixNiceOutputer.measureWidth render matrix) i) out)
    matrix.size1 0 output

/-- Source `MatrixNiceOutputer::operator()`:
`output << Format("[%1%, %2%]\n") % matrix.size1() % matrix.size2();
 if (matrix.size1() == 0) output << "()"; else if (getPlacing() == SIMPLE) doSimply(output, matrix);
 else if (getPlacing() == BY_COLUMNS) doJustifiedColumns(output, matrix);
 else if (getPlacing() == BY_EQUALWIDTH_COLUMNS) doEqualWidthColumns(output, matrix);
 if (isLineFeedAfterAll()) output << "\n";` -/
def MatrixNiceOutputer.call {V : Type} (o : MatrixNiceOutputer) (render : V → Text)
    (renderSize : Nat → Text) (output : Option Text) (matrix : DenseMatrix V) : Option Text :=
  (fun afterBody => if o.isLineFeedAfterAll_ then put ['\n'] afterBody else afterBody)
    ((fun afterHeader =>
        if matrix.size1 = 0 then put ['(', ')'] afterHeader
        else if o.placing_ = .SIMPLE then o.doSimply render afterHeader matrix
        else if o.placing_ = .BY_COLUMNS then o.doJustifiedColumns render afterHeader matrix
        else if o.placing_ = .BY_EQUALWIDTH_COLUMNS then
          o.doEqualWidthColumns render afterHeader matrix
        else afterHeader)
      (put (['['] ++ renderSize matrix.size1 ++ [',', ' '] ++ renderSize matrix.size2
        ++ [']', '\n']) output))

/-! ### The justified layout, as the specification words it

A second description of the text of the `BY_COLUMNS` mode, to be compared
with `MatrixNiceOutputer.doJustifiedColumns`: every column is as wide as the
widest rendered element in it. -/

/-- The width of column `j`: the greatest rendered length over its rows. -/
def columnWidth {V : Type} (render : V → Text) (matrix : DenseMatrix V) (j : Nat) : Nat :=
  ((List.range matrix.size1).map (fun i => (render (matrix.elem i j)).length)).foldl max 0

/-- The padding after the comma of element `(i, j)`: up to the column width,
then `minSpaces` more. -/
def justifiedPadding {V : Type} (minSpaces : Nat) (render : V → Text) (matrix : DenseMatrix V)
    (i j : Nat) : Nat :=
  columnWidth render matrix j - (render (matrix.elem i j)).length + minSpaces

/-- A cell that is not the last of its row: the element, a comma, the padding. -/
def justifiedCell {V : Type} (minSpaces : Nat) (render : V → Text) (matrix : DenseMatrix V)
    (i j : Nat) : Text :=
  render (matrix.elem i j) ++ ',' :: List.replicate (justifiedPadding minSpaces render matrix i j) ' '

/-- The last cell of a row: the element, padded to its column width. -/
def justifiedLastCell {V : Type} (render : V → Text) (matrix : DenseMatrix V) (i : Nat) : Text :=
  if matrix.size2 ≥ 1 then
    render (matrix.elem i (matrix.size2 - 1))
      ++ List.replicate (columnWidth render matrix (matrix.size2 - 1)
          - (render (matrix.elem i (matrix.size2 - 1))).length) ' '
  else []

/-- The bracketed body of row `i`. -/
def justifiedBody {V : Type} (minSpaces : Nat) (render : V → Text) (matrix : DenseMatrix V)
    (i : Nat) : Text :=
  ['('] ++ (List.range (matrix.size2 - 1)).flatMap (justifiedCell minSpaces render matrix i)
    ++ justifiedLastCell render matrix i ++ [')']

/-- The line of row `i`: `(` before the first row and a space before a later
one, then the body. -/
def justifiedLine {V : Type} (minSpaces : Nat) (render : V → Text) (matrix : DenseMatrix V)
    (i : Nat) : Text :=
  (if i = 0 then ['('] else [' ']) ++ justifiedBody minSpaces render matrix i

/-- The whole text: the lines, each but the last followed by a comma and a
line feed, the last by `)`. -/
def justifiedText {V : Type} (minSpaces : Nat) (render : V → Text) (matrix : DenseMatrix V) :
    Text :=
  (List.range matrix.size1).flatMap (fun i =>
    justifiedLine minSpaces render matrix i
      ++ (if i + 1 = matrix.size1 then [')'] else [',', '\n']))

/-- The offset of column `j` in a line: the two opening characters, then for
every column before it the column width, the comma and `minSpaces` spaces. -/
def columnOffset {V : Type} (minSpaces : Nat) (render : V → Text) (matrix : DenseMatrix V)
    (j : Nat) : Nat :=
  2 + ((List.range j).map (fun b => columnWidth render matrix b + 1 + minSpaces)).sum

/-! ## Replaying given sequences of draws

To speak of the sparse fill on a given sequence of index draws, the engine
replays two sequences: its state counts the index draws and the item draws
made so far, an index die reads the next index, and the item die the next
item. -/

/-- An index die that replays the sequence `I`. -/
def replayIndex (I : Nat → Nat) (e : Nat × Nat) : Nat × (Nat × Nat) :=
  (I e.1, (e.1 + 1, e.2))

/-- An item die that replays the sequence `J`. -/
def replayItem {V : Type} (J : Nat → V) (e : Nat × Nat) : V × (Nat × Nat) :=
  (J e.2, (e.1, e.2 + 1))

/-- The distinct values of a list, in the order in which they first appear. -/
def firstOccurrences {P : Type} [DecidableEq P] (l : List P) : List P :=
  l.foldl (fun acc p => if p ∈ acc then acc else acc ++ [p]) []

/-- The distinct positions among the first `n` index draws of a sparse vector
fill. -/
def vectorPositions (I : Nat → Nat) (n : Nat) : List Nat :=
  firstOccurrences ((List.range n).map I)

/-- The distinct positions among the first `n` pairs of index draws of a
sparse matrix fill: the row index is drawn before the column index. -/
def matrixPositions (I : Nat → Nat) (n : Nat) : List (Nat × Nat) :=
  firstOccurrences ((List.range n).map (fun a => (I (2 * a), I (2 * a + 1))))

/-- The budget counter and the run after at most `n` iterations of the sparse
vector fill's loop on the replayed sequences `I` and `J`, from the cleared
vector. -/
def replayVector {V : Type} (I : Nat → Nat) (J : Nat → V) (vect : SparseVector V) (n : Nat) :
    Nat × Run (Nat × Nat) (SparseVector V) Nat V :=
  SparseRandomizer_.vectorIter (replayItem J) (replayIndex I) n
    (vect.nnz_capacity, Run.start vect.clear (0, 0))

/-- The budget counter and the run after at most `n` iterations of the sparse
matrix fill's loop on the replayed sequences `I` and `J`, from the cleared
matrix. -/
def replayMatrix {V : Type} (I : Nat → Nat) (J : Nat → V) (matr : SparseMatrix V) (n : Nat) :
    Nat × Run (Nat × Nat) (SparseMatrix V) (Nat × Nat) V :=
  SparseRandomizer_.matrixIter (replayItem J) (replayIndex I) (replayIndex I) n
    (matr.nnz_capacity, Run.start matr.clear (0, 0))

/-- Modelled from the spec: the element type of a container type (the member
`value_type` of the uBLAS containers, whose declarations are not part of the
repository): the `Item` argument of a container template, the element type of
the adapted matrix for an adaptor, and the element type of the unqualified
type for a cv-qualified one. -/
def value_type : CType → Option CType
  | .const_ t => value_type t
  | .volatile_ t => value_type t
  | .vector item _ => some item
  | .bounded_vector item _ => some item
  | .c_vector item _ => some item
  | .zero_vector item _ => some item
  | .unit_vector item _ => some item
  | .scalar_vector item _ => some item
  | .mapped_vector item _ => some item
  | .compressed_vector item _ _ _ => some item
  | .coordinate_vector item _ _ _ => some item
  | .matrix item _ _ => some item
  | .bounded_matrix item _ _ _ => some item
  | .c_matrix item _ _ => some item
  | .vector_of_vector item _ _ => some item
  | .zero_matrix item _ => some item
  | .identity_matrix item _ => some item
  | .scalar_matrix item _ => some item
  | .triangular_matrix item _ _ _ => some item
  | .triangular_adaptor matrix _ => value_type matrix
  | .symmetric_matrix item _ _ _ => some item
  | .symmetric_adaptor matrix _ => value_type matrix
  | .hermitian_matrix item _ _ _ => some item
  | .hermitian_adaptor matrix _ => value_type matrix
  | .banded_matrix item _ _ => some item
  | .banded_adaptor matrix => value_type matrix
  | .mapped_matrix item _ _ => some item
  | .compressed_matrix item _ _ _ _ => some item
  | .coordinate_matrix item _ _ _ _ => some item
  | .generalized_vector_of_vector item _ _ => some item
  | _ => none

/-! ### The equal-width layout, as the specification words it

A second description of the text of the `BY_EQUALWIDTH_COLUMNS` mode, to be
compared with `MatrixNiceOutputer.doEqualWidthColumns`: every column is as
wide as the widest rendered element of the whole matrix. -/

/-- The one width of the equal-width mode: the greatest rendered length over
all elements of the matrix. -/
def matrixWidth {V : Type} (render : V → Text) (matrix : DenseMatrix V) : Nat :=
  ((List.range matrix.size1).flatMap (fun i =>
      (List.range matrix.size2).map (fun j => (render (matrix.elem i j)).length))).foldl max 0

/-- A cell that is not the last of its row: the element, a comma, the padding
up to the width and `minSpaces` more spaces. -/
def equalWidthCell {V : Type} (minSpaces : Nat) (render : V → Text) (matrix : DenseMatrix V)
    (i j : Nat) : Text :=
  render (matrix.elem i j)
    ++ ',' :: List.replicate
        (matrixWidth render matrix - (render (matrix.elem i j)).length + minSpaces) ' '

/-- The last cell of a row: the element, padded to the width. -/
def equalWidthLastCell {V : Type} (render : V → Text) (matrix : DenseMatrix V) (i : Nat) :
    Text :=
  if matrix.size2 ≥ 1 then
    render (matrix.elem i (matrix.size2 - 1))
      ++ List.replicate
          (matrixWidth render matrix - (render (matrix.elem i (matrix.size2 - 1))).length) ' '
  else []

/-- The bracketed body of row `i`. -/
def equalWidthBody {V : Type} (minSpaces : Nat) (render : V → Text) (matrix : DenseMatrix V)
    (i : Nat) : Text :=
  ['('] ++ (List.range (matrix.size2 - 1)).flatMap (equalWidthCell minSpaces render matrix i)
    ++ equalWidthLastCell render matrix i ++ [')']

/-- The text of `m` rows, given the bracketed body of each: `(` before the
first row and a space before a later one, a comma and a line feed after each
row but the last, `)` after the last. -/
def framedRows (m : Nat) (body : Nat → Text) : Text :=
  (List.range m).flatMap (fun i =>
    (if i = 0 then ['('] else [' ']) ++ body i
      ++ (if i + 1 = m then [')'] else [',', '\n']))

/-- An output function that only appends: it passes an exception on, and the
text it returns starts with the text written before. -/
def Appends (f : Option Text → Option Text) : Prop :=
  f none = none ∧ ∀ x y, f (some x) = some y → ∃ b, y = x ++ b

/-! ## Loops as sweeps over a list of positions -/

theorem forLoop_eq_foldl {S : Type} (cond : Nat → Bool) (body : Nat → S → S) :
    ∀ (cnt start fuel : Nat) (s : S),
      (∀ j, start ≤ j → j < start + cnt → cond j = true) →
      cond (start + cnt) = false → cnt ≤ fuel →
      forLoop cond body fuel start s
        = (List.range' start cnt).foldl (fun s j => body j s) s := by
  intro cnt
  induction cnt with
  | zero =>
    intro start fuel s _ hout _
    cases fuel with
    | zero => simp [forLoop]
    | succ f =>
      have h : cond start = false := by simpa using hout
      simp [forLoop, h]
  | succ c ih =>
    intro start fuel s hin hout hfuel
    cases fuel with
    | zero => omega
    | succ f =>
      have h : cond start = true := hin start (Nat.le_refl _) (by omega)
      have hout2 : cond (start + 1 + c) = false := by
        have e : start + 1 + c = start + (c + 1) := by omega
        rw [e]; exact hout
      have hin2 : ∀ j, start + 1 ≤ j → j < start + 1 + c → cond j = true :=
        fun j h1 h2 => hin j (by omega) (by omega)
      simp only [forLoop, h, if_true, List.range'_succ, List.foldl_cons]
      exact ih (start + 1) f (body start s) hin2 hout2 (by omega)

theorem foldl_flatMap_eq {α β S : Type} (g : α → List β) (h : S → β → S) :
    ∀ (l : List α) (s : S),
      (l.flatMap g).foldl h s = l.foldl (fun s a => (g a).foldl h s) s := by
  intro l
  induction l with
  | nil => intro s; rfl
  | cons a t ih => intro s; simp [List.flatMap_cons, List.foldl_append, ih]

theorem fillAt_rows {σ C V : Type} (assign : C → Nat × Nat → V → C) (die : σ → V × σ)
    (f : Nat × Nat → V → V) (m : Nat) (cols : Nat → List Nat) (s : Run σ C (Nat × Nat) V) :
    (List.range' 0 m).foldl
        (fun s i => Run.fillAt assign die f ((cols i).map (fun j => (i, j))) s) s
      = Run.fillAt assign die f (rowsCols m cols) s := by
  unfold rowsCols Run.fillAt
  rw [foldl_flatMap_eq]

theorem fillAt_itemDraws {σ C P V : Type} (assign : C → P → V → C) (die : σ → V × σ)
    (f : P → V → V) : ∀ (ps : List P) (s : Run σ C P V),
      (Run.fillAt assign die f ps s).itemDraws = s.itemDraws + ps.length := by
  intro ps
  induction ps with
  | nil => intro s; rfl
  | cons p t ih =>
    intro s
    simp only [Run.fillAt, List.foldl_cons, List.length_cons] at ih ⊢
    rw [ih]
    simp [Run.assignDie, Run.assign]
    omega

theorem fillAt_indexDraws {σ C P V : Type} (assign : C → P → V → C) (die : σ → V × σ)
    (f : P → V → V) : ∀ (ps : List P) (s : Run σ C P V),
      (Run.fillAt assign die f ps s).indexDraws = s.indexDraws := by
  intro ps
  induction ps with
  | nil => intro s; rfl
  | cons p t ih =>
    intro s
    simp only [Run.fillAt, List.foldl_cons] at ih ⊢
    rw [ih]
    simp [Run.assignDie, Run.assign]

theorem fillAt_engine {σ C P V : Type} (assign : C → P → V → C) (die : σ → V × σ)
    (f : P → V → V) : ∀ (ps : List P) (s : Run σ C P V),
      (Run.fillAt assign die f ps s).engine = advance die ps.length s.engine := by
  intro ps
  induction ps with
  | nil => intro s; rfl
  | cons p t ih =>
    intro s
    simp only [Run.fillAt, List.foldl_cons, List.length_cons] at ih ⊢
    rw [ih]
    simp [Run.assignDie, Run.assign, advance]

theorem fillAt_writes {σ C P V : Type} (assign : C → P → V → C) (die : σ → V × σ)
    (f : P → V → V) : ∀ (ps : List P) (s : Run σ C P V),
      (Run.fillAt assign die f ps s).writes
        = s.writes ++ List.zipWith (fun p v => (p, f p v)) ps (draws die ps.length s.engine) := by
  intro ps
  induction ps with
  | nil => intro s; simp [Run.fillAt, draws]
  | cons p t ih =>
    intro s
    simp only [Run.fillAt, List.foldl_cons, List.length_cons] at ih ⊢
    rw [ih]
    simp [Run.assignDie, Run.assign, draws]

theorem fillAt_container {σ C P V : Type} (assign : C → P → V → C) (die : σ → V × σ)
    (f : P → V → V) : ∀ (ps : List P) (s : Run σ C P V),
      (Run.fillAt assign die f ps s).container
        = (List.zipWith (fun p v => (p, f p v)) ps (draws die ps.length s.engine)).foldl
            (fun c w => assign c w.1 w.2) s.container := by
  intro ps
  induction ps with
  | nil => intro s; simp [Run.fillAt, draws]
  | cons p t ih =>
    intro s
    simp only [Run.fillAt, List.foldl_cons, List.length_cons] at ih ⊢
    rw [ih]
    simp [Run.assignDie, Run.assign, draws]

theorem draws_length {σ V : Type} (die : σ → V × σ) :
    ∀ (n : Nat) (e : σ), (draws die n e).length = n := by
  intro n
  induction n with
  | zero => intro e; rfl
  | succ k ih => intro e; simp [draws, ih]

theorem fillAt_positions {σ C P V : Type} (assign : C → P → V → C) (die : σ → V × σ)
    (f : P → V → V) (ps : List P) (s : Run σ C P V) :
    (Run.fillAt assign die f ps s).writes.map Prod.fst = s.writes.map Prod.fst ++ ps := by
  rw [fillAt_writes, List.map_append]
  congr 1
  rw [List.map_zipWith]
  have hl := draws_length die ps.length s.engine
  generalize draws die ps.length s.engine = ds at hl
  clear s
  induction ps generalizing ds with
  | nil => simp
  | cons p t ih =>
    cases ds with
    | nil => simp at hl
    | cons d ds => 
      simp only [List.length_cons, Nat.add_right_cancel_iff] at hl
      have h := ih ds hl
      simp only [List.zipWith_cons_cons, List.cons.injEq, true_and]
      exact h


theorem rowLoops_eq {σ C V : Type} (assign : C → Nat × Nat → V → C) (die : σ → V × σ)
    (m : Nat) (cond : Nat → Nat → Bool) (fuel start cnt : Nat → Nat)
    (s : Run σ C (Nat × Nat) V)
    (hin : ∀ i j, start i ≤ j → j < start i + cnt i → cond i j = true)
    (hout : ∀ i, cond i (start i + cnt i) = false)
    (hfuel : ∀ i, i < m → cnt i ≤ fuel i) :
    forLoop (fun i => decide (i < m))
        (fun i s =>
          forLoop (cond i) (fun j s => Run.assignDie assign die id (i, j) s) (fuel i) (start i) s)
        m 0 s
      = Run.fillAt assign die (fun _ => id)
          (rowsCols m (fun i => List.range' (start i) (cnt i))) s := by
  rw [forLoop_eq_foldl _ _ m 0 m s (by intro j _ h; simpa using h) (by simp) (Nat.le_refl _)]
  rw [← fillAt_rows]
  apply List.foldl_ext
  intro s i hi
  have him : i < m := by
    have := List.mem_range'_1.mp hi
    omega
  rw [forLoop_eq_foldl (cond i) _ (cnt i) (start i) (fuel i) s (hin i) (hout i) (hfuel i him)]
  simp [Run.fillAt, List.foldl_map]

theorem nodup_rowsCols (m : Nat) (cols : Nat → List Nat) (hnd : ∀ i, (cols i).Nodup) :
    (rowsCols m cols).Nodup := by
  unfold rowsCols
  rw [List.nodup_flatMap]
  refine ⟨fun i _ => (hnd i).map (fun a b h => by simpa using h), ?_⟩
  refine List.Pairwise.imp_of_mem ?_ (List.nodup_range' 0 m)
  intro a b _ _ hab
  simp only [Function.onFun, List.Disjoint]
  intro p hp hq
  simp only [List.mem_map] at hp hq
  obtain ⟨x, _, rfl⟩ := hp
  obtain ⟨y, _, hy⟩ := hq
  exact hab (by simpa using (congrArg Prod.fst hy).symm)

theorem mem_rowsCols (m : Nat) (cols : Nat → List Nat) (i j : Nat) :
    (i, j) ∈ rowsCols m cols ↔ i < m ∧ j ∈ cols i := by
  unfold rowsCols
  simp only [List.mem_flatMap, List.mem_map, Prod.mk.injEq, List.mem_range'_1]
  constructor
  · rintro ⟨a, ⟨_, ha⟩, b, hb, rfl, rfl⟩
    exact ⟨by omega, hb⟩
  · rintro ⟨hi, hj⟩
    exact ⟨i, ⟨by omega, by omega⟩, j, hj, rfl, rfl⟩

theorem count_of_nodup {α : Type} [BEq α] [LawfulBEq α] [DecidableEq α] (a : α) :
    ∀ (l : List α), l.Nodup → l.count a = if a ∈ l then 1 else 0 := by
  intro l
  induction l with
  | nil => intro _; simp
  | cons b t ih =>
    intro h
    rw [List.nodup_cons] at h
    rw [List.count_cons, ih h.2]
    by_cases hba : b = a
    · subst hba
      simp [h.1]
    · have hne : (b == a) = false := by simpa using hba
      have hab : ¬ a = b := fun e => hba e.symm
      simp [hne, hab]

theorem count_rowsCols (m : Nat) (cols : Nat → List Nat) (hnd : ∀ i, (cols i).Nodup)
    (i j : Nat) :
    (rowsCols m cols).count (i, j) = if i < m ∧ j ∈ cols i then 1 else 0 := by
  rw [count_of_nodup _ _ (nodup_rowsCols m cols hnd)]
  simp only [mem_rowsCols]

theorem length_rowsCols (m : Nat) (cols : Nat → List Nat) :
    (rowsCols m cols).length = ((List.range' 0 m).map (fun i => (cols i).length)).sum := by
  unfold rowsCols
  simp [List.length_flatMap, Function.comp_def]


theorem randomizeVector_eq {σ C V : Type} (acc : VectorAccess C V)
    (vect : C) (engine : σ) (itemDist : σ → V × σ) :
    FullRandomizer_.randomizeVector acc vect engine itemDist
      = Run.fillAt acc.assign itemDist (fun _ => id) (List.range' 0 (acc.size vect))
          (Run.start vect engine) := by
  unfold FullRandomizer_.randomizeVector
  rw [forLoop_eq_foldl _ _ (acc.size vect) 0 (acc.size vect) _
    (by intro j _ h; simpa using h) (by simp) (Nat.le_refl _)]
  rfl

theorem randomizeMatrix_eq {σ M V : Type} (acc : MatrixAccess M V)
    (matr : M) (engine : σ) (itemDist : σ → V × σ) :
    FullRandomizer_.randomizeMatrix acc matr engine itemDist
      = Run.fillAt acc.assign itemDist (fun _ => id)
          (rowsCols (acc.size1 matr) (fun _ => List.range' 0 (acc.size2 matr)))
          (Run.start matr engine) := by
  unfold FullRandomizer_.randomizeMatrix
  exact rowLoops_eq acc.assign itemDist (acc.size1 matr)
    (fun _ j => decide (j < acc.size2 matr)) (fun _ => acc.size2 matr) (fun _ => 0)
    (fun _ => acc.size2 matr) _ (by intro i j _ h; simpa using h) (by simp)
    (fun _ _ => Nat.le_refl _)

theorem length_rowsCols_const (m n : Nat) :
    (rowsCols m (fun _ => List.range' 0 n)).length = m * n := by
  simp [length_rowsCols]

theorem randomizeLower_eq {σ M V : Type} (acc : MatrixAccess M V)
    (matr : M) (engine : σ) (itemDist : σ → V × σ) :
    TriangleRandomizer_.randomizeLower acc matr engine itemDist
      = Run.fillAt acc.assign itemDist (fun _ => id)
          (rowsCols (acc.size1 matr) (fun i => List.range' 0 (min (acc.size2 matr) (i + 1))))
          (Run.start matr engine) := by
  unfold TriangleRandomizer_.randomizeLower
  exact rowLoops_eq acc.assign itemDist (acc.size1 matr)
    (fun i j => decide (j < acc.size2 matr) && decide (j ≤ i)) (fun _ => acc.size2 matr)
    (fun _ => 0) (fun i => min (acc.size2 matr) (i + 1)) _
    (by intro i j h1 h2; dsimp only at h1 h2 ⊢; simp; omega)
    (by intro i; dsimp only; simp; omega)
    (fun _ _ => Nat.min_le_left _ _)

theorem randomizeUnitLower_eq {σ M V : Type} (acc : MatrixAccess M V)
    (matr : M) (engine : σ) (itemDist : σ → V × σ) :
    TriangleRandomizer_.randomizeUnitLower acc matr engine itemDist
      = Run.fillAt acc.assign itemDist (fun _ => id)
          (rowsCols (acc.size1 matr) (fun i => List.range' 0 (min (acc.size2 matr) i)))
          (Run.start matr engine) := by
  unfold TriangleRandomizer_.randomizeUnitLower
  exact rowLoops_eq acc.assign itemDist (acc.size1 matr)
    (fun i j => decide (j < acc.size2 matr) && decide (j < i)) (fun _ => acc.size2 matr)
    (fun _ => 0) (fun i => min (acc.size2 matr) i) _
    (by intro i j h1 h2; dsimp only at h1 h2 ⊢; simp; omega)
    (by intro i; dsimp only; simp; omega)
    (fun _ _ => Nat.min_le_left _ _)

theorem randomizeUpper_eq {σ M V : Type} (acc : MatrixAccess M V)
    (matr : M) (engine : σ) (itemDist : σ → V × σ) :
    TriangleRandomizer_.randomizeUpper acc matr engine itemDist
      = Run.fillAt acc.assign itemDist (fun _ => id)
          (rowsCols (acc.size1 matr) (fun i => List.range' i (acc.size2 matr - i)))
          (Run.start matr engine) := by
  unfold TriangleRandomizer_.randomizeUpper
  exact rowLoops_eq acc.assign itemDist (acc.size1 matr)
    (fun _ j => decide (j < acc.size2 matr)) (fun _ => acc.size2 matr)
    (fun i => i) (fun i => acc.size2 matr - i) _
    (by intro i j h1 h2; dsimp only at h1 h2 ⊢; simp; omega)
    (by intro i; dsimp only; simp; omega)
    (fun _ _ => Nat.sub_le _ _)

theorem randomizeUnitUpper_eq {σ M V : Type} (acc : MatrixAccess M V)
    (matr : M) (engine : σ) (itemDist : σ → V × σ) :
    TriangleRandomizer_.randomizeUnitUpper acc matr engine itemDist
      = Run.fillAt acc.assign itemDist (fun _ => id)
          (rowsCols (acc.size1 matr) (fun i => List.range' (i + 1) (acc.size2 matr - (i + 1))))
          (Run.start matr engine) := by
  unfold TriangleRandomizer_.randomizeUnitUpper
  exact rowLoops_eq acc.assign itemDist (acc.size1 matr)
    (fun _ j => decide (j < acc.size2 matr)) (fun _ => acc.size2 matr)
    (fun i => i + 1) (fun i => acc.size2 matr - (i + 1)) _
    (by intro i j h1 h2; dsimp only at h1 h2 ⊢; simp; omega)
    (by intro i; dsimp only; simp; omega)
    (fun _ _ => Nat.sub_le _ _)

theorem symmetric_randomize_eq {σ M V : Type} (acc : MatrixAccess M V)
    (matr : M) (engine : σ) (itemDist : σ → V × σ) :
    SymmetricRandomizer_.randomize acc matr engine itemDist
      = Run.fillAt acc.assign itemDist (fun _ => id)
          (rowsCols (acc.size1 matr) (fun i => List.range' 0 (i + 1)))
          (Run.start matr engine) := by
  unfold SymmetricRandomizer_.randomize
  exact rowLoops_eq acc.assign itemDist (acc.size1 matr)
    (fun i j => decide (j ≤ i)) (fun i => i + 1)
    (fun _ => 0) (fun i => i + 1) _
    (by intro i j h1 h2; dsimp only at h1 h2 ⊢; simp; omega)
    (by intro i; dsimp only; simp)
    (fun _ _ => Nat.le_refl _)

theorem banded_randomize_eq {σ M V : Type} (w : Nat) (acc : BandedAccess M V)
    (matr : M) (engine : σ) (itemDist : σ → V × σ) :
    BandedRandomizer_.randomize w acc matr engine itemDist
      = Run.fillAt acc.assign itemDist (fun _ => id)
          (rowsCols (acc.size1 matr) (fun i =>
            List.range' (BandedRandomizer_.startFrom_ i (acc.lower matr))
              (min (acc.size2 matr) ((i + acc.upper matr) % 2 ^ w + 1)
                - BandedRandomizer_.startFrom_ i (acc.lower matr))))
          (Run.start matr engine) := by
  unfold BandedRandomizer_.randomize
  exact rowLoops_eq acc.assign itemDist (acc.size1 matr)
    (fun i j => decide (j ≤ (i + acc.upper matr) % 2 ^ w) && decide (j < acc.size2 matr))
    (fun _ => acc.size2 matr)
    (fun i => BandedRandomizer_.startFrom_ i (acc.lower matr))
    (fun i => min (acc.size2 matr) ((i + acc.upper matr) % 2 ^ w + 1)
                - BandedRandomizer_.startFrom_ i (acc.lower matr)) _
    (by intro i j h1 h2; dsimp only at h1 h2 ⊢; simp; omega)
    (by intro i; dsimp only; simp; omega)
    (fun _ _ => by dsimp only; omega)

theorem writes_count_fillAt {σ C V : Type} (assign : C → Nat × Nat → V → C)
    (die : σ → V × σ) (f : Nat × Nat → V → V) (m : Nat) (cols : Nat → List Nat)
    (hnd : ∀ i, (cols i).Nodup) (c : C) (e : σ) (i j : Nat) :
    ((Run.fillAt assign die f (rowsCols m cols) (Run.start c e)).writes.map Prod.fst).count
        (i, j)
      = if i < m ∧ j ∈ cols i then 1 else 0 := by
  rw [fillAt_positions]
  simp only [Run.start, List.map_nil, List.nil_append]
  exact count_rowsCols m cols hnd i j

/-! ## The sparse fill -/

theorem find_isNone_iff {P V : Type} [BEq P] [LawfulBEq P] (l : List (P × V)) (p : P) :
    ((l.find? (fun e => e.1 == p)).map Prod.snd).isNone = true ↔ p ∉ l.map Prod.fst := by
  induction l with
  | nil => simp
  | cons a t ih =>
    by_cases h : a.1 = p
    · simp [List.find?_cons, h]
    · have hne : (a.1 == p) = false := by simpa using h
      have hpa : ¬ p = a.1 := fun e => h e.symm
      simp only [List.find?_cons, hne, List.map_cons, List.mem_cons, hpa, false_or]
      exact ih

theorem find_isSome_iff {P V : Type} [BEq P] [LawfulBEq P] (l : List (P × V)) (p : P) :
    ((l.find? (fun e => e.1 == p)).map Prod.snd).isSome = true ↔ p ∈ l.map Prod.fst := by
  have h := find_isNone_iff l p
  cases hc : (l.find? (fun e => e.1 == p)).map Prod.snd with
  | none =>
    rw [hc] at h
    have hn : p ∉ l.map Prod.fst := h.mp rfl
    simp only [Option.isSome_none, Bool.false_eq_true, false_iff]
    exact hn
  | some v =>
    rw [hc] at h
    have hm : p ∈ l.map Prod.fst := by
      by_contra hn
      exact Bool.noConfusion (h.mpr hn)
    simp only [Option.isSome_some, true_iff]
    exact hm

theorem vectorLoop_invariant {σ V : Type} (itemDie : σ → V × σ) (indexDie : σ → Nat × σ)
    (Q : Nat → Prop) (hQ : ∀ e, Q (indexDie e).1) :
    ∀ (fuel remained : Nat) (s r : Run σ (SparseVector V) Nat V),
      SparseRandomizer_.vectorLoop itemDie indexDie fuel remained s = some r →
      (s.container.stored.map Prod.fst).Nodup →
      (∀ p ∈ s.container.stored.map Prod.fst, Q p) →
      (r.container.stored.map Prod.fst).Nodup ∧
      (∀ p ∈ r.container.stored.map Prod.fst, Q p) ∧
      r.container.stored.length = s.container.stored.length + remained ∧
      r.container.size = s.container.size ∧
      r.container.nnz_capacity = s.container.nnz_capacity := by
  intro fuel
  induction fuel with
  | zero =>
    intro remained s r h hnd hq
    unfold SparseRandomizer_.vectorLoop at h
    by_cases hr : remained > 0
    · simp [hr] at h
    · simp only [hr, if_false, Option.some.injEq] at h
      subst h
      exact ⟨hnd, hq, by omega, rfl, rfl⟩
  | succ f ih =>
    intro remained s r h hnd hq
    unfold SparseRandomizer_.vectorLoop at h
    by_cases hr : remained > 0
    · simp only [hr, if_true] at h
      by_cases hfree : (s.container.find_element (indexDie s.engine).1).isNone = true
      · rw [if_pos hfree] at h
        have hnot : (indexDie s.engine).1 ∉ s.container.stored.map Prod.fst :=
          (find_isNone_iff _ _).mp hfree
        have := ih _ _ _ h
          (by
            simp only [SparseVector.insert_element, List.map_append, List.map_cons,
              List.map_nil]
            exact List.Nodup.append hnd (List.nodup_singleton _)
              (by
                intro a ha hb
                simp only [List.mem_singleton] at hb
                exact hnot (hb ▸ ha)))
          (by
            intro p hp
            simp only [SparseVector.insert_element, List.map_append, List.map_cons,
              List.map_nil, List.mem_append, List.mem_singleton] at hp
            rcases hp with hp | hp
            · exact hq p hp
            · exact hp ▸ hQ _)
        obtain ⟨h1, h2, h3, h4, h5⟩ := this
        refine ⟨h1, h2, ?_, h4, h5⟩
        simp only [SparseVector.insert_element, List.length_append, List.length_cons,
          List.length_nil] at h3
        omega
      · rw [if_neg hfree] at h
        have key := ih _ _ _ h hnd hq
        exact key
    · simp only [hr, if_false, Option.some.injEq] at h
      subst h
      exact ⟨hnd, hq, by omega, rfl, rfl⟩

theorem matrixLoop_invariant {σ V : Type} (itemDie : σ → V × σ)
    (index1Die index2Die : σ → Nat × σ)
    (Q : Nat × Nat → Prop)
    (hQ : ∀ e, Q ((index1Die e).1, (index2Die (index1Die e).2).1)) :
    ∀ (fuel remained : Nat) (s r : Run σ (SparseMatrix V) (Nat × Nat) V),
      SparseRandomizer_.matrixLoop itemDie index1Die index2Die fuel remained s = some r →
      (s.container.stored.map Prod.fst).Nodup →
      (∀ p ∈ s.container.stored.map Prod.fst, Q p) →
      (r.container.stored.map Prod.fst).Nodup ∧
      (∀ p ∈ r.container.stored.map Prod.fst, Q p) ∧
      r.container.stored.length = s.container.stored.length + remained ∧
      r.container.size1 = s.container.size1 ∧
      r.container.size2 = s.container.size2 ∧
      r.container.nnz_capacity = s.container.nnz_capacity := by
  intro fuel
  induction fuel with
  | zero =>
    intro remained s r h hnd hq
    unfold SparseRandomizer_.matrixLoop at h
    by_cases hr : remained > 0
    · simp [hr] at h
    · simp only [hr, if_false, Option.some.injEq] at h
      subst h
      exact ⟨hnd, hq, by omega, rfl, rfl, rfl⟩
  | succ f ih =>
    intro remained s r h hnd hq
    unfold SparseRandomizer_.matrixLoop at h
    by_cases hr : remained > 0
    · simp only [hr, if_true] at h
      by_cases hfree : (s.container.find_element (index1Die s.engine).1
          (index2Die (index1Die s.engine).2).1).isNone = true
      · rw [if_pos hfree] at h
        have hnot : ((index1Die s.engine).1, (index2Die (index1Die s.engine).2).1)
            ∉ s.container.stored.map Prod.fst :=
          (find_isNone_iff _ _).mp hfree
        have := ih _ _ _ h
          (by
            simp only [SparseMatrix.insert_element, List.map_append, List.map_cons,
              List.map_nil]
            exact List.Nodup.append hnd (List.nodup_singleton _)
              (by
                intro a ha hb
                simp only [List.mem_singleton] at hb
                exact hnot (hb ▸ ha)))
          (by
            intro p hp
            simp only [SparseMatrix.insert_element, List.map_append, List.map_cons,
              List.map_nil, List.mem_append, List.mem_singleton] at hp
            rcases hp with hp | hp
            · exact hq p hp
            · exact hp ▸ hQ _)
        obtain ⟨h1, h2, h3, h4, h5, h6⟩ := this
        refine ⟨h1, h2, ?_, h4, h5, h6⟩
        simp only [SparseMatrix.insert_element, List.length_append, List.length_cons,
          List.length_nil] at h3
        omega
      · rw [if_neg hfree] at h
        have key := ih _ _ _ h hnd hq
        exact key
    · simp only [hr, if_false, Option.some.injEq] at h
      subst h
      exact ⟨hnd, hq, by omega, rfl, rfl, rfl⟩

theorem vectorLoop_done {σ V : Type} (itemDie : σ → V × σ) (indexDie : σ → Nat × σ)
    (fuel : Nat) (s : Run σ (SparseVector V) Nat V) :
    SparseRandomizer_.vectorLoop itemDie indexDie fuel 0 s = some s := by
  cases fuel <;> simp [SparseRandomizer_.vectorLoop]

theorem matrixLoop_done {σ V : Type} (itemDie : σ → V × σ) (index1Die index2Die : σ → Nat × σ)
    (fuel : Nat) (s : Run σ (SparseMatrix V) (Nat × Nat) V) :
    SparseRandomizer_.matrixLoop itemDie index1Die index2Die fuel 0 s = some s := by
  cases fuel <;> simp [SparseRandomizer_.matrixLoop]

/-! ## The hermitian fill and the contents of mirrored containers -/

theorem fillAt_congr {σ C P V : Type} (assign : C → P → V → C) (die : σ → V × σ)
    (f g : P → V → V) (ps : List P) (s : Run σ C P V) (h : ∀ p ∈ ps, f p = g p) :
    Run.fillAt assign die f ps s = Run.fillAt assign die g ps s := by
  unfold Run.fillAt
  apply List.foldl_ext
  intro s p hp
  rw [h p hp]

theorem fillAt_append {σ C P V : Type} (assign : C → P → V → C) (die : σ → V × σ)
    (f : P → V → V) (ps qs : List P) (s : Run σ C P V) :
    Run.fillAt assign die f (ps ++ qs) s
      = Run.fillAt assign die f qs (Run.fillAt assign die f ps s) := by
  unfold Run.fillAt
  rw [List.foldl_append]

theorem hermitian_randomize_eq {σ M V : Type} (acc : MatrixAccess M V) (real : V → V)
    (matr : M) (engine : σ) (itemDist : σ → V × σ) :
    HermitianRandomizer_.randomize acc real matr engine itemDist
      = Run.fillAt acc.assign itemDist (fun p => if p.1 = p.2 then real else id)
          (rowsCols (acc.size1 matr) (fun i => List.range' 0 (i + 1)))
          (Run.start matr engine) := by
  unfold HermitianRandomizer_.randomize
  rw [forLoop_eq_foldl _ _ (acc.size1 matr) 0 (acc.size1 matr) _
    (by intro j _ h; simpa using h) (by simp) (Nat.le_refl _)]
  rw [← fillAt_rows]
  apply List.foldl_ext
  intro s i _
  rw [forLoop_eq_foldl (fun j => decide (j < i)) _ i 0 i s
    (by intro j _ h; simp; omega) (by simp) (Nat.le_refl _)]
  rw [List.range'_concat, List.map_append, fillAt_append]
  have hinner : Run.fillAt acc.assign itemDist (fun p => if p.1 = p.2 then real else id)
        (List.map (fun j => (i, j)) (List.range' 0 i)) s
      = List.foldl (fun s j => Run.assignDie acc.assign itemDist id (i, j) s) s
          (List.range' 0 i) := by
    rw [fillAt_congr _ _ _ (fun _ => id)]
    · simp [Run.fillAt, List.foldl_map]
    · intro p hp
      simp only [List.mem_map, List.mem_range'_1] at hp
      obtain ⟨j, hj, rfl⟩ := hp
      have : ¬ i = j := by omega
      simp [this]
  rw [hinner]
  simp [Run.fillAt]

theorem fillAt_start_values {σ C P V : Type} (assign : C → P → V → C) (die : σ → V × σ)
    (f : P → V → V) (ps : List P) (c : C) (e : σ) :
    (Run.fillAt assign die f ps (Run.start c e)).writes.map Prod.snd
      = List.zipWith f ((Run.fillAt assign die f ps (Run.start c e)).writes.map Prod.fst)
          (draws die (Run.fillAt assign die f ps (Run.start c e)).itemDraws e) := by
  rw [fillAt_positions, fillAt_itemDraws, fillAt_writes]
  simp only [Run.start, List.nil_append, List.map_nil, Nat.zero_add, List.map_zipWith]

theorem mem_zipWith_value {P V : Type} (f : P → V → V) :
    ∀ (ps : List P) (ds : List V) (w : P × V),
      w ∈ List.zipWith (fun p v => (p, f p v)) ps ds → ∃ v ∈ ds, w.2 = f w.1 v := by
  intro ps
  induction ps with
  | nil => intro ds w h; simp at h
  | cons p t ih =>
    intro ds w h
    cases ds with
    | nil => simp at h
    | cons d ds =>
      simp only [List.zipWith_cons_cons, List.mem_cons] at h
      rcases h with h | h
      · exact ⟨d, List.mem_cons_self _ _, by rw [h]⟩
      · obtain ⟨v, hv, hw⟩ := ih ds w h
        exact ⟨v, List.mem_cons_of_mem _ hv, hw⟩

theorem fillAt_start_container {σ C P V : Type} (assign : C → P → V → C) (die : σ → V × σ)
    (f : P → V → V) (ps : List P) (c : C) (e : σ) :
    (Run.fillAt assign die f ps (Run.start c e)).container
      = (Run.fillAt assign die f ps (Run.start c e)).writes.foldl
          (fun c w => assign c w.1 w.2) c := by
  rw [fillAt_container, fillAt_writes]
  simp [Run.start]

theorem fillAt_start_written {σ C P V : Type} (assign : C → P → V → C) (die : σ → V × σ)
    (f : P → V → V) (ps : List P) (c : C) (e : σ) (w : P × V)
    (hw : w ∈ (Run.fillAt assign die f ps (Run.start c e)).writes) :
    ∃ v ∈ draws die (Run.fillAt assign die f ps (Run.start c e)).itemDraws e,
      w.2 = f w.1 v := by
  rw [fillAt_writes] at hw
  rw [fillAt_itemDraws]
  simp only [Run.start, List.nil_append, Nat.zero_add] at hw ⊢
  exact mem_zipWith_value f ps _ w hw

theorem mirrored_assign_stored {V : Type} (conj : V → V) (c : MirroredMatrix V)
    (p : Nat × Nat) (v : V) (hp : p.2 ≤ p.1) (a b : Nat) :
    (MirroredMatrix.assign conj c p v).stored a b
      = if a = p.1 ∧ b = p.2 then v else c.stored a b := by
  simp [MirroredMatrix.assign, hp]

theorem mirrored_foldl_unwritten {V : Type} (conj : V → V) (a b : Nat) :
    ∀ (ws : List ((Nat × Nat) × V)) (c : MirroredMatrix V),
      (∀ w ∈ ws, w.1.2 ≤ w.1.1) → (a, b) ∉ ws.map Prod.fst →
      (ws.foldl (fun c w => MirroredMatrix.assign conj c w.1 w.2) c).stored a b
        = c.stored a b := by
  intro ws
  induction ws with
  | nil => intro c _ _; rfl
  | cons w t ih =>
    intro c hl hn
    simp only [List.map_cons, List.mem_cons, not_or] at hn
    simp only [List.foldl_cons]
    rw [ih _ (fun x hx => hl x (List.mem_cons_of_mem _ hx)) hn.2,
      mirrored_assign_stored conj c w.1 w.2 (hl w (List.mem_cons_self _ _))]
    have : ¬ (a = w.1.1 ∧ b = w.1.2) := by
      rintro ⟨h1, h2⟩
      exact hn.1 (by rw [h1, h2])
    simp [this]

theorem mirrored_foldl_written {V : Type} (conj : V → V) (a b : Nat) (v : V) :
    ∀ (ws : List ((Nat × Nat) × V)) (c : MirroredMatrix V),
      (∀ w ∈ ws, w.1.2 ≤ w.1.1) → (ws.map Prod.fst).Nodup → ((a, b), v) ∈ ws →
      (ws.foldl (fun c w => MirroredMatrix.assign conj c w.1 w.2) c).stored a b = v := by
  intro ws
  induction ws with
  | nil => intro c _ _ h; simp at h
  | cons w t ih =>
    intro c hl hnd hm
    simp only [List.map_cons, List.nodup_cons] at hnd
    simp only [List.foldl_cons]
    rcases List.mem_cons.mp hm with h | h
    · subst h
      rw [mirrored_foldl_unwritten conj a b t _
        (fun x hx => hl x (List.mem_cons_of_mem _ hx)) hnd.1,
        mirrored_assign_stored conj c (a, b) v (hl _ (List.mem_cons_self _ _))]
      simp
    · exact ih _ (fun x hx => hl x (List.mem_cons_of_mem _ hx)) hnd.2 h

theorem mirrored_sweep_stored {σ V : Type} (conj : V → V) (die : σ → V × σ)
    (f : Nat × Nat → V → V) (c : MirroredMatrix V) (e : σ) (n i j : Nat)
    (hi : i < n) (hj : j ≤ i) :
    ∃ v ∈ draws die (Run.fillAt (MirroredMatrix.assign conj) die f
          (rowsCols n (fun i => List.range' 0 (i + 1))) (Run.start c e)).itemDraws e,
      (Run.fillAt (MirroredMatrix.assign conj) die f
          (rowsCols n (fun i => List.range' 0 (i + 1))) (Run.start c e)).container.stored i j
        = f (i, j) v := by
  have hpos := fillAt_positions (MirroredMatrix.assign conj) die f
    (rowsCols n (fun i => List.range' 0 (i + 1))) (Run.start c e)
  simp only [Run.start, List.map_nil, List.nil_append] at hpos
  have hmem : (i, j) ∈ rowsCols n (fun i => List.range' 0 (i + 1)) := by
    rw [mem_rowsCols]
    exact ⟨hi, by rw [List.mem_range'_1]; omega⟩
  rw [← hpos, List.mem_map] at hmem
  obtain ⟨w, hw, hw1⟩ := hmem
  obtain ⟨v, hv, hval⟩ := fillAt_start_written _ die f _ c e w hw
  refine ⟨v, hv, ?_⟩
  rw [fillAt_start_container]
  have hlow : ∀ x ∈ (Run.fillAt (MirroredMatrix.assign conj) die f
      (rowsCols n (fun i => List.range' 0 (i + 1))) (Run.start c e)).writes, x.1.2 ≤ x.1.1 := by
    intro x hx
    have hx1 : x.1 ∈ rowsCols n (fun i => List.range' 0 (i + 1)) := by
      rw [← hpos]
      exact List.mem_map_of_mem _ hx
    have := (mem_rowsCols n _ x.1.1 x.1.2).mp hx1
    have h2 := List.mem_range'_1.mp this.2
    omega
  have hnd : ((Run.fillAt (MirroredMatrix.assign conj) die f
      (rowsCols n (fun i => List.range' 0 (i + 1))) (Run.start c e)).writes.map Prod.fst).Nodup := by
    show (List.map Prod.fst (Run.fillAt (MirroredMatrix.assign conj) die f
      (rowsCols n (fun i => List.range' 0 (i + 1))) ⟨c, e, 0, 0, []⟩).writes).Nodup
    rw [hpos]
    exact nodup_rowsCols n _ (fun _ => List.nodup_range' 0 _)
  have hw' : ((i, j), f (i, j) v) ∈ (Run.fillAt (MirroredMatrix.assign conj) die f
      (rowsCols n (fun i => List.range' 0 (i + 1))) (Run.start c e)).writes := by
    have : w = ((i, j), f (i, j) v) := by
      rw [← hw1, ← hval]
    rw [← this]
    exact hw
  exact mirrored_foldl_written conj i j _ _ c hlow hnd hw'

/-! ## The sparse loops, iteration by iteration -/

theorem vectorLoop_eq_iter {σ V : Type} (itemDie : σ → V × σ) (indexDie : σ → Nat × σ) :
    ∀ (fuel remained : Nat) (s : Run σ (SparseVector V) Nat V),
      SparseRandomizer_.vectorLoop itemDie indexDie fuel remained s
        = if (SparseRandomizer_.vectorIter itemDie indexDie fuel (remained, s)).1 > 0 then none
          else some (SparseRandomizer_.vectorIter itemDie indexDie fuel (remained, s)).2 := by
  intro fuel
  induction fuel with
  | zero => intro remained s; rfl
  | succ f ih =>
    intro remained s
    unfold SparseRandomizer_.vectorLoop SparseRandomizer_.vectorIter
    by_cases hr : remained > 0
    · simp only [hr, if_true]
      unfold SparseRandomizer_.vectorBody
      by_cases hfree : (s.container.find_element (indexDie s.engine).1).isNone = true
      · simp only [hfree, if_true]
        exact ih _ _
      · simp only [hfree]
        exact ih _ _
    · simp [hr]

theorem matrixLoop_eq_iter {σ V : Type} (itemDie : σ → V × σ)
    (index1Die index2Die : σ → Nat × σ) :
    ∀ (fuel remained : Nat) (s : Run σ (SparseMatrix V) (Nat × Nat) V),
      SparseRandomizer_.matrixLoop itemDie index1Die index2Die fuel remained s
        = if (SparseRandomizer_.matrixIter itemDie index1Die index2Die fuel
              (remained, s)).1 > 0 then none
          else some (SparseRandomizer_.matrixIter itemDie index1Die index2Die fuel
              (remained, s)).2 := by
  intro fuel
  induction fuel with
  | zero => intro remained s; rfl
  | succ f ih =>
    intro remained s
    unfold SparseRandomizer_.matrixLoop SparseRandomizer_.matrixIter
    by_cases hr : remained > 0
    · simp only [hr, if_true]
      unfold SparseRandomizer_.matrixBody
      by_cases hfree : (s.container.find_element (index1Die s.engine).1
          (index2Die (index1Die s.engine).2).1).isNone = true
      · simp only [hfree, if_true]
        exact ih _ _
      · simp only [hfree]
        exact ih _ _
    · simp [hr]

theorem length_le_of_nodup_lt (l : List Nat) (n : Nat) (hnd : l.Nodup)
    (h : ∀ p ∈ l, p < n) : l.length ≤ n := by
  have hs : l ⊆ List.range n := fun p hp => List.mem_range.mpr (h p hp)
  have := (List.subperm_of_subset hnd hs).length_le
  simpa using this

theorem length_le_of_nodup_lt_pair (l : List (Nat × Nat)) (m n : Nat) (hnd : l.Nodup)
    (h : ∀ p ∈ l, p.1 < m ∧ p.2 < n) : l.length ≤ m * n := by
  have hs : l ⊆ (List.range m) ×ˢ (List.range n) := by
    intro p hp
    obtain ⟨a, b⟩ := p
    rw [List.mem_product]
    exact ⟨List.mem_range.mpr (h _ hp).1, List.mem_range.mpr (h _ hp).2⟩
  have := (List.subperm_of_subset hnd hs).length_le
  rw [List.length_product] at this
  simpa using this

theorem vectorBody_invariant {σ V : Type} (itemDie : σ → V × σ) (indexDie : σ → Nat × σ)
    (x : Nat × Run σ (SparseVector V) Nat V) (hr : x.1 > 0) :
    ((SparseRandomizer_.vectorBody itemDie indexDie x).2.container.stored.length
        + (SparseRandomizer_.vectorBody itemDie indexDie x).1
      = x.2.container.stored.length + x.1) ∧
    ((SparseRandomizer_.vectorBody itemDie indexDie x).2.itemDraws
        + (SparseRandomizer_.vectorBody itemDie indexDie x).1
      = x.2.itemDraws + x.1) ∧
    (x.2.container.stored = x.2.writes →
      (SparseRandomizer_.vectorBody itemDie indexDie x).2.container.stored
        = (SparseRandomizer_.vectorBody itemDie indexDie x).2.writes) := by
  unfold SparseRandomizer_.vectorBody
  by_cases hfree : (x.2.container.find_element (indexDie x.2.engine).1).isNone = true
  · rw [if_pos hfree]
    simp only [SparseVector.insert_element, List.length_append, List.length_cons,
      List.length_nil]
    exact ⟨by omega, by omega, fun hw => by rw [hw]⟩
  · rw [if_neg hfree]
    exact ⟨rfl, rfl, fun h => h⟩

theorem vectorIter_invariant {σ V : Type} (itemDie : σ → V × σ) (indexDie : σ → Nat × σ) :
    ∀ (n : Nat) (x : Nat × Run σ (SparseVector V) Nat V),
      ((SparseRandomizer_.vectorIter itemDie indexDie n x).2.container.stored.length
          + (SparseRandomizer_.vectorIter itemDie indexDie n x).1
        = x.2.container.stored.length + x.1) ∧
      ((SparseRandomizer_.vectorIter itemDie indexDie n x).2.itemDraws
          + (SparseRandomizer_.vectorIter itemDie indexDie n x).1
        = x.2.itemDraws + x.1) ∧
      (x.2.container.stored = x.2.writes →
        (SparseRandomizer_.vectorIter itemDie indexDie n x).2.container.stored
          = (SparseRandomizer_.vectorIter itemDie indexDie n x).2.writes) := by
  intro n
  induction n with
  | zero => intro x; exact ⟨rfl, rfl, fun h => h⟩
  | succ k ih =>
    intro x
    unfold SparseRandomizer_.vectorIter
    by_cases hr : x.1 > 0
    · rw [if_pos hr]
      obtain ⟨h1, h2, h3⟩ := ih (SparseRandomizer_.vectorBody itemDie indexDie x)
      obtain ⟨b1, b2, b3⟩ := vectorBody_invariant itemDie indexDie x hr
      exact ⟨by omega, by omega, fun hw => h3 (b3 hw)⟩
    · rw [if_neg hr]
      exact ⟨rfl, rfl, fun h => h⟩

theorem matrixBody_invariant {σ V : Type} (itemDie : σ → V × σ)
    (index1Die index2Die : σ → Nat × σ)
    (x : Nat × Run σ (SparseMatrix V) (Nat × Nat) V) (hr : x.1 > 0) :
    ((SparseRandomizer_.matrixBody itemDie index1Die index2Die x).2.container.stored.length
        + (SparseRandomizer_.matrixBody itemDie index1Die index2Die x).1
      = x.2.container.stored.length + x.1) ∧
    ((SparseRandomizer_.matrixBody itemDie index1Die index2Die x).2.itemDraws
        + (SparseRandomizer_.matrixBody itemDie index1Die index2Die x).1
      = x.2.itemDraws + x.1) ∧
    (x.2.container.stored = x.2.writes →
      (SparseRandomizer_.matrixBody itemDie index1Die index2Die x).2.container.stored
        = (SparseRandomizer_.matrixBody itemDie index1Die index2Die x).2.writes) := by
  unfold SparseRandomizer_.matrixBody
  by_cases hfree : (x.2.container.find_element (index1Die x.2.engine).1
      (index2Die (index1Die x.2.engine).2).1).isNone = true
  · rw [if_pos hfree]
    simp only [SparseMatrix.insert_element, List.length_append, List.length_cons,
      List.length_nil]
    exact ⟨by omega, by omega, fun hw => by rw [hw]⟩
  · rw [if_neg hfree]
    exact ⟨rfl, rfl, fun h => h⟩

theorem matrixIter_invariant {σ V : Type} (itemDie : σ → V × σ)
    (index1Die index2Die : σ → Nat × σ) :
    ∀ (n : Nat) (x : Nat × Run σ (SparseMatrix V) (Nat × Nat) V),
      ((SparseRandomizer_.matrixIter itemDie index1Die index2Die n x).2.container.stored.length
          + (SparseRandomizer_.matrixIter itemDie index1Die index2Die n x).1
        = x.2.container.stored.length + x.1) ∧
      ((SparseRandomizer_.matrixIter itemDie index1Die index2Die n x).2.itemDraws
          + (SparseRandomizer_.matrixIter itemDie index1Die index2Die n x).1
        = x.2.itemDraws + x.1) ∧
      (x.2.container.stored = x.2.writes →
        (SparseRandomizer_.matrixIter itemDie index1Die index2Die n x).2.container.stored
          = (SparseRandomizer_.matrixIter itemDie index1Die index2Die n x).2.writes) := by
  intro n
  induction n with
  | zero => intro x; exact ⟨rfl, rfl, fun h => h⟩
  | succ k ih =>
    intro x
    unfold SparseRandomizer_.matrixIter
    by_cases hr : x.1 > 0
    · rw [if_pos hr]
      obtain ⟨h1, h2, h3⟩ := ih (SparseRandomizer_.matrixBody itemDie index1Die index2Die x)
      obtain ⟨b1, b2, b3⟩ := matrixBody_invariant itemDie index1Die index2Die x hr
      exact ⟨by omega, by omega, fun hw => h3 (b3 hw)⟩
    · rw [if_neg hr]
      exact ⟨rfl, rfl, fun h => h⟩

theorem randomizeVector_returns {σ V : Type} (create : Nat → σ → Nat × σ) (fuel : Nat)
    (vect : SparseVector V) (engine : σ) (itemDist : σ → V × σ)
    (r : Run σ (SparseVector V) Nat V)
    (h : SparseRandomizer_.randomizeVector create fuel vect engine itemDist = some r) :
    (SparseRandomizer_.vectorIter itemDist (create vect.size) fuel
        (vect.nnz_capacity, Run.start vect.clear engine)).1 = 0 ∧
    r = (SparseRandomizer_.vectorIter itemDist (create vect.size) fuel
        (vect.nnz_capacity, Run.start vect.clear engine)).2 := by
  unfold SparseRandomizer_.randomizeVector at h
  rw [vectorLoop_eq_iter] at h
  by_cases hpos : (SparseRandomizer_.vectorIter itemDist (create vect.clear.size) fuel
      (vect.clear.nnz_capacity, Run.start vect.clear engine)).1 > 0
  · rw [if_pos hpos] at h
    exact Option.noConfusion h
  · rw [if_neg hpos] at h
    refine ⟨?_, ?_⟩
    · have : ¬ (SparseRandomizer_.vectorIter itemDist (create vect.size) fuel
          (vect.nnz_capacity, Run.start vect.clear engine)).1 > 0 := hpos
      omega
    · exact (Option.some.inj h).symm

theorem randomizeMatrix_returns {σ V : Type} (create : Nat → σ → Nat × σ) (fuel : Nat)
    (matr : SparseMatrix V) (engine : σ) (itemDist : σ → V × σ)
    (r : Run σ (SparseMatrix V) (Nat × Nat) V)
    (h : SparseRandomizer_.randomizeMatrix create fuel matr engine itemDist = some r) :
    (SparseRandomizer_.matrixIter itemDist (create matr.size1) (create matr.size2) fuel
        (matr.nnz_capacity, Run.start matr.clear engine)).1 = 0 ∧
    r = (SparseRandomizer_.matrixIter itemDist (create matr.size1) (create matr.size2) fuel
        (matr.nnz_capacity, Run.start matr.clear engine)).2 := by
  unfold SparseRandomizer_.randomizeMatrix at h
  rw [matrixLoop_eq_iter] at h
  by_cases hpos : (SparseRandomizer_.matrixIter itemDist (create matr.clear.size1)
      (create matr.clear.size2) fuel
      (matr.clear.nnz_capacity, Run.start matr.clear engine)).1 > 0
  · rw [if_pos hpos] at h
    exact Option.noConfusion h
  · rw [if_neg hpos] at h
    refine ⟨?_, ?_⟩
    · have : ¬ (SparseRandomizer_.matrixIter itemDist (create matr.size1)
          (create matr.size2) fuel
          (matr.nnz_capacity, Run.start matr.clear engine)).1 > 0 := hpos
      omega
    · exact (Option.some.inj h).symm

/-! ## Positions a fill does not assign -/

theorem fillAt_frame {σ C P V X : Type} (assign : C → P → V → C) (die : σ → V × σ)
    (f : P → V → V) (entry : C → P → X)
    (hframe : ∀ c p v q, q ≠ p → entry (assign c p v) q = entry c q) (q : P) :
    ∀ (ps : List P) (s : Run σ C P V), q ∉ ps →
      entry (Run.fillAt assign die f ps s).container q = entry s.container q := by
  intro ps
  induction ps with
  | nil => intro s _; rfl
  | cons p t ih =>
    intro s hq
    simp only [List.mem_cons, not_or] at hq
    simp only [Run.fillAt, List.foldl_cons] at ih ⊢
    rw [ih _ hq.2]
    simp only [Run.assignDie, Run.assign]
    exact hframe _ _ _ _ hq.1

theorem denseMatrix_frame {V X : Type} (read : DenseMatrix V → Nat → Nat → X)
    (hread : ∀ (c d : DenseMatrix V) i j, c.elem i j = d.elem i j → read c i j = read d i j)
    (c : DenseMatrix V) (p : Nat × Nat) (v : V) (q : Nat × Nat) (hq : q ≠ p) :
    read (DenseMatrix.assign c p v) q.1 q.2 = read c q.1 q.2 := by
  apply hread
  have : ¬ (q.1 = p.1 ∧ q.2 = p.2) := by
    rintro ⟨h1, h2⟩
    exact hq (Prod.ext h1 h2)
  simp [DenseMatrix.assign, this]

/-! ## Structural parameters under the fills -/

theorem fillAt_preserves {σ C P V X : Type} (assign : C → P → V → C) (die : σ → V × σ)
    (f : P → V → V) (g : C → X) (hg : ∀ c p v, g (assign c p v) = g c) :
    ∀ (ps : List P) (s : Run σ C P V),
      g (Run.fillAt assign die f ps s).container = g s.container := by
  intro ps
  induction ps with
  | nil => intro s; rfl
  | cons p t ih =>
    intro s
    simp only [Run.fillAt, List.foldl_cons] at ih ⊢
    rw [ih]
    simp only [Run.assignDie, Run.assign]
    exact hg _ _ _

theorem mirrored_assign_size {V : Type} (conj : V → V) (c : MirroredMatrix V)
    (p : Nat × Nat) (v : V) : (MirroredMatrix.assign conj c p v).size = c.size := by
  unfold MirroredMatrix.assign
  split <;> rfl

theorem unit_vector_fill_size {σ V : Type} (create : Nat → σ → Nat × σ) (vect : UnitVector)
    (engine : σ) (itemDist : σ → V × σ) :
    (Dispatch_unit_vector.randomize create vect engine itemDist).container.size
      = vect.size := by
  unfold Dispatch_unit_vector.randomize
  split <;> rfl

theorem sparse_vector_fill_shape {σ V : Type} (create : Nat → σ → Nat × σ) (fuel : Nat)
    (vect : SparseVector V) (engine : σ) (itemDist : σ → V × σ)
    (r : Run σ (SparseVector V) Nat V)
    (h : SparseRandomizer_.randomizeVector create fuel vect engine itemDist = some r) :
    r.container.size = vect.size ∧ r.container.nnz_capacity = vect.nnz_capacity := by
  unfold SparseRandomizer_.randomizeVector at h
  have inv := vectorLoop_invariant itemDist (create vect.clear.size) (fun _ => True)
    (fun _ => trivial) _ _ _ _ h (by simp [Run.start, SparseVector.clear])
    (fun _ _ => trivial)
  exact ⟨inv.2.2.2.1, inv.2.2.2.2⟩

theorem sparse_matrix_fill_shape {σ V : Type} (create : Nat → σ → Nat × σ) (fuel : Nat)
    (matr : SparseMatrix V) (engine : σ) (itemDist : σ → V × σ)
    (r : Run σ (SparseMatrix V) (Nat × Nat) V)
    (h : SparseRandomizer_.randomizeMatrix create fuel matr engine itemDist = some r) :
    r.container.size1 = matr.size1 ∧ r.container.size2 = matr.size2 ∧
      r.container.nnz_capacity = matr.nnz_capacity := by
  unfold SparseRandomizer_.randomizeMatrix at h
  have inv := matrixLoop_invariant itemDist (create matr.clear.size1)
    (create matr.clear.size2) (fun _ => True)
    (fun _ => trivial) _ _ _ _ h (by simp [Run.start, SparseMatrix.clear])
    (fun _ _ => trivial)
  exact ⟨inv.2.2.2.1, inv.2.2.2.2.1, inv.2.2.2.2.2⟩

theorem strategy_run_shape {σ V : Type} (cfg : Instantiation σ V) (s : Strategy)
    (container : Container V) (engine : σ) (itemDist : σ → V × σ) (out : Outcome σ V)
    (h : s.run cfg container engine itemDist = .done out) :
    out.container.shape = container.shape := by
  have hd1 : ∀ (c : DenseMatrix V) p v, (DenseMatrix.assign c p v).size1 = c.size1 :=
    fun _ _ _ => rfl
  have hd2 : ∀ (c : DenseMatrix V) p v, (DenseMatrix.assign c p v).size2 = c.size2 :=
    fun _ _ _ => rfl
  cases s <;> cases container <;> simp only [Strategy.run] at h <;>
    first
    | exact Result.noConfusion h
    | skip
  case fullVector.denseVector c =>
    injection h with h; subst h
    simp only [Run.outcome, Container.shape, Shape.denseVector.injEq]
    rw [randomizeVector_eq]
    exact fillAt_preserves DenseVector.assign _ _ DenseVector.size (fun _ _ _ => rfl) _ _
  case fullMatrix.denseMatrix c =>
    injection h with h; subst h
    simp only [Run.outcome, Container.shape, Shape.denseMatrix.injEq]
    rw [randomizeMatrix_eq]
    exact ⟨fillAt_preserves _ _ _ DenseMatrix.size1 hd1 _ _,
      fillAt_preserves _ _ _ DenseMatrix.size2 hd2 _ _⟩
  case lower.denseMatrix c =>
    injection h with h; subst h
    simp only [Run.outcome, Container.shape, Shape.denseMatrix.injEq]
    rw [randomizeLower_eq]
    exact ⟨fillAt_preserves _ _ _ DenseMatrix.size1 hd1 _ _,
      fillAt_preserves _ _ _ DenseMatrix.size2 hd2 _ _⟩
  case unitLower.denseMatrix c =>
    injection h with h; subst h
    simp only [Run.outcome, Container.shape, Shape.denseMatrix.injEq]
    rw [randomizeUnitLower_eq]
    exact ⟨fillAt_preserves _ _ _ DenseMatrix.size1 hd1 _ _,
      fillAt_preserves _ _ _ DenseMatrix.size2 hd2 _ _⟩
  case upper.denseMatrix c =>
    injection h with h; subst h
    simp only [Run.outcome, Container.shape, Shape.denseMatrix.injEq]
    rw [randomizeUpper_eq]
    exact ⟨fillAt_preserves _ _ _ DenseMatrix.size1 hd1 _ _,
      fillAt_preserves _ _ _ DenseMatrix.size2 hd2 _ _⟩
  case unitUpper.denseMatrix c =>
    injection h with h; subst h
    simp only [Run.outcome, Container.shape, Shape.denseMatrix.injEq]
    rw [randomizeUnitUpper_eq]
    exact ⟨fillAt_preserves _ _ _ DenseMatrix.size1 hd1 _ _,
      fillAt_preserves _ _ _ DenseMatrix.size2 hd2 _ _⟩
  case symmetric.mirrored c =>
    injection h with h; subst h
    simp only [Run.outcome, Container.shape, Shape.mirrored.injEq]
    rw [symmetric_randomize_eq]
    exact fillAt_preserves _ _ _ MirroredMatrix.size (mirrored_assign_size id) _ _
  case hermitian.mirrored c =>
    injection h with h; subst h
    simp only [Run.outcome, Container.shape, Shape.mirrored.injEq]
    rw [hermitian_randomize_eq]
    exact fillAt_preserves _ _ _ MirroredMatrix.size (mirrored_assign_size cfg.conj) _ _
  case banded.banded p q c =>
    injection h with h; subst h
    simp only [Run.outcome, Container.shape, Shape.banded.injEq, and_true]
    rw [banded_randomize_eq]
    exact ⟨fillAt_preserves _ _ _ DenseMatrix.size1 hd1 _ _,
      fillAt_preserves _ _ _ DenseMatrix.size2 hd2 _ _⟩
  case sparseVector.sparseVector c =>
    cases hc : cfg.create with
    | none => simp only [hc] at h; exact Result.noConfusion h
    | some create =>
      simp only [hc] at h
      cases hr : SparseRandomizer_.randomizeVector create cfg.fuel c engine itemDist with
      | none => simp only [hr] at h; exact Result.noConfusion h
      | some r =>
        simp only [hr] at h
        injection h with h; subst h
        obtain ⟨h1, h2⟩ := sparse_vector_fill_shape create cfg.fuel c engine itemDist r hr
        simp only [Run.outcome, Container.shape, h1, h2]
  case sparseMatrix.sparseMatrix c =>
    cases hc : cfg.create with
    | none => simp only [hc] at h; exact Result.noConfusion h
    | some create =>
      simp only [hc] at h
      cases hr : SparseRandomizer_.randomizeMatrix create cfg.fuel c engine itemDist with
      | none => simp only [hr] at h; exact Result.noConfusion h
      | some r =>
        simp only [hr] at h
        injection h with h; subst h
        obtain ⟨h1, h2, h3⟩ := sparse_matrix_fill_shape create cfg.fuel c engine itemDist r hr
        simp only [Run.outcome, Container.shape, h1, h2, h3]
  case unitVector.unitVector c =>
    cases hc : cfg.create with
    | none => simp only [hc] at h; exact Result.noConfusion h
    | some create =>
      simp only [hc] at h
      injection h with h; subst h
      simp only [Run.outcome, Container.shape, Shape.unitVector.injEq]
      exact unit_vector_fill_size create c engine itemDist
  all_goals
    injection h with h
    subst h
    rfl

/-! ## Numbers of draws of the triangular fills -/

theorem sum_range'_succ (f : Nat → Nat) (n : Nat) :
    ((List.range' 0 (n + 1)).map f).sum = ((List.range' 0 n).map f).sum + f n := by
  rw [List.range'_concat]
  simp

theorem sum_range'_congr (f g : Nat → Nat) (n : Nat) (h : ∀ i, i < n → f i = g i) :
    ((List.range' 0 n).map f).sum = ((List.range' 0 n).map g).sum := by
  congr 1
  apply List.map_congr_left
  intro i hi
  have := List.mem_range'_1.mp hi
  exact h i (by omega)

theorem two_mul_sum_succ (n : Nat) :
    2 * ((List.range' 0 n).map (fun i => i + 1)).sum = n * (n + 1) := by
  induction n with
  | zero => rfl
  | succ k ih =>
    rw [sum_range'_succ, Nat.mul_add, ih]
    ring

theorem two_mul_sum_id (n : Nat) :
    2 * ((List.range' 0 n).map (fun i => i)).sum = n * (n - 1) := by
  induction n with
  | zero => rfl
  | succ k ih =>
    rw [sum_range'_succ, Nat.mul_add, ih]
    cases k with
    | zero => rfl
    | succ j => simp only [Nat.add_sub_cancel]; ring

theorem sum_add_sum (f g : Nat → Nat) (n : Nat) :
    ((List.range' 0 n).map f).sum + ((List.range' 0 n).map g).sum
      = ((List.range' 0 n).map (fun i => f i + g i)).sum := by
  induction n with
  | zero => rfl
  | succ k ih =>
    rw [sum_range'_succ, sum_range'_succ, sum_range'_succ, ← ih]
    omega

theorem sum_const (c n : Nat) : ((List.range' 0 n).map (fun _ => c)).sum = n * c := by
  induction n with
  | zero => simp
  | succ k ih => rw [sum_range'_succ, ih]; ring

theorem sum_succ_eq (n : Nat) :
    ((List.range' 0 n).map (fun i => i + 1)).sum = n * (n + 1) / 2 := by
  have h := two_mul_sum_succ n
  omega

theorem sum_id_eq (n : Nat) :
    ((List.range' 0 n).map (fun i => i)).sum = n * (n - 1) / 2 := by
  have h := two_mul_sum_id n
  omega

theorem sum_rev_eq (n : Nat) :
    ((List.range' 0 n).map (fun i => n - i)).sum = n * (n + 1) / 2 := by
  have h1 := sum_add_sum (fun i => n - i) (fun i => i) n
  rw [sum_range'_congr (fun i => n - i + i) (fun _ => n) n (fun i hi => by dsimp only; omega),
    sum_const] at h1
  have h2 := two_mul_sum_id n
  have h3 : n * (n + 1) = n * n + n := by ring
  have h4 : n * (n - 1) + n = n * n := by
    cases n with
    | zero => rfl
    | succ k => simp only [Nat.add_sub_cancel]; ring
  omega

theorem sum_rev_pred_eq (n : Nat) :
    ((List.range' 0 n).map (fun i => n - (i + 1))).sum = n * (n - 1) / 2 := by
  have h1 := sum_add_sum (fun i => n - (i + 1)) (fun i => i + 1) n
  rw [sum_range'_congr (fun i => n - (i + 1) + (i + 1)) (fun _ => n) n
    (fun i hi => by dsimp only; omega), sum_const] at h1
  have h2 := two_mul_sum_succ n
  have h3 : n * (n + 1) = n * n + n := by ring
  have h4 : n * (n - 1) + n = n * n := by
    cases n with
    | zero => rfl
    | succ k => simp only [Nat.add_sub_cancel]; ring
  omega

theorem itemDraws_fillAt_rows {σ C V : Type} (assign : C → Nat × Nat → V → C)
    (die : σ → V × σ) (f : Nat × Nat → V → V) (m : Nat) (a c : Nat → Nat) (x : C) (e : σ) :
    (Run.fillAt assign die f (rowsCols m (fun i => List.range' (a i) (c i)))
        (Run.start x e)).itemDraws
      = ((List.range' 0 m).map c).sum := by
  rw [fillAt_itemDraws, length_rowsCols]
  simp [Run.start]

/-! ## Which draw lands where -/

theorem rowsCols_succ (m : Nat) (cols : Nat → List Nat) :
    rowsCols (m + 1) cols = rowsCols m cols ++ (cols m).map (fun j => (m, j)) := by
  unfold rowsCols
  rw [List.range'_concat, List.flatMap_append]
  simp

theorem rowsCols_const_get (n : Nat) :
    ∀ (m i j : Nat), i < m → j < n →
      (rowsCols m (fun _ => List.range' 0 n))[i * n + j]? = some (i, j) := by
  intro m
  induction m with
  | zero => intro i j hi _; omega
  | succ k ih =>
    intro i j hi hj
    rw [rowsCols_succ]
    have hlen : (rowsCols k (fun _ => List.range' 0 n)).length = k * n :=
      length_rowsCols_const k n
    by_cases hik : i < k
    · have hlt : i * n + j < (rowsCols k (fun _ => List.range' 0 n)).length := by
        rw [hlen]
        have : (i + 1) * n ≤ k * n := Nat.mul_le_mul_right n hik
        have h2 : (i + 1) * n = i * n + n := by ring
        omega
      rw [List.getElem?_append_left hlt]
      exact ih i j hik hj
    · have hie : i = k := by omega
      subst hie
      rw [List.getElem?_append_right (by rw [hlen]; omega), hlen]
      simp [hj]

theorem fillAt_start_mem {σ C P V : Type} (assign : C → P → V → C) (die : σ → V × σ)
    (f : P → V → V) (c : C) :
    ∀ (ps : List P) (e : σ) (k : Nat) (p : P), ps[k]? = some p →
      (p, f p (die (advance die k e)).1)
        ∈ (Run.fillAt assign die f ps (Run.start c e)).writes := by
  intro ps e k p hk
  rw [fillAt_writes]
  simp only [Run.start, List.nil_append]
  clear c assign
  induction ps generalizing e k with
  | nil => simp at hk
  | cons q t ih =>
    cases k with
    | zero =>
      simp only [List.getElem?_cons_zero, Option.some.injEq] at hk
      subst hk
      simp [draws, advance]
    | succ j =>
      simp only [List.getElem?_cons_succ] at hk
      have := ih (die e).2 j hk
      simp only [List.length_cons, draws, List.zipWith_cons_cons, List.mem_cons, advance]
      exact Or.inr this

theorem foldl_written {C P V : Type} (assign : C → P → V → C) (read : C → P → V)
    (hhit : ∀ c p v, read (assign c p v) p = v)
    (hframe : ∀ c p v q, q ≠ p → read (assign c p v) q = read c q) (p : P) (v : V) :
    ∀ (ws : List (P × V)) (c : C), (ws.map Prod.fst).Nodup → (p, v) ∈ ws →
      read (ws.foldl (fun c w => assign c w.1 w.2) c) p = v := by
  have hun : ∀ (ws : List (P × V)) (c : C), p ∉ ws.map Prod.fst →
      read (ws.foldl (fun c w => assign c w.1 w.2) c) p = read c p := by
    intro ws
    induction ws with
    | nil => intro c _; rfl
    | cons w t ih =>
      intro c hn
      simp only [List.map_cons, List.mem_cons, not_or] at hn
      simp only [List.foldl_cons]
      rw [ih _ hn.2]
      exact hframe _ _ _ _ hn.1
  intro ws
  induction ws with
  | nil => intro c _ h; simp at h
  | cons w t ih =>
    intro c hnd hm
    simp only [List.map_cons, List.nodup_cons] at hnd
    simp only [List.foldl_cons]
    rcases List.mem_cons.mp hm with h | h
    · subst h
      rw [hun t _ hnd.1]
      exact hhit _ _ _
    · exact ih _ hnd.2 h

theorem fillAt_start_read {σ C P V : Type} (assign : C → P → V → C) (die : σ → V × σ)
    (f : P → V → V) (read : C → P → V)
    (hhit : ∀ c p v, read (assign c p v) p = v)
    (hframe : ∀ c p v q, q ≠ p → read (assign c p v) q = read c q)
    (c : C) (e : σ) (ps : List P) (hnd : ps.Nodup) (k : Nat) (p : P) (hk : ps[k]? = some p) :
    read (Run.fillAt assign die f ps (Run.start c e)).container p
      = f p (die (advance die k e)).1 := by
  rw [fillAt_start_container]
  apply foldl_written assign read hhit hframe
  · have h := fillAt_positions assign die f ps (Run.start c e)
    simp only [Run.start, List.map_nil, List.nil_append] at h
    show (List.map Prod.fst (Run.fillAt assign die f ps ⟨c, e, 0, 0, []⟩).writes).Nodup
    rw [h]
    exact hnd
  · exact fillAt_start_mem assign die f c ps e k p hk

/-! ## Type substitution -/

theorem replaceBackend_some_remove_cv (matrix new answer : CType)
    (h : TypeReplacer.ReplaceBackend matrix new = some answer) : remove_cv matrix = matrix := by
  cases matrix <;> first
    | rfl
    | exact Option.noConfusion h

theorem replace_adaptor_answer (wrap : CType → CType) (matrix new answer : CType)
    (h : (TypeReplacer.ReplaceBackend matrix new).map wrap = some answer) :
    ∃ matrixAnswer, TypeReplacer.Replace matrix new = some matrixAnswer ∧
      answer = wrap matrixAnswer := by
  cases hb : TypeReplacer.ReplaceBackend matrix new with
  | none => rw [hb] at h; exact Option.noConfusion h
  | some matrixAnswer =>
    rw [hb] at h
    refine ⟨matrixAnswer, ?_, (Option.some.inj h).symm⟩
    unfold TypeReplacer.Replace
    rw [replaceBackend_some_remove_cv matrix new matrixAnswer hb]
    exact hb

/-! ## The formatter -/

theorem put_some (text written : Text) : put text (some written) = some (written ++ text) := rfl

theorem putSpaces_some (count : Int) (written : Text) (h : 0 ≤ count) :
    putSpaces count (some written) = some (written ++ List.replicate count.toNat ' ') := by
  simp [putSpaces, spaceString, h]

theorem putSpaces_negative (count : Int) (written : Text) (h : count < 0) :
    putSpaces count (some written) = none := by
  have h2 : ¬ 0 ≤ count := by omega
  simp [putSpaces, spaceString, h2]

theorem foldl_cells (body : Nat → Option Text → Option Text) (cell : Nat → Text)
    (hbody : ∀ j written, body j (some written) = some (written ++ cell j)) :
    ∀ (l : List Nat) (written : Text),
      l.foldl (fun out j => body j out) (some written)
        = some (written ++ l.flatMap cell) := by
  intro l
  induction l with
  | nil => intro written; simp
  | cons j l ih =>
    intro written
    simp only [List.foldl_cons, hbody, ih, List.flatMap_cons, List.append_assoc]

theorem intercalate_snoc {α : Type} (sep : List α) :
    ∀ (ys : List (List α)) (z : List α),
      List.intercalate sep (ys ++ [z]) = ys.flatMap (fun y => y ++ sep) ++ z := by
  intro ys
  induction ys with
  | nil => intro z; simp [List.intercalate]
  | cons y ys ih =>
    intro z
    have h := ih z
    cases ys with
    | nil => simp [List.intercalate]
    | cons y2 ys2 =>
      simp only [List.intercalate] at h ⊢
      simp only [List.cons_append, List.intersperse_cons_cons, List.flatMap_cons] at h ⊢
      simp [List.flatten] at h ⊢
      simpa using h

theorem intercalate_range_succ {α : Type} (sep : List α) (f : Nat → List α) (k : Nat) :
    List.intercalate sep ((List.range (k + 1)).map f)
      = (List.range' 0 k).flatMap (fun i => f i ++ sep) ++ f k := by
  rw [List.range_succ, List.map_append, List.map_singleton, intercalate_snoc,
    List.range_eq_range']
  congr 1
  simp [List.flatMap, List.map_map, Function.comp_def]

/-- The row writer returns, for a non-negative `minSpaces`, having appended
the bracketed, separated elements. -/
theorem outputRowSimply_eq {V : Type} (o : BaseNiceOutputer) (render : V → Text)
    (written : Text) (vector : DenseVector V) (hmin : 0 ≤ o.minSpaces_) :
    o.outputRowSimply render (some written) vector
      = some (written ++ (['('] ++ List.intercalate
          (',' :: List.replicate o.minSpaces_.toNat ' ')
          ((List.range vector.size).map (fun i => render (vector.elem i))) ++ [')'])) := by
  unfold BaseNiceOutputer.outputRowSimply
  cases hsz : vector.size with
  | zero =>
    simp [forLoop, put_some, List.intercalate]
  | succ k =>
    rw [forLoop_eq_foldl _ _ k 0 (k + 1) _ (fun j _ hj => by simp; omega) (by simp)
      (by omega)]
    rw [put_some, foldl_cells _
      (fun i => render (vector.elem i) ++ (',' :: List.replicate o.minSpaces_.toNat ' '))
      (fun j w => by simp [put_some, putSpaces_some _ _ hmin])]
    rw [intercalate_range_succ]
    simp [put_some]

theorem measureRow_closed (L : Nat → Int) (i : Nat) : ∀ (c : Nat) (t : Measures),
    (List.range' 0 c).foldl (fun (t : Measures) j =>
        (⟨fun a b => if a = i ∧ b = j then L j else t.elementOutputSizes a b,
          fun b => if b = j ∧ L j > t.columnWidths b then L j else t.columnWidths b⟩ :
          Measures)) t
      = ⟨fun a b => if a = i ∧ b < c then L b else t.elementOutputSizes a b,
          fun b => if b < c then max (t.columnWidths b) (L b) else t.columnWidths b⟩ := by
  intro c
  induction c with
  | zero => intro t; simp
  | succ c ih =>
    intro t
    rw [List.range'_concat, List.foldl_append, ih]
    simp only [List.foldl_cons, List.foldl_nil, Measures.mk.injEq, Nat.one_mul, Nat.zero_add]
    constructor
    · funext a b
      by_cases h1 : a = i ∧ b = c
      · obtain ⟨ha, hb⟩ := h1
        subst hb
        simp [ha]
      · rw [if_neg h1]
        by_cases h2 : a = i ∧ b < c
        · rw [if_pos h2, if_pos ⟨h2.1, by omega⟩]
        · rw [if_neg h2, if_neg (by intro h3; apply h1; refine ⟨h3.1, ?_⟩; by_contra h4; exact h2 ⟨h3.1, by omega⟩)]
    · funext b
      by_cases hb : b = c
      · subst hb
        simp only [Nat.lt_irrefl, if_false, true_and, Nat.lt_succ_self, if_true]
        split_ifs with h <;> omega
      · have e1 : ¬ (b = c ∧ L c > if b < c then max (t.columnWidths b) (L b) else t.columnWidths b) :=
          fun h => hb h.1
        rw [if_neg e1]
        by_cases h2 : b < c
        · rw [if_pos h2, if_pos (by omega)]
        · rw [if_neg h2, if_neg (by omega)]

theorem measureRows_closed (L : Nat → Nat → Nat) (n : Nat) : ∀ r : Nat,
    (List.range' 0 r).foldl (fun (t : Measures) i =>
        (⟨fun a b => if a = i ∧ b < n then (L i b : Int) else t.elementOutputSizes a b,
          fun b => if b < n then max (t.columnWidths b) (L i b : Int) else t.columnWidths b⟩ :
          Measures)) ⟨fun _ _ => 0, fun _ => 0⟩
      = ⟨fun a b => if a < r ∧ b < n then (L a b : Int) else 0,
          fun b => if b < n then ((((List.range r).map (fun i => L i b)).foldl max 0 : Nat) : Int)
            else 0⟩ := by
  intro r
  induction r with
  | zero => simp
  | succ r ih =>
    rw [List.range'_concat, List.foldl_append, ih]
    simp only [List.foldl_cons, List.foldl_nil, Measures.mk.injEq, Nat.one_mul, Nat.zero_add]
    constructor
    · funext a b
      by_cases hb : b < n
      · by_cases ha : a = r
        · subst ha; simp [hb]
        · by_cases h2 : a < r
          · simp [hb, ha, h2, Nat.lt_succ_of_lt h2]
          · have h3 : ¬ a < r + 1 := by omega
            simp [hb, ha, h2, h3]
      · simp [hb]
    · funext b
      by_cases hb : b < n
      · simp only [hb, if_true, List.range_succ, List.map_append, List.foldl_append,
          List.map_cons, List.map_nil, List.foldl_cons, List.foldl_nil]
        exact (Nat.cast_max _ _).symm
      · simp [hb]

/-- The measuring loops leave the rendered length of every element and the
greatest length of every column. -/
theorem measureColumns_eq {V : Type} (render : V → Text) (matrix : DenseMatrix V) :
    MatrixNiceOutputer.measureColumns render matrix
      = ⟨fun a b => if a < matrix.size1 ∧ b < matrix.size2
            then ((render (matrix.elem a b)).length : Int) else 0,
          fun b => if b < matrix.size2 then (columnWidth render matrix b : Int) else 0⟩ := by
  unfold MatrixNiceOutputer.measureColumns
  have inner : ∀ (i : Nat) (t : Measures),
      forLoop (fun j => decide (j < matrix.size2))
        (fun j (t : Measures) =>
          (fun current =>
            (⟨fun a b => if a = i ∧ b = j then current else t.elementOutputSizes a b,
              fun b => if b = j ∧ current > t.columnWidths b then current
                else t.columnWidths b⟩ : Measures))
            (BaseNiceOutputer.countValueOutputSize render (matrix.elem i j)))
        matrix.size2 0 t
      = ⟨fun a b => if a = i ∧ b < matrix.size2 then ((render (matrix.elem i b)).length : Int)
            else t.elementOutputSizes a b,
          fun b => if b < matrix.size2
            then max (t.columnWidths b) ((render (matrix.elem i b)).length : Int)
            else t.columnWidths b⟩ := by
    intro i t
    rw [forLoop_eq_foldl _ _ matrix.size2 0 matrix.size2 _ (fun j _ hj => by simp; omega)
      (by simp) (Nat.le_refl _)]
    exact measureRow_closed (fun b => ((render (matrix.elem i b)).length : Int)) i
      matrix.size2 t
  simp only [inner]
  rw [forLoop_eq_foldl _ _ matrix.size1 0 matrix.size1 _ (fun j _ hj => by simp; omega)
    (by simp) (Nat.le_refl _)]
  exact measureRows_closed (fun a b => (render (matrix.elem a b)).length) matrix.size2
    matrix.size1

theorem foldl_max_ge (l : List Nat) : ∀ a : Nat,
    a ≤ l.foldl max a ∧ ∀ x ∈ l, x ≤ l.foldl max a := by
  induction l with
  | nil => intro a; simp
  | cons y l ih =>
    intro a
    have h := ih (max a y)
    simp only [List.foldl_cons, List.mem_cons]
    refine ⟨by omega, ?_⟩
    intro x hx
    rcases hx with hx | hx
    · subst hx; omega
    · exact h.2 x hx

theorem foldl_max_mem (l : List Nat) : ∀ a : Nat, l.foldl max a = a ∨ l.foldl max a ∈ l := by
  induction l with
  | nil => intro a; simp
  | cons y l ih =>
    intro a
    simp only [List.foldl_cons, List.mem_cons]
    rcases ih (max a y) with h | h
    · rw [h]
      rcases Nat.le_total a y with hay | hay
      · right; left; omega
      · left; omega
    · right; right; exact h

theorem le_columnWidth {V : Type} (render : V → Text) (matrix : DenseMatrix V) (i j : Nat)
    (hi : i < matrix.size1) :
    (render (matrix.elem i j)).length ≤ columnWidth render matrix j := by
  unfold columnWidth
  apply (foldl_max_ge _ 0).2
  simp only [List.mem_map, List.mem_range]
  exact ⟨i, hi, rfl⟩

theorem columnWidth_attained {V : Type} (render : V → Text) (matrix : DenseMatrix V) (j : Nat)
    (hm : 1 ≤ matrix.size1) :
    ∃ i, i < matrix.size1 ∧ (render (matrix.elem i j)).length = columnWidth render matrix j := by
  unfold columnWidth
  rcases foldl_max_mem
      ((List.range matrix.size1).map (fun i => (render (matrix.elem i j)).length)) 0 with h | h
  · refine ⟨0, by omega, ?_⟩
    have h0 := (foldl_max_ge
      ((List.range matrix.size1).map (fun i => (render (matrix.elem i j)).length)) 0).2
      ((render (matrix.elem 0 j)).length)
      (by simp only [List.mem_map, List.mem_range]; exact ⟨0, by omega, rfl⟩)
    omega
  · simp only [List.mem_map, List.mem_range] at h
    obtain ⟨i, hi, e⟩ := h
    exact ⟨i, hi, e⟩

theorem foldl_cells_mem (body : Nat → Option Text → Option Text) (cell : Nat → Text) :
    ∀ (l : List Nat) (written : Text),
      (∀ j ∈ l, ∀ w, body j (some w) = some (w ++ cell j)) →
      l.foldl (fun out j => body j out) (some written)
        = some (written ++ l.flatMap cell) := by
  intro l
  induction l with
  | nil => intro written _; simp
  | cons j l ih =>
    intro written hbody
    simp only [List.foldl_cons, List.flatMap_cons]
    rw [hbody j (List.mem_cons_self _ _), ih _ (fun k hk => hbody k (List.mem_cons_of_mem _ hk))]
    simp

/-- The row writer of the justified mode returns, for a non-negative
`minSpaces`, having appended the body of the row. -/
theorem justifiedRow_eq {V : Type} (o : MatrixNiceOutputer) (render : V → Text)
    (matrix : DenseMatrix V) (i : Nat) (written : Text) (hi : i < matrix.size1)
    (hmin : 0 ≤ o.minSpaces_) :
    o.justifiedRow render matrix (MatrixNiceOutputer.measureColumns render matrix) i
        (some written)
      = some (written ++ justifiedBody o.minSpaces_.toNat render matrix i) := by
  rw [measureColumns_eq]
  unfold MatrixNiceOutputer.justifiedRow justifiedBody justifiedLastCell
  rw [forLoop_eq_foldl _ _ (matrix.size2 - 1) 0 matrix.size2 _
    (fun j _ hj => by simp; omega) (by simp; omega) (by omega)]
  rw [put_some, foldl_cells_mem _ (justifiedCell o.minSpaces_.toNat render matrix i)]
  · by_cases hn : matrix.size2 ≥ 1
    · have hle := le_columnWidth render matrix i (matrix.size2 - 1) hi
      have hlt : matrix.size2 - 1 < matrix.size2 := by omega
      simp only [hn, if_true, hi, hlt, and_self, put_some, List.range_eq_range']
      rw [putSpaces_some _ _ (by omega)]
      have e : ((columnWidth render matrix (matrix.size2 - 1) : Int)
            - ((render (matrix.elem i (matrix.size2 - 1))).length : Int)).toNat
          = columnWidth render matrix (matrix.size2 - 1)
            - (render (matrix.elem i (matrix.size2 - 1))).length := by omega
      rw [e]
      simp [put_some]
    · simp only [hn, if_false, put_some, List.range_eq_range']
      simp
  · intro j hj w
    have hj2 : j + 1 < matrix.size2 := by
      have := (List.mem_range'_1.mp hj).2
      omega
    have hj3 : j < matrix.size2 := by omega
    have hle := le_columnWidth render matrix i j hi
    simp only [put_some, MatrixNiceOutputer.spacesNeeded, spaceString, hi, hj3, and_self,
      if_true, Option.bind_some]
    rw [if_pos (by omega)]
    have e : ((columnWidth render matrix j : Int) - ((render (matrix.elem i j)).length : Int)
          + o.minSpaces_).toNat
        = columnWidth render matrix j - (render (matrix.elem i j)).length
          + o.minSpaces_.toNat := by omega
    rw [e]
    simp [justifiedCell, justifiedPadding]

/-- The justified mode returns, for a non-negative `minSpaces`, having
appended the justified text. -/
theorem doJustifiedColumns_eq {V : Type} (o : MatrixNiceOutputer) (render : V → Text)
    (matrix : DenseMatrix V) (written : Text) (hmin : 0 ≤ o.minSpaces_) :
    o.doJustifiedColumns render (some written) matrix
      = some (written ++ justifiedText o.minSpaces_.toNat render matrix) := by
  unfold MatrixNiceOutputer.doJustifiedColumns justifiedText
  rw [forLoop_eq_foldl _ _ matrix.size1 0 matrix.size1 _ (fun j _ hj => by simp; omega)
    (by simp) (Nat.le_refl _)]
  rw [foldl_cells_mem _ (fun i => justifiedLine o.minSpaces_.toNat render matrix i
      ++ (if i + 1 = matrix.size1 then [')'] else [',', '\n'])), List.range_eq_range']
  intro i hi w
  have hi2 : i < matrix.size1 := by
    have := (List.mem_range'_1.mp hi).2
    omega
  have hp : (if i = 0 then put ['('] (some w) else put [' '] (some w))
      = some (w ++ (if i = 0 then ['('] else [' '])) := by
    split_ifs <;> rfl
  unfold MatrixNiceOutputer.rowFrame justifiedLine
  simp only [hp]
  rw [justifiedRow_eq o render matrix i _ hi2 hmin]
  by_cases h1 : i + 1 = matrix.size1 <;> simp [h1, put_some]

theorem justifiedCell_length {V : Type} (minSpaces : Nat) (render : V → Text)
    (matrix : DenseMatrix V) (i j : Nat) (hi : i < matrix.size1) :
    (justifiedCell minSpaces render matrix i j).length
      = columnWidth render matrix j + 1 + minSpaces := by
  have hle := le_columnWidth render matrix i j hi
  simp only [justifiedCell, justifiedPadding, List.length_append, List.length_cons,
    List.length_replicate]
  omega

theorem justifiedCells_length {V : Type} (minSpaces : Nat) (render : V → Text)
    (matrix : DenseMatrix V) (i : Nat) (hi : i < matrix.size1) : ∀ j : Nat,
    ((List.range j).flatMap (justifiedCell minSpaces render matrix i)).length
      = ((List.range j).map (fun b => columnWidth render matrix b + 1 + minSpaces)).sum := by
  intro j
  induction j with
  | zero => simp
  | succ j ih =>
    rw [List.range_succ, List.flatMap_append, List.length_append, ih, List.map_append,
      List.sum_append]
    simp [justifiedCell_length minSpaces render matrix i j hi]

theorem justifiedLastCell_length {V : Type} (render : V → Text) (matrix : DenseMatrix V)
    (i : Nat) (hi : i < matrix.size1) :
    (justifiedLastCell render matrix i).length
      = if matrix.size2 ≥ 1 then columnWidth render matrix (matrix.size2 - 1) else 0 := by
  have hle := le_columnWidth render matrix i (matrix.size2 - 1) hi
  unfold justifiedLastCell
  split_ifs
  · simp only [List.length_append, List.length_replicate]
    omega
  · rfl

theorem justifiedBody_length {V : Type} (minSpaces : Nat) (render : V → Text)
    (matrix : DenseMatrix V) (i : Nat) (hi : i < matrix.size1) :
    (justifiedBody minSpaces render matrix i).length
      = 2 + ((List.range (matrix.size2 - 1)).map
            (fun b => columnWidth render matrix b + 1 + minSpaces)).sum
          + (if matrix.size2 ≥ 1 then columnWidth render matrix (matrix.size2 - 1) else 0) := by
  unfold justifiedBody
  simp only [List.length_append, justifiedCells_length minSpaces render matrix i hi,
    justifiedLastCell_length render matrix i hi, List.length_cons, List.length_nil]
  omega

theorem range_split (j k : Nat) (h : j < k) :
    List.range k = List.range j ++ j :: List.range' (j + 1) (k - 1 - j) := by
  have e : k = (k - 1 - j + 1) + j := by omega
  conv_lhs => rw [e]
  rw [List.range_eq_range', List.range_eq_range', ← List.range'_append_1 0 j]
  simp [List.range', Nat.add_comm]

/-- Where element `(i, j)` stands in the line of its row. -/
theorem justifiedLine_split {V : Type} (minSpaces : Nat) (render : V → Text)
    (matrix : DenseMatrix V) (i j : Nat) (hi : i < matrix.size1) (hj : j < matrix.size2) :
    ∃ before after,
      justifiedLine minSpaces render matrix i = before ++ render (matrix.elem i j) ++ after
      ∧ before.length = columnOffset minSpaces render matrix j
      ∧ (j + 1 < matrix.size2 → ∃ rest,
          after = ',' :: List.replicate (justifiedPadding minSpaces render matrix i j) ' '
            ++ rest) := by
  have hlen := justifiedCells_length minSpaces render matrix i hi j
  by_cases hlast : j + 1 < matrix.size2
  · refine ⟨(if i = 0 then ['('] else [' ']) ++ ['(']
        ++ (List.range j).flatMap (justifiedCell minSpaces render matrix i),
      ',' :: List.replicate (justifiedPadding minSpaces render matrix i j) ' '
        ++ ((List.range' (j + 1) (matrix.size2 - 1 - 1 - j)).flatMap
              (justifiedCell minSpaces render matrix i)
            ++ justifiedLastCell render matrix i ++ [')']), ?_, ?_, ?_⟩
    · unfold justifiedLine justifiedBody
      rw [range_split j (matrix.size2 - 1) (by omega)]
      simp [List.flatMap_append, justifiedCell]
    · simp only [List.length_append, hlen, columnOffset]
      split_ifs <;> simp
    · intro _
      exact ⟨_, rfl⟩
  · have e : j = matrix.size2 - 1 := by omega
    have hn : matrix.size2 ≥ 1 := by omega
    refine ⟨(if i = 0 then ['('] else [' ']) ++ ['(']
        ++ (List.range j).flatMap (justifiedCell minSpaces render matrix i),
      List.replicate (columnWidth render matrix j - (render (matrix.elem i j)).length) ' '
        ++ [')'], ?_, ?_, ?_⟩
    · unfold justifiedLine justifiedBody justifiedLastCell
      rw [if_pos hn, ← e]
      simp
    · simp only [List.length_append, hlen, columnOffset]
      split_ifs <;> simp
    · intro h
      exact absurd h hlast

/-! ## The sparse fill on given sequences of draws -/

theorem firstOccurrences_concat {P : Type} [DecidableEq P] (l : List P) (p : P) :
    firstOccurrences (l ++ [p])
      = if p ∈ firstOccurrences l then firstOccurrences l else firstOccurrences l ++ [p] := by
  unfold firstOccurrences
  rw [List.foldl_append]
  rfl

theorem mem_firstOccurrences {P : Type} [DecidableEq P] (l : List P) (p : P) :
    p ∈ firstOccurrences l ↔ p ∈ l := by
  induction l using List.reverseRecOn with
  | nil => simp [firstOccurrences]
  | append_singleton l q ih =>
    rw [firstOccurrences_concat]
    by_cases hq : q ∈ firstOccurrences l
    · rw [if_pos hq]
      constructor
      · intro h
        exact List.mem_append_left _ (ih.mp h)
      · intro h
        rcases List.mem_append.mp h with h | h
        · exact ih.mpr h
        · have e : p = q := by simpa using h
          rw [e]; exact hq
    · rw [if_neg hq]
      simp only [List.mem_append, ih]

theorem nodup_firstOccurrences {P : Type} [DecidableEq P] (l : List P) :
    (firstOccurrences l).Nodup := by
  induction l using List.reverseRecOn with
  | nil => simp [firstOccurrences]
  | append_singleton l q ih =>
    rw [firstOccurrences_concat]
    by_cases hq : q ∈ firstOccurrences l
    · rw [if_pos hq]; exact ih
    · rw [if_neg hq]
      rw [List.nodup_append]
      refine ⟨ih, List.nodup_singleton _, ?_⟩
      intro a ha hb
      have e : a = q := by simpa using hb
      exact hq (e ▸ ha)

theorem firstOccurrences_initial {P : Type} [DecidableEq P] (l t : List P) :
    firstOccurrences l <+: firstOccurrences (l ++ t) := by
  induction t using List.reverseRecOn with
  | nil => simp
  | append_singleton t q ih =>
    rw [← List.append_assoc, firstOccurrences_concat]
    by_cases hq : q ∈ firstOccurrences (l ++ t)
    · rw [if_pos hq]; exact ih
    · rw [if_neg hq]
      exact ih.trans (List.prefix_append _ _)

theorem vectorPositions_succ (I : Nat → Nat) (n : Nat) :
    vectorPositions I (n + 1)
      = if I n ∈ vectorPositions I n then vectorPositions I n
        else vectorPositions I n ++ [I n] := by
  unfold vectorPositions
  rw [List.range_succ, List.map_append, List.map_singleton, firstOccurrences_concat]

theorem matrixPositions_succ (I : Nat → Nat) (n : Nat) :
    matrixPositions I (n + 1)
      = if (I (2 * n), I (2 * n + 1)) ∈ matrixPositions I n then matrixPositions I n
        else matrixPositions I n ++ [(I (2 * n), I (2 * n + 1))] := by
  unfold matrixPositions
  rw [List.range_succ, List.map_append, List.map_singleton, firstOccurrences_concat]
  split_ifs <;> rfl

theorem vectorPositions_initial (I : Nat → Nat) (a b : Nat) (h : a ≤ b) :
    vectorPositions I a <+: vectorPositions I b := by
  unfold vectorPositions
  obtain ⟨d, rfl⟩ := Nat.exists_eq_add_of_le h
  have e : List.range (a + d) = List.range a ++ List.range' a d := by
    rw [List.range_eq_range', List.range_eq_range', Nat.add_comm a d,
      ← List.range'_append_1 0 a d]
    simp
  rw [e, List.map_append]
  exact firstOccurrences_initial _ _

theorem matrixPositions_initial (I : Nat → Nat) (a b : Nat) (h : a ≤ b) :
    matrixPositions I a <+: matrixPositions I b := by
  unfold matrixPositions
  obtain ⟨d, rfl⟩ := Nat.exists_eq_add_of_le h
  have e : List.range (a + d) = List.range a ++ List.range' a d := by
    rw [List.range_eq_range', List.range_eq_range', Nat.add_comm a d,
      ← List.range'_append_1 0 a d]
    simp
  rw [e, List.map_append]
  exact firstOccurrences_initial _ _

theorem vectorIter_succ {σ V : Type} (itemDie : σ → V × σ) (indexDie : σ → Nat × σ)
    (n : Nat) (x : Nat × Run σ (SparseVector V) Nat V) :
    SparseRandomizer_.vectorIter itemDie indexDie (n + 1) x
      = if x.1 > 0 then SparseRandomizer_.vectorIter itemDie indexDie n
          (SparseRandomizer_.vectorBody itemDie indexDie x)
        else x := rfl

theorem matrixIter_succ {σ V : Type} (itemDie : σ → V × σ)
    (index1Die index2Die : σ → Nat × σ)
    (n : Nat) (x : Nat × Run σ (SparseMatrix V) (Nat × Nat) V) :
    SparseRandomizer_.matrixIter itemDie index1Die index2Die (n + 1) x
      = if x.1 > 0 then SparseRandomizer_.matrixIter itemDie index1Die index2Die n
          (SparseRandomizer_.matrixBody itemDie index1Die index2Die x)
        else x := rfl

theorem vectorIter_stopped {σ V : Type} (itemDie : σ → V × σ) (indexDie : σ → Nat × σ)
    (n : Nat) (x : Nat × Run σ (SparseVector V) Nat V) (h : x.1 = 0) :
    SparseRandomizer_.vectorIter itemDie indexDie n x = x := by
  cases n with
  | zero => rfl
  | succ n =>
    unfold SparseRandomizer_.vectorIter
    rw [if_neg (by omega)]

theorem vectorIter_add {σ V : Type} (itemDie : σ → V × σ) (indexDie : σ → Nat × σ)
    (m : Nat) : ∀ (n : Nat) (x : Nat × Run σ (SparseVector V) Nat V),
    SparseRandomizer_.vectorIter itemDie indexDie (n + m) x
      = SparseRandomizer_.vectorIter itemDie indexDie m
          (SparseRandomizer_.vectorIter itemDie indexDie n x) := by
  intro n
  induction n with
  | zero => intro x; simp [SparseRandomizer_.vectorIter]
  | succ n ih =>
    intro x
    have e : n + 1 + m = (n + m) + 1 := by omega
    rw [e, vectorIter_succ, vectorIter_succ]
    by_cases hr : x.1 > 0
    · rw [if_pos hr, if_pos hr]
      exact ih _
    · rw [if_neg hr, if_neg hr]
      exact (vectorIter_stopped itemDie indexDie m x (by omega)).symm

theorem matrixIter_stopped {σ V : Type} (itemDie : σ → V × σ)
    (index1Die index2Die : σ → Nat × σ)
    (n : Nat) (x : Nat × Run σ (SparseMatrix V) (Nat × Nat) V) (h : x.1 = 0) :
    SparseRandomizer_.matrixIter itemDie index1Die index2Die n x = x := by
  cases n with
  | zero => rfl
  | succ n =>
    unfold SparseRandomizer_.matrixIter
    rw [if_neg (by omega)]

theorem matrixIter_add {σ V : Type} (itemDie : σ → V × σ)
    (index1Die index2Die : σ → Nat × σ)
    (m : Nat) : ∀ (n : Nat) (x : Nat × Run σ (SparseMatrix V) (Nat × Nat) V),
    SparseRandomizer_.matrixIter itemDie index1Die index2Die (n + m) x
      = SparseRandomizer_.matrixIter itemDie index1Die index2Die m
          (SparseRandomizer_.matrixIter itemDie index1Die index2Die n x) := by
  intro n
  induction n with
  | zero => intro x; simp [SparseRandomizer_.matrixIter]
  | succ n ih =>
    intro x
    have e : n + 1 + m = (n + m) + 1 := by omega
    rw [e, matrixIter_succ, matrixIter_succ]
    by_cases hr : x.1 > 0
    · rw [if_pos hr, if_pos hr]
      exact ih _
    · rw [if_neg hr, if_neg hr]
      exact (matrixIter_stopped itemDie index1Die index2Die m x (by omega)).symm

theorem replayVector_succ {V : Type} (I : Nat → Nat) (J : Nat → V) (vect : SparseVector V)
    (n : Nat) :
    replayVector I J vect (n + 1)
      = if (replayVector I J vect n).1 > 0
        then SparseRandomizer_.vectorBody (replayItem J) (replayIndex I) (replayVector I J vect n)
        else replayVector I J vect n := by
  unfold replayVector
  rw [vectorIter_add, vectorIter_succ]
  rfl

theorem replayMatrix_succ {V : Type} (I : Nat → Nat) (J : Nat → V) (matr : SparseMatrix V)
    (n : Nat) :
    replayMatrix I J matr (n + 1)
      = if (replayMatrix I J matr n).1 > 0
        then SparseRandomizer_.matrixBody (replayItem J) (replayIndex I) (replayIndex I)
          (replayMatrix I J matr n)
        else replayMatrix I J matr n := by
  unfold replayMatrix
  rw [matrixIter_add, matrixIter_succ]
  rfl

/-- While fewer than the capacity of distinct positions have been drawn, the
loop has made one index draw per iteration and stores the distinct positions
drawn so far, in the order of their first appearance, with the item draws in
order. -/
theorem replayVector_running {V : Type} (I : Nat → Nat) (J : Nat → V) (vect : SparseVector V) :
    ∀ n : Nat, (∀ a, a < n → (vectorPositions I a).length < vect.nnz_capacity) →
      (replayVector I J vect n).1 + (vectorPositions I n).length = vect.nnz_capacity ∧
      (replayVector I J vect n).2.container.stored.map Prod.fst = vectorPositions I n ∧
      (replayVector I J vect n).2.container.stored.map Prod.snd
        = (List.range (vectorPositions I n).length).map J ∧
      (replayVector I J vect n).2.engine = (n, (vectorPositions I n).length) ∧
      (replayVector I J vect n).2.indexDraws = n ∧
      (replayVector I J vect n).2.itemDraws = (vectorPositions I n).length := by
  intro n
  induction n with
  | zero =>
    intro _
    simp [replayVector, SparseRandomizer_.vectorIter, vectorPositions, firstOccurrences,
      Run.start, SparseVector.clear]
  | succ n ih =>
    intro hrun
    obtain ⟨h1, h2, h3, h4, h5, h6⟩ := ih (fun a ha => hrun a (by omega))
    have hlt := hrun n (by omega)
    have hpos : (replayVector I J vect n).1 > 0 := by omega
    rw [replayVector_succ, if_pos hpos, vectorPositions_succ]
    unfold SparseRandomizer_.vectorBody
    have hidx : (replayIndex I (replayVector I J vect n).2.engine).1 = I n := by
      rw [h4]; rfl
    have hfree : ((replayVector I J vect n).2.container.find_element (I n)).isNone = true
        ↔ I n ∉ vectorPositions I n := by
      rw [← h2]
      exact find_isNone_iff _ _
    rw [hidx]
    by_cases hnew : I n ∈ vectorPositions I n
    · have hocc : ¬ ((replayVector I J vect n).2.container.find_element (I n)).isNone = true :=
        fun h => (hfree.mp h) hnew
      rw [if_neg hocc, if_pos hnew]
      refine ⟨h1, h2, h3, ?_, ?_, h6⟩
      · show (replayIndex I (replayVector I J vect n).2.engine).2 = _
        rw [h4]; rfl
      · show (replayVector I J vect n).2.indexDraws + 1 = n + 1
        rw [h5]
    · rw [if_pos (hfree.mpr hnew), if_neg hnew]
      refine ⟨?_, ?_, ?_, ?_, ?_, ?_⟩
      · show (replayVector I J vect n).1 - 1 + (vectorPositions I n ++ [I n]).length = _
        rw [List.length_append, List.length_singleton]
        omega
      · show (((replayVector I J vect n).2.container.insert_element (I n) _).stored).map
          Prod.fst = _
        simp only [SparseVector.insert_element, List.map_append, h2, List.map_cons,
          List.map_nil]
      · show (((replayVector I J vect n).2.container.insert_element (I n) _).stored).map
          Prod.snd = _
        simp only [SparseVector.insert_element, List.map_append, h3, List.map_cons,
          List.map_nil, List.length_append, List.length_singleton, List.range_succ, h4]
        rfl
      · show (replayItem J (replayIndex I (replayVector I J vect n).2.engine).2).2 = _
        rw [h4, List.length_append, List.length_singleton]
        rfl
      · show (replayVector I J vect n).2.indexDraws + 1 = n + 1
        rw [h5]
      · show (replayVector I J vect n).2.itemDraws + 1 = _
        rw [h6, List.length_append, List.length_singleton]

theorem vectorPositions_length_succ (I : Nat → Nat) (n : Nat) :
    (vectorPositions I (n + 1)).length ≤ (vectorPositions I n).length + 1 := by
  rw [vectorPositions_succ]
  split_ifs <;> simp

theorem vectorPositions_length_mono (I : Nat → Nat) (a b : Nat) (h : a ≤ b) :
    (vectorPositions I a).length ≤ (vectorPositions I b).length :=
  (vectorPositions_initial I a b h).length_le

theorem matrixPositions_length_succ (I : Nat → Nat) (n : Nat) :
    (matrixPositions I (n + 1)).length ≤ (matrixPositions I n).length + 1 := by
  rw [matrixPositions_succ]
  split_ifs <;> simp

theorem matrixPositions_length_mono (I : Nat → Nat) (a b : Nat) (h : a ≤ b) :
    (matrixPositions I a).length ≤ (matrixPositions I b).length :=
  (matrixPositions_initial I a b h).length_le

/-- A monotone counter that starts at zero and grows by at most one a step
takes every level it reaches, at a least step. -/
theorem first_reaching (f : Nat → Nat) (h0 : f 0 = 0) (hstep : ∀ n, f (n + 1) ≤ f n + 1)
    (hmono : ∀ a b, a ≤ b → f a ≤ f b) (k : Nat) :
    ∀ n, k ≤ f n → ∃ T, T ≤ n ∧ f T = k ∧ ∀ a, a < T → f a < k := by
  intro n
  induction n with
  | zero =>
    intro h
    exact ⟨0, Nat.le_refl _, by omega, fun a ha => absurd ha (Nat.not_lt_zero a)⟩
  | succ n ih =>
    intro h
    by_cases hk : k ≤ f n
    · obtain ⟨T, hT, e, hbefore⟩ := ih hk
      exact ⟨T, by omega, e, hbefore⟩
    · refine ⟨n + 1, Nat.le_refl _, ?_, ?_⟩
      · have := hstep n
        omega
      · intro a ha
        have := hmono a n (by omega)
        omega

/-- The sparse vector fill on replayed sequences: it returns within `fuel`
iterations exactly when the first `fuel` index draws hold as many distinct
values as the capacity, and then in the state reached at the least number of
draws that hold so many. -/
theorem randomizeVector_replay {V : Type} (I : Nat → Nat) (J : Nat → V)
    (vect : SparseVector V) (fuel : Nat) :
    (vect.nnz_capacity ≤ (vectorPositions I fuel).length →
      ∃ T, T ≤ fuel ∧ (vectorPositions I T).length = vect.nnz_capacity
        ∧ (∀ a, a < T → (vectorPositions I a).length < vect.nnz_capacity)
        ∧ SparseRandomizer_.randomizeVector (fun _ => replayIndex I) fuel vect (0, 0)
            (replayItem J) = some (replayVector I J vect T).2) ∧
    ((vectorPositions I fuel).length < vect.nnz_capacity →
      SparseRandomizer_.randomizeVector (fun _ => replayIndex I) fuel vect (0, 0)
        (replayItem J) = none) := by
  have hloop : SparseRandomizer_.randomizeVector (fun _ => replayIndex I) fuel vect (0, 0)
        (replayItem J)
      = if (replayVector I J vect fuel).1 > 0 then none
        else some (replayVector I J vect fuel).2 := by
    unfold SparseRandomizer_.randomizeVector
    rw [vectorLoop_eq_iter]
    rfl
  constructor
  · intro hk
    obtain ⟨T, hT, e, hbefore⟩ := first_reaching (fun n => (vectorPositions I n).length)
      (by simp [vectorPositions, firstOccurrences]) (vectorPositions_length_succ I)
      (vectorPositions_length_mono I) vect.nnz_capacity fuel hk
    refine ⟨T, hT, e, hbefore, ?_⟩
    obtain ⟨h1, _⟩ := replayVector_running I J vect T hbefore
    have hzero : (replayVector I J vect T).1 = 0 := by
      have e2 : (vectorPositions I T).length = vect.nnz_capacity := e
      omega
    have hsame : replayVector I J vect fuel = replayVector I J vect T := by
      obtain ⟨d, rfl⟩ := Nat.exists_eq_add_of_le hT
      unfold replayVector
      rw [vectorIter_add]
      exact vectorIter_stopped _ _ _ _ hzero
    rw [hloop, hsame, if_neg (by omega)]
  · intro hk
    obtain ⟨h1, _⟩ := replayVector_running I J vect fuel
      (fun a ha => by
        have := vectorPositions_length_mono I a fuel (by omega)
        omega)
    rw [hloop, if_pos (by omega)]

/-- While fewer than the capacity of distinct positions have been drawn, the
matrix loop has made two index draws per iteration, the row index first, and
stores the distinct positions drawn so far, in the order of their first
appearance, with the item draws in order. -/
theorem replayMatrix_running {V : Type} (I : Nat → Nat) (J : Nat → V) (matr : SparseMatrix V) :
    ∀ n : Nat, (∀ a, a < n → (matrixPositions I a).length < matr.nnz_capacity) →
      (replayMatrix I J matr n).1 + (matrixPositions I n).length = matr.nnz_capacity ∧
      (replayMatrix I J matr n).2.container.stored.map Prod.fst = matrixPositions I n ∧
      (replayMatrix I J matr n).2.container.stored.map Prod.snd
        = (List.range (matrixPositions I n).length).map J ∧
      (replayMatrix I J matr n).2.engine = (2 * n, (matrixPositions I n).length) ∧
      (replayMatrix I J matr n).2.indexDraws = 2 * n ∧
      (replayMatrix I J matr n).2.itemDraws = (matrixPositions I n).length := by
  intro n
  induction n with
  | zero =>
    intro _
    simp [replayMatrix, SparseRandomizer_.matrixIter, matrixPositions, firstOccurrences,
      Run.start, SparseMatrix.clear]
  | succ n ih =>
    intro hrun
    obtain ⟨h1, h2, h3, h4, h5, h6⟩ := ih (fun a ha => hrun a (by omega))
    have hlt := hrun n (by omega)
    have hpos : (replayMatrix I J matr n).1 > 0 := by omega
    rw [replayMatrix_succ, if_pos hpos, matrixPositions_succ]
    unfold SparseRandomizer_.matrixBody
    have hidx1 : (replayIndex I (replayMatrix I J matr n).2.engine).1 = I (2 * n) := by
      rw [h4]; rfl
    have hidx2 : (replayIndex I (replayIndex I (replayMatrix I J matr n).2.engine).2).1
        = I (2 * n + 1) := by
      rw [h4]; rfl
    have hfree : ((replayMatrix I J matr n).2.container.find_element (I (2 * n))
          (I (2 * n + 1))).isNone = true
        ↔ (I (2 * n), I (2 * n + 1)) ∉ matrixPositions I n := by
      rw [← h2]
      exact find_isNone_iff _ _
    rw [hidx1, hidx2]
    by_cases hnew : (I (2 * n), I (2 * n + 1)) ∈ matrixPositions I n
    · have hocc : ¬ ((replayMatrix I J matr n).2.container.find_element (I (2 * n))
          (I (2 * n + 1))).isNone = true := fun h => (hfree.mp h) hnew
      rw [if_neg hocc, if_pos hnew]
      refine ⟨h1, h2, h3, ?_, ?_, h6⟩
      · show (replayIndex I (replayIndex I (replayMatrix I J matr n).2.engine).2).2 = _
        rw [h4]
        rw [Nat.mul_succ]
        rfl
      · show (replayMatrix I J matr n).2.indexDraws + 2 = 2 * (n + 1)
        rw [h5, Nat.mul_succ]
    · rw [if_pos (hfree.mpr hnew), if_neg hnew]
      refine ⟨?_, ?_, ?_, ?_, ?_, ?_⟩
      · show (replayMatrix I J matr n).1 - 1
          + (matrixPositions I n ++ [(I (2 * n), I (2 * n + 1))]).length = _
        rw [List.length_append, List.length_singleton]
        omega
      · show (((replayMatrix I J matr n).2.container.insert_element (I (2 * n))
          (I (2 * n + 1)) _).stored).map Prod.fst = _
        simp only [SparseMatrix.insert_element, List.map_append, h2, List.map_cons,
          List.map_nil]
      · show (((replayMatrix I J matr n).2.container.insert_element (I (2 * n))
          (I (2 * n + 1)) _).stored).map Prod.snd = _
        simp only [SparseMatrix.insert_element, List.map_append, h3, List.map_cons,
          List.map_nil, List.length_append, List.length_singleton, List.range_succ, h4]
        rfl
      · show (replayItem J (replayIndex I (replayIndex I
          (replayMatrix I J matr n).2.engine).2).2).2 = _
        rw [h4, List.length_append, List.length_singleton]
        rw [Nat.mul_succ]
        rfl
      · show (replayMatrix I J matr n).2.indexDraws + 2 = 2 * (n + 1)
        rw [h5, Nat.mul_succ]
      · show (replayMatrix I J matr n).2.itemDraws + 1 = _
        rw [h6, List.length_append, List.length_singleton]

/-- The sparse matrix fill on replayed sequences: it returns within `fuel`
iterations exactly when the first `fuel` pairs of index draws hold as many
distinct positions as the capacity, and then in the state reached at the
least number of pairs that hold so many. -/
theorem randomizeMatrix_replay {V : Type} (I : Nat → Nat) (J : Nat → V)
    (matr : SparseMatrix V) (fuel : Nat) :
    (matr.nnz_capacity ≤ (matrixPositions I fuel).length →
      ∃ T, T ≤ fuel ∧ (matrixPositions I T).length = matr.nnz_capacity
        ∧ (∀ a, a < T → (matrixPositions I a).length < matr.nnz_capacity)
        ∧ SparseRandomizer_.randomizeMatrix (fun _ => replayIndex I) fuel matr (0, 0)
            (replayItem J) = some (replayMatrix I J matr T).2) ∧
    ((matrixPositions I fuel).length < matr.nnz_capacity →
      SparseRandomizer_.randomizeMatrix (fun _ => replayIndex I) fuel matr (0, 0)
        (replayItem J) = none) := by
  have hloop : SparseRandomizer_.randomizeMatrix (fun _ => replayIndex I) fuel matr (0, 0)
        (replayItem J)
      = if (replayMatrix I J matr fuel).1 > 0 then none
        else some (replayMatrix I J matr fuel).2 := by
    unfold SparseRandomizer_.randomizeMatrix
    rw [matrixLoop_eq_iter]
    rfl
  constructor
  · intro hk
    obtain ⟨T, hT, e, hbefore⟩ := first_reaching (fun n => (matrixPositions I n).length)
      (by simp [matrixPositions, firstOccurrences]) (matrixPositions_length_succ I)
      (matrixPositions_length_mono I) matr.nnz_capacity fuel hk
    refine ⟨T, hT, e, hbefore, ?_⟩
    obtain ⟨h1, _⟩ := replayMatrix_running I J matr T hbefore
    have hzero : (replayMatrix I J matr T).1 = 0 := by
      have e2 : (matrixPositions I T).length = matr.nnz_capacity := e
      omega
    have hsame : replayMatrix I J matr fuel = replayMatrix I J matr T := by
      obtain ⟨d, rfl⟩ := Nat.exists_eq_add_of_le hT
      unfold replayMatrix
      rw [matrixIter_add]
      exact matrixIter_stopped _ _ _ _ _ hzero
    rw [hloop, hsame, if_neg (by omega)]
  · intro hk
    obtain ⟨h1, _⟩ := replayMatrix_running I J matr fuel
      (fun a ha => by
        have := matrixPositions_length_mono I a fuel (by omega)
        omega)
    rw [hloop, if_pos (by omega)]

/-! ## The mirrored fills on containers that are not square -/

theorem lower_positions_in_range_iff (m n : Nat) :
    (∀ p ∈ rowsCols m (fun i => List.range' 0 (i + 1)), p.1 < m ∧ p.2 < n) ↔ m ≤ n := by
  constructor
  · intro h
    by_contra hcon
    have hmem : (n, n) ∈ rowsCols m (fun i => List.range' 0 (i + 1)) := by
      rw [mem_rowsCols]
      exact ⟨by omega, by simp⟩
    have := (h (n, n) hmem).2
    exact Nat.lt_irrefl n this
  · intro h p hp
    obtain ⟨i, j⟩ := p
    rw [mem_rowsCols] at hp
    have hj := (List.mem_range'_1.mp hp.2).2
    exact ⟨hp.1, by dsimp only; omega⟩

theorem symmetric_positions {σ M V : Type} (acc : MatrixAccess M V)
    (matr : M) (engine : σ) (itemDist : σ → V × σ) :
    (SymmetricRandomizer_.randomize acc matr engine itemDist).writes.map Prod.fst
      = rowsCols (acc.size1 matr) (fun i => List.range' 0 (i + 1)) := by
  rw [symmetric_randomize_eq, fillAt_positions]
  simp [Run.start]

theorem hermitian_positions {σ M V : Type} (acc : MatrixAccess M V) (real : V → V)
    (matr : M) (engine : σ) (itemDist : σ → V × σ) :
    (HermitianRandomizer_.randomize acc real matr engine itemDist).writes.map Prod.fst
      = rowsCols (acc.size1 matr) (fun i => List.range' 0 (i + 1)) := by
  rw [hermitian_randomize_eq, fillAt_positions]
  simp [Run.start]

theorem hermitian_eq_symmetric {σ M V : Type} (acc : MatrixAccess M V) (real : V → V)
    (matr : M) (engine : σ) (itemDist : σ → V × σ) (hreal : ∀ v, real v = v) :
    HermitianRandomizer_.randomize acc real matr engine itemDist
      = SymmetricRandomizer_.randomize acc matr engine itemDist := by
  rw [hermitian_randomize_eq, symmetric_randomize_eq]
  apply fillAt_congr
  intro p _
  by_cases h : p.1 = p.2
  · rw [if_pos h]
    funext v
    exact hreal v
  · rw [if_neg h]

/-! ## Type substitution, twice and with the element type itself -/

theorem replaceBackend_adaptor_some (wrap : CType → CType) (matrix new answer : CType)
    (h : (TypeReplacer.ReplaceBackend matrix new).map wrap = some answer) :
    ∃ matrixAnswer, TypeReplacer.ReplaceBackend matrix new = some matrixAnswer ∧
      answer = wrap matrixAnswer := by
  cases hb : TypeReplacer.ReplaceBackend matrix new with
  | none => rw [hb] at h; exact Option.noConfusion h
  | some matrixAnswer =>
    rw [hb] at h
    exact ⟨matrixAnswer, rfl, (Option.some.inj h).symm⟩

theorem replaceBackend_absorbs (a b : CType) : ∀ (c x : CType),
    TypeReplacer.ReplaceBackend c a = some x →
    TypeReplacer.ReplaceBackend x b = TypeReplacer.ReplaceBackend c b := by
  intro c
  induction c with
  | triangular_adaptor matrix tag ihm _ =>
    intro x h
    obtain ⟨y, hy, e⟩ := replaceBackend_adaptor_some (fun t => .triangular_adaptor t tag)
      matrix a x h
    subst e
    show (TypeReplacer.ReplaceBackend y b).map _ = (TypeReplacer.ReplaceBackend matrix b).map _
    rw [ihm y hy]
  | symmetric_adaptor matrix tag ihm _ =>
    intro x h
    obtain ⟨y, hy, e⟩ := replaceBackend_adaptor_some (fun t => .symmetric_adaptor t tag)
      matrix a x h
    subst e
    show (TypeReplacer.ReplaceBackend y b).map _ = (TypeReplacer.ReplaceBackend matrix b).map _
    rw [ihm y hy]
  | hermitian_adaptor matrix tag ihm _ =>
    intro x h
    obtain ⟨y, hy, e⟩ := replaceBackend_adaptor_some (fun t => .hermitian_adaptor t tag)
      matrix a x h
    subst e
    show (TypeReplacer.ReplaceBackend y b).map _ = (TypeReplacer.ReplaceBackend matrix b).map _
    rw [ihm y hy]
  | banded_adaptor matrix ihm =>
    intro x h
    obtain ⟨y, hy, e⟩ := replaceBackend_adaptor_some (fun t => .banded_adaptor t)
      matrix a x h
    subst e
    show (TypeReplacer.ReplaceBackend y b).map _ = (TypeReplacer.ReplaceBackend matrix b).map _
    rw [ihm y hy]
  | _ =>
    intro x h
    first
      | exact Option.noConfusion h
      | (cases h; rfl)

theorem replaceBackend_of_value_type : ∀ (c e x : CType),
    value_type c = some e → TypeReplacer.ReplaceBackend c e = some x → x = c := by
  intro c
  induction c with
  | triangular_adaptor matrix tag ihm _ =>
    intro e x hv h
    obtain ⟨y, hy, ey⟩ := replaceBackend_adaptor_some (fun t => .triangular_adaptor t tag)
      matrix e x h
    rw [ey, ihm e y hv hy]
  | symmetric_adaptor matrix tag ihm _ =>
    intro e x hv h
    obtain ⟨y, hy, ey⟩ := replaceBackend_adaptor_some (fun t => .symmetric_adaptor t tag)
      matrix e x h
    rw [ey, ihm e y hv hy]
  | hermitian_adaptor matrix tag ihm _ =>
    intro e x hv h
    obtain ⟨y, hy, ey⟩ := replaceBackend_adaptor_some (fun t => .hermitian_adaptor t tag)
      matrix e x h
    rw [ey, ihm e y hv hy]
  | banded_adaptor matrix ihm =>
    intro e x hv h
    obtain ⟨y, hy, ey⟩ := replaceBackend_adaptor_some (fun t => .banded_adaptor t)
      matrix e x h
    rw [ey, ihm e y hv hy]
  | _ =>
    intro e x hv h
    first
      | exact Option.noConfusion h
      | (cases hv; cases h; rfl)

theorem replaceBackend_answer_unqualified (c a x : CType)
    (h : TypeReplacer.ReplaceBackend c a = some x) : remove_cv x = x := by
  cases c <;> first
    | exact Option.noConfusion h
    | (cases h; rfl)
    | (obtain ⟨y, _, e⟩ := replaceBackend_adaptor_some _ _ a x h
       rw [e]; rfl)

theorem replaceBackend_isSome_any (a b : CType) : ∀ c : CType,
    (TypeReplacer.ReplaceBackend c a).isSome = (TypeReplacer.ReplaceBackend c b).isSome := by
  intro c
  induction c with
  | triangular_adaptor matrix tag ihm _ =>
    show ((TypeReplacer.ReplaceBackend matrix a).map _).isSome
      = ((TypeReplacer.ReplaceBackend matrix b).map _).isSome
    rw [Option.isSome_map', Option.isSome_map', ihm]
  | symmetric_adaptor matrix tag ihm _ =>
    show ((TypeReplacer.ReplaceBackend matrix a).map _).isSome
      = ((TypeReplacer.ReplaceBackend matrix b).map _).isSome
    rw [Option.isSome_map', Option.isSome_map', ihm]
  | hermitian_adaptor matrix tag ihm _ =>
    show ((TypeReplacer.ReplaceBackend matrix a).map _).isSome
      = ((TypeReplacer.ReplaceBackend matrix b).map _).isSome
    rw [Option.isSome_map', Option.isSome_map', ihm]
  | banded_adaptor matrix ihm =>
    show ((TypeReplacer.ReplaceBackend matrix a).map _).isSome
      = ((TypeReplacer.ReplaceBackend matrix b).map _).isSome
    rw [Option.isSome_map', Option.isSome_map', ihm]
  | _ => rfl

/-! ## The formatter: rows, the simple mode and the equal-width mode -/

/-- The loop over the rows, when every row appends a known text. -/
theorem rows_eq (m : Nat) (row : Nat → Option Text → Option Text) (body : Nat → Text)
    (written : Text) (hrow : ∀ i, i < m → ∀ x, row i (some x) = some (x ++ body i)) :
    forLoop (fun i => decide (i < m))
        (fun i out => MatrixNiceOutputer.rowFrame m i (row i) out) m 0 (some written)
      = some (written ++ framedRows m body) := by
  unfold framedRows
  rw [forLoop_eq_foldl _ _ m 0 m _ (fun j _ hj => by simp; omega) (by simp) (Nat.le_refl _)]
  rw [foldl_cells_mem _ (fun i => (if i = 0 then ['('] else [' ']) ++ body i
      ++ (if i + 1 = m then [')'] else [',', '\n'])), List.range_eq_range']
  intro i hi w
  have hi2 : i < m := by
    have := (List.mem_range'_1.mp hi).2
    omega
  have hp : (if i = 0 then put ['('] (some w) else put [' '] (some w))
      = some (w ++ (if i = 0 then ['('] else [' '])) := by
    split_ifs <;> rfl
  unfold MatrixNiceOutputer.rowFrame
  simp only [hp]
  rw [hrow i hi2]
  by_cases h1 : i + 1 = m <;> simp [h1, put_some]

/-- The simple mode, when the row writer appends a known text for every row. -/
theorem doSimply_eq {V : Type} (o : MatrixNiceOutputer) (render : V → Text)
    (matrix : DenseMatrix V) (rowText : Nat → Text) (written : Text)
    (hrow : ∀ i, i < matrix.size1 → ∀ x,
      o.toBaseNiceOutputer.outputRowSimply render (some x) (matrix.row i)
        = some (x ++ rowText i)) :
    o.doSimply render (some written) matrix
      = some (written ++ framedRows matrix.size1 rowText) := by
  unfold MatrixNiceOutputer.doSimply
  exact rows_eq matrix.size1
    (fun i out => o.toBaseNiceOutputer.outputRowSimply render out (matrix.row i))
    rowText written hrow

theorem forLoop_invariant {S : Type} (P : S → Prop) (cond : Nat → Bool) (body : Nat → S → S)
    (hbody : ∀ j s, P s → P (body j s)) :
    ∀ (fuel start : Nat) (s : S), P s → P (forLoop cond body fuel start s) := by
  intro fuel
  induction fuel with
  | zero => intro start s h; exact h
  | succ f ih =>
    intro start s h
    unfold forLoop
    split_ifs
    · exact ih _ _ (hbody _ _ h)
    · exact h

theorem measureWidthRow_closed (L : Nat → Int) (i : Nat) : ∀ (c : Nat) (t : Measures),
    (List.range' 0 c).foldl (fun (t : Measures) j =>
        (⟨fun a b => if a = i ∧ b = j then L j else t.elementOutputSizes a b,
          fun b => if b = 0 ∧ L j > t.columnWidths 0 then L j else t.columnWidths b⟩ :
          Measures)) t
      = ⟨fun a b => if a = i ∧ b < c then L b else t.elementOutputSizes a b,
          fun b => if b = 0 then ((List.range c).map L).foldl max (t.columnWidths 0)
            else t.columnWidths b⟩ := by
  intro c
  induction c with
  | zero =>
    intro t
    simp only [List.range'_zero, List.foldl_nil, Nat.not_lt_zero, and_false, if_false,
      List.range_zero, List.map_nil]
    cases t with
    | mk sizes widths =>
      simp only [Measures.mk.injEq, true_and]
      funext b
      by_cases hb : b = 0
      · rw [if_pos hb, hb]
      · rw [if_neg hb]
  | succ c ih =>
    intro t
    rw [List.range'_concat, List.foldl_append, ih t]
    simp only [List.foldl_cons, List.foldl_nil, Measures.mk.injEq, Nat.one_mul, Nat.zero_add,
      if_true]
    constructor
    · funext a b
      by_cases h1 : a = i ∧ b = c
      · obtain ⟨ha, hb⟩ := h1
        subst hb
        simp [ha]
      · rw [if_neg h1]
        by_cases h2 : a = i ∧ b < c
        · rw [if_pos h2, if_pos ⟨h2.1, by omega⟩]
        · rw [if_neg h2, if_neg (by
            intro h3; apply h1; refine ⟨h3.1, ?_⟩; by_contra h4; exact h2 ⟨h3.1, by omega⟩)]
    · funext b
      by_cases hb : b = 0
      · subst hb
        simp only [true_and, if_true, List.range_succ, List.map_append, List.foldl_append,
          List.map_cons, List.map_nil, List.foldl_cons, List.foldl_nil]
        split_ifs with h <;> omega
      · simp [hb]

theorem measureWidthRows_closed (L : Nat → Nat → Int) (n : Nat) : ∀ r : Nat,
    (List.range' 0 r).foldl (fun (t : Measures) i =>
        (⟨fun a b => if a = i ∧ b < n then L i b else t.elementOutputSizes a b,
          fun b => if b = 0 then ((List.range n).map (L i)).foldl max (t.columnWidths 0)
            else t.columnWidths b⟩ : Measures)) ⟨fun _ _ => 0, fun _ => 0⟩
      = ⟨fun a b => if a < r ∧ b < n then L a b else 0,
          fun b => if b = 0
            then ((List.range r).flatMap (fun i => (List.range n).map (L i))).foldl max 0
            else 0⟩ := by
  intro r
  induction r with
  | zero =>
    simp only [List.range'_zero, List.foldl_nil, Nat.not_lt_zero, false_and, if_false,
      List.range_zero, List.flatMap_nil, ite_self]
  | succ r ih =>
    rw [List.range'_concat, List.foldl_append, ih]
    simp only [List.foldl_cons, List.foldl_nil, Measures.mk.injEq, Nat.one_mul, Nat.zero_add,
      if_true]
    constructor
    · funext a b
      by_cases hb : b < n
      · by_cases ha : a = r
        · subst ha; simp [hb]
        · by_cases h2 : a < r
          · simp [hb, ha, h2, Nat.lt_succ_of_lt h2]
          · have h3 : ¬ a < r + 1 := by omega
            simp [hb, ha, h2, h3]
      · simp [hb]
    · funext b
      by_cases hb : b = 0
      · simp only [hb, if_true, List.range_succ, List.flatMap_append, List.foldl_append,
          List.flatMap_cons, List.flatMap_nil, List.append_nil]
      · simp [hb]

theorem foldl_max_cast (l : List Nat) : ∀ a : Nat,
    (l.map (fun x : Nat => (x : Int))).foldl max (a : Int) = ((l.foldl max a : Nat) : Int) := by
  induction l with
  | nil => intro a; rfl
  | cons x l ih =>
    intro a
    simp only [List.map_cons, List.foldl_cons]
    rw [← Nat.cast_max, ih]

theorem map_flatMap_eq {α β γ : Type} (g : β → γ) (f : α → List β) (l : List α) :
    (l.flatMap f).map g = l.flatMap (fun a => (f a).map g) := by
  induction l with
  | nil => rfl
  | cons a l ih => simp only [List.flatMap_cons, List.map_append, ih]

/-- The measuring loops of the equal-width mode leave the rendered length of
every element and, as the width, the greatest of them. -/
theorem measureWidth_eq {V : Type} (render : V → Text) (matrix : DenseMatrix V) :
    (MatrixNiceOutputer.measureWidth render matrix).elementOutputSizes
      = (fun a b => if a < matrix.size1 ∧ b < matrix.size2
          then ((render (matrix.elem a b)).length : Int) else 0) ∧
    (MatrixNiceOutputer.measureWidth render matrix).columnWidths 0
      = (matrixWidth render matrix : Int) := by
  have inner : ∀ (i : Nat) (t : Measures),
      forLoop (fun j => decide (j < matrix.size2))
        (fun j (t : Measures) =>
          (fun current =>
            (⟨fun a b => if a = i ∧ b = j then current else t.elementOutputSizes a b,
              fun b => if b = 0 ∧ current > t.columnWidths 0 then current
                else t.columnWidths b⟩ : Measures))
            (BaseNiceOutputer.countValueOutputSize render (matrix.elem i j)))
        matrix.size2 0 t
      = ⟨fun a b => if a = i ∧ b < matrix.size2 then ((render (matrix.elem i b)).length : Int)
            else t.elementOutputSizes a b,
          fun b => if b = 0
            then ((List.range matrix.size2).map
              (fun b => ((render (matrix.elem i b)).length : Int))).foldl max
                (t.columnWidths 0)
            else t.columnWidths b⟩ := by
    intro i t
    rw [forLoop_eq_foldl _ _ matrix.size2 0 matrix.size2 _ (fun j _ hj => by simp; omega)
      (by simp) (Nat.le_refl _)]
    exact measureWidthRow_closed (fun b => ((render (matrix.elem i b)).length : Int)) i
      matrix.size2 t
  have first : forLoop (fun i => decide (i < matrix.size1))
      (fun i t =>
        forLoop (fun j => decide (j < matrix.size2))
          (fun j (t : Measures) =>
            (fun current =>
              (⟨fun a b => if a = i ∧ b = j then current else t.elementOutputSizes a b,
                fun b => if b = 0 ∧ current > t.columnWidths 0 then current
                  else t.columnWidths b⟩ : Measures))
              (BaseNiceOutputer.countValueOutputSize render (matrix.elem i j)))
          matrix.size2 0 t)
      matrix.size1 0 (⟨fun _ _ => 0, fun _ => 0⟩ : Measures)
      = ⟨fun a b => if a < matrix.size1 ∧ b < matrix.size2
            then ((render (matrix.elem a b)).length : Int) else 0,
          fun b => if b = 0 then (matrixWidth render matrix : Int) else 0⟩ := by
    simp only [inner]
    rw [forLoop_eq_foldl _ _ matrix.size1 0 matrix.size1 _ (fun j _ hj => by simp; omega)
      (by simp) (Nat.le_refl _)]
    have key := measureWidthRows_closed
      (fun a b => ((render (matrix.elem a b)).length : Int)) matrix.size2 matrix.size1
    have ecast : ((List.range matrix.size1).flatMap (fun i =>
          (List.range matrix.size2).map
            (fun b => ((render (matrix.elem i b)).length : Int)))).foldl max 0
        = (matrixWidth render matrix : Int) := by
      unfold matrixWidth
      rw [← foldl_max_cast, map_flatMap_eq]
      simp only [List.map_map, Function.comp_def]
      rfl
    rw [ecast] at key
    exact key
  unfold MatrixNiceOutputer.measureWidth
  rw [first]
  by_cases hn : matrix.size2 > 0
  · simp only [hn, if_true]
    exact forLoop_invariant
      (fun t : Measures => t.elementOutputSizes
          = (fun a b => if a < matrix.size1 ∧ b < matrix.size2
            then ((render (matrix.elem a b)).length : Int) else 0)
        ∧ t.columnWidths 0 = (matrixWidth render matrix : Int))
      _ _
      (fun j s hs => by
        dsimp only
        split_ifs
        · exact ⟨hs.1, by simpa using hs.2⟩
        · exact hs)
      _ _ _ ⟨rfl, by simp⟩
  · simp only [hn, if_false]
    constructor <;> simp

theorem le_matrixWidth {V : Type} (render : V → Text) (matrix : DenseMatrix V) (i j : Nat)
    (hi : i < matrix.size1) (hj : j < matrix.size2) :
    (render (matrix.elem i j)).length ≤ matrixWidth render matrix := by
  unfold matrixWidth
  apply (foldl_max_ge _ 0).2
  simp only [List.mem_flatMap, List.mem_map, List.mem_range]
  exact ⟨i, hi, j, hj, rfl⟩

theorem matrixWidth_attained {V : Type} (render : V → Text) (matrix : DenseMatrix V)
    (hm : 1 ≤ matrix.size1) (hn : 1 ≤ matrix.size2) :
    ∃ i j, i < matrix.size1 ∧ j < matrix.size2
      ∧ (render (matrix.elem i j)).length = matrixWidth render matrix := by
  rcases foldl_max_mem
      ((List.range matrix.size1).flatMap (fun i =>
        (List.range matrix.size2).map (fun j => (render (matrix.elem i j)).length))) 0
    with h | h
  · refine ⟨0, 0, by omega, by omega, ?_⟩
    have h0 := le_matrixWidth render matrix 0 0 (by omega) (by omega)
    have e : matrixWidth render matrix = 0 := h
    omega
  · simp only [List.mem_flatMap, List.mem_map, List.mem_range] at h
    obtain ⟨i, hi, j, hj, e⟩ := h
    exact ⟨i, j, hi, hj, e⟩

/-- The row writer of the equal-width mode returns, for a non-negative
`minSpaces`, having appended the body of the row. -/
theorem equalWidthRow_eq {V : Type} (o : MatrixNiceOutputer) (render : V → Text)
    (matrix : DenseMatrix V) (i : Nat) (written : Text) (hi : i < matrix.size1)
    (hmin : 0 ≤ o.minSpaces_) :
    o.equalWidthRow render matrix (MatrixNiceOutputer.measureWidth render matrix) i
        (some written)
      = some (written ++ equalWidthBody o.minSpaces_.toNat render matrix i) := by
  obtain ⟨hs, hw⟩ := measureWidth_eq render matrix
  generalize MatrixNiceOutputer.measureWidth render matrix = t at hs hw
  unfold MatrixNiceOutputer.equalWidthRow equalWidthBody equalWidthLastCell
  rw [forLoop_eq_foldl _ _ (matrix.size2 - 1) 0 matrix.size2 _
    (fun j _ hj => by simp; omega) (by simp; omega) (by omega)]
  rw [put_some, foldl_cells_mem _ (equalWidthCell o.minSpaces_.toNat render matrix i)]
  · by_cases hn : matrix.size2 ≥ 1
    · have hlt : matrix.size2 - 1 < matrix.size2 := by omega
      have hle := le_matrixWidth render matrix i (matrix.size2 - 1) hi hlt
      simp only [hn, if_true, hs, hw, hi, hlt, and_self, put_some, List.range_eq_range']
      rw [putSpaces_some _ _ (by omega)]
      have e : ((matrixWidth render matrix : Int)
            - ((render (matrix.elem i (matrix.size2 - 1))).length : Int)).toNat
          = matrixWidth render matrix
            - (render (matrix.elem i (matrix.size2 - 1))).length := by omega
      rw [e]
      simp [put_some]
    · simp only [hn, if_false, put_some, List.range_eq_range']
      simp
  · intro j hj w
    have hj2 : j + 1 < matrix.size2 := by
      have := (List.mem_range'_1.mp hj).2
      omega
    have hj3 : j < matrix.size2 := by omega
    have hle := le_matrixWidth render matrix i j hi hj3
    simp only [put_some, MatrixNiceOutputer.spacesNeeded, spaceString, hs, hw, hi, hj3,
      and_self, if_true, Option.bind_some]
    rw [if_pos (by omega)]
    have e : ((matrixWidth render matrix : Int) - ((render (matrix.elem i j)).length : Int)
          + o.minSpaces_).toNat
        = matrixWidth render matrix - (render (matrix.elem i j)).length
          + o.minSpaces_.toNat := by omega
    rw [e]
    simp [equalWidthCell]

/-- The equal-width mode returns, for a non-negative `minSpaces`, having
appended the framed rows. -/
theorem doEqualWidthColumns_eq {V : Type} (o : MatrixNiceOutputer) (render : V → Text)
    (matrix : DenseMatrix V) (written : Text) (hmin : 0 ≤ o.minSpaces_) :
    o.doEqualWidthColumns render (some written) matrix
      = some (written
          ++ framedRows matrix.size1 (equalWidthBody o.minSpaces_.toNat render matrix)) := by
  unfold MatrixNiceOutputer.doEqualWidthColumns
  exact rows_eq matrix.size1
    (o.equalWidthRow render matrix (MatrixNiceOutputer.measureWidth render matrix))
    (equalWidthBody o.minSpaces_.toNat render matrix) written
    (fun i hi x => equalWidthRow_eq o render matrix i x hi hmin)

theorem justifiedText_eq_framedRows {V : Type} (minSpaces : Nat) (render : V → Text)
    (matrix : DenseMatrix V) :
    justifiedText minSpaces render matrix
      = framedRows matrix.size1 (justifiedBody minSpaces render matrix) := by
  unfold justifiedText framedRows justifiedLine
  rfl

theorem equalWidthCell_length {V : Type} (minSpaces : Nat) (render : V → Text)
    (matrix : DenseMatrix V) (i j : Nat) (hi : i < matrix.size1) (hj : j < matrix.size2) :
    (equalWidthCell minSpaces render matrix i j).length
      = matrixWidth render matrix + 1 + minSpaces := by
  have hle := le_matrixWidth render matrix i j hi hj
  simp only [equalWidthCell, List.length_append, List.length_cons, List.length_replicate]
  omega

theorem equalWidthLastCell_length {V : Type} (render : V → Text) (matrix : DenseMatrix V)
    (i : Nat) (hi : i < matrix.size1) (hn : 1 ≤ matrix.size2) :
    (equalWidthLastCell render matrix i).length = matrixWidth render matrix := by
  have hle := le_matrixWidth render matrix i (matrix.size2 - 1) hi (by omega)
  unfold equalWidthLastCell
  rw [if_pos hn]
  simp only [List.length_append, List.length_replicate]
  omega

theorem equalWidthCells_length {V : Type} (minSpaces : Nat) (render : V → Text)
    (matrix : DenseMatrix V) (i : Nat) (hi : i < matrix.size1) : ∀ j : Nat,
    j ≤ matrix.size2 →
    ((List.range j).flatMap (equalWidthCell minSpaces render matrix i)).length
      = j * (matrixWidth render matrix + 1 + minSpaces) := by
  intro j
  induction j with
  | zero => intro _; simp
  | succ j ih =>
    intro hj
    rw [List.range_succ, List.flatMap_append, List.length_append, ih (by omega)]
    simp only [List.flatMap_cons, List.flatMap_nil, List.append_nil,
      equalWidthCell_length minSpaces render matrix i j hi (by omega)]
    rw [Nat.succ_mul]

/-- Where element `(i, j)` stands in the body of its row in the equal-width
layout. -/
theorem equalWidthBody_split {V : Type} (minSpaces : Nat) (render : V → Text)
    (matrix : DenseMatrix V) (i j : Nat) (hi : i < matrix.size1) (hj : j < matrix.size2) :
    ∃ before after,
      equalWidthBody minSpaces render matrix i = before ++ render (matrix.elem i j) ++ after
      ∧ before.length = 1 + j * (matrixWidth render matrix + 1 + minSpaces)
      ∧ (j + 1 < matrix.size2 → ∃ rest,
          after = ',' :: List.replicate
              (matrixWidth render matrix - (render (matrix.elem i j)).length + minSpaces) ' '
            ++ rest)
      ∧ (j + 1 = matrix.size2 →
          after = List.replicate
              (matrixWidth render matrix - (render (matrix.elem i j)).length) ' ' ++ [')']) := by
  have hlen := equalWidthCells_length minSpaces render matrix i hi j (by omega)
  by_cases hlast : j + 1 < matrix.size2
  · refine ⟨['('] ++ (List.range j).flatMap (equalWidthCell minSpaces render matrix i),
      ',' :: List.replicate
          (matrixWidth render matrix - (render (matrix.elem i j)).length + minSpaces) ' '
        ++ ((List.range' (j + 1) (matrix.size2 - 1 - 1 - j)).flatMap
              (equalWidthCell minSpaces render matrix i)
            ++ equalWidthLastCell render matrix i ++ [')']), ?_, ?_, ?_, ?_⟩
    · unfold equalWidthBody
      rw [range_split j (matrix.size2 - 1) (by omega)]
      simp [List.flatMap_append, equalWidthCell]
    · simp only [List.length_append, hlen, List.length_cons, List.length_nil]
    · intro _
      exact ⟨_, rfl⟩
    · intro h
      omega
  · have e : j = matrix.size2 - 1 := by omega
    have hn : matrix.size2 ≥ 1 := by omega
    refine ⟨['('] ++ (List.range j).flatMap (equalWidthCell minSpaces render matrix i),
      List.replicate (matrixWidth render matrix - (render (matrix.elem i j)).length) ' '
        ++ [')'], ?_, ?_, ?_, ?_⟩
    · unfold equalWidthBody equalWidthLastCell
      rw [if_pos hn, ← e]
      simp
    · simp only [List.length_append, hlen, List.length_cons, List.length_nil]
    · intro h
      exact absurd h hlast
    · intro _
      rfl

/-! ## Output functions only append -/

theorem appends_put (text : Text) : Appends (put text) :=
  ⟨rfl, fun _ _ h => ⟨text, (Option.some.inj h).symm⟩⟩

theorem appends_comp (f g : Option Text → Option Text) (hf : Appends f) (hg : Appends g) :
    Appends (fun out => g (f out)) := by
  refine ⟨?_, ?_⟩
  · show g (f none) = none
    rw [hf.1, hg.1]
  · intro x y h
    cases hfx : f (some x) with
    | none =>
      have h2 : g (f (some x)) = some y := h
      rw [hfx, hg.1] at h2
      exact Option.noConfusion h2
    | some z =>
      have h2 : g (f (some x)) = some y := h
      rw [hfx] at h2
      obtain ⟨b1, e1⟩ := hf.2 x z hfx
      obtain ⟨b2, e2⟩ := hg.2 z y h2
      exact ⟨b1 ++ b2, by rw [e2, e1, List.append_assoc]⟩

theorem appends_id : Appends (fun out => out) :=
  ⟨rfl, fun x y h => ⟨[], by rw [← Option.some.inj h, List.append_nil]⟩⟩

theorem appends_ite (c : Prop) [Decidable c] (f g : Option Text → Option Text)
    (hf : Appends f) (hg : Appends g) : Appends (fun out => if c then f out else g out) := by
  by_cases h : c
  · simp only [h, if_true]; exact hf
  · simp only [h, if_false]; exact hg

theorem appends_option (spaces : Option Text) :
    Appends (fun out => out.bind (fun written => spaces.map (fun s => written ++ s))) := by
  refine ⟨rfl, ?_⟩
  intro x y h
  cases spaces with
  | none => exact Option.noConfusion h
  | some s => exact ⟨s, (Option.some.inj h).symm⟩

theorem appends_putSpaces (count : Int) : Appends (putSpaces count) :=
  appends_option (spaceString count)

theorem appends_foldl (body : Nat → Option Text → Option Text)
    (hbody : ∀ j, Appends (body j)) : ∀ l : List Nat,
    Appends (fun out => l.foldl (fun o j => body j o) out) := by
  intro l
  induction l with
  | nil => exact appends_id
  | cons j l ih =>
    exact appends_comp (body j) (fun out => l.foldl (fun o j => body j o) out) (hbody j) ih

theorem appends_forLoop (cond : Nat → Bool) (body : Nat → Option Text → Option Text)
    (hbody : ∀ j, Appends (body j)) : ∀ fuel start : Nat,
    Appends (fun out => forLoop cond body fuel start out) := by
  intro fuel
  induction fuel with
  | zero => intro start; exact appends_id
  | succ f ih =>
    intro start
    cases hc : cond start with
    | true =>
      have e : (fun out => forLoop cond body (f + 1) start out)
          = (fun out => forLoop cond body f (start + 1) (body start out)) := by
        funext out
        simp [forLoop, hc]
      rw [e]
      exact appends_comp (body start) (fun out => forLoop cond body f (start + 1) out)
        (hbody start) (ih (start + 1))
    | false =>
      have e : (fun out => forLoop cond body (f + 1) start out) = (fun out => out) := by
        funext out
        simp [forLoop, hc]
      rw [e]
      exact appends_id

theorem appends_outputRowSimply {V : Type} (o : BaseNiceOutputer) (render : V → Text)
    (vector : DenseVector V) : Appends (fun out => o.outputRowSimply render out vector) := by
  unfold BaseNiceOutputer.outputRowSimply
  refine appends_comp _ (put [')']) ?_ (appends_put _)
  refine appends_comp
    (fun out => forLoop (fun i => decide (i + 1 < vector.size))
        (fun i out => putSpaces o.minSpaces_ (put [','] (put (render (vector.elem i)) out)))
        vector.size 0 (put ['('] out))
    (fun afterLoop =>
        if vector.size ≥ 1 then put (render (vector.elem (vector.size - 1))) afterLoop
        else afterLoop) ?_ ?_
  · refine appends_comp (put ['(']) (fun out => forLoop _ _ vector.size 0 out)
      (appends_put _) ?_
    apply appends_forLoop
    intro j
    exact appends_comp _ (putSpaces o.minSpaces_)
      (appends_comp (put (render (vector.elem j))) (put [',']) (appends_put _) (appends_put _))
      (appends_putSpaces _)
  · exact appends_ite _ _ _ (appends_put _) appends_id

theorem appends_justifiedRow {V : Type} (o : MatrixNiceOutputer) (render : V → Text)
    (matrix : DenseMatrix V) (t : Measures) (i : Nat) :
    Appends (fun out => o.justifiedRow render matrix t i out) := by
  unfold MatrixNiceOutputer.justifiedRow
  refine appends_comp _ (put [')']) ?_ (appends_put _)
  refine appends_comp
    (fun out => forLoop (fun j => decide (j + 1 < matrix.size2))
        (fun j out =>
          (fun afterComma =>
            afterComma.bind (fun written =>
              (o.spacesNeeded (t.elementOutputSizes i j) (t.columnWidths j)).map
                (fun spaces => written ++ spaces)))
            (put [','] (put (render (matrix.elem i j)) out)))
        matrix.size2 0 (put ['('] out))
    (fun afterLoop =>
        if matrix.size2 ≥ 1 then
          putSpaces (t.columnWidths (matrix.size2 - 1)
              - t.elementOutputSizes i (matrix.size2 - 1))
            (put (render (matrix.elem i (matrix.size2 - 1))) afterLoop)
        else afterLoop) ?_ ?_
  · refine appends_comp (put ['(']) (fun out => forLoop _ _ matrix.size2 0 out)
      (appends_put _) ?_
    apply appends_forLoop
    intro j
    exact appends_comp _ _
      (appends_comp (put (render (matrix.elem i j))) (put [',']) (appends_put _)
        (appends_put _))
      (appends_option _)
  · exact appends_ite _ _ _
      (appends_comp (put _) (putSpaces _) (appends_put _) (appends_putSpaces _)) appends_id

theorem appends_equalWidthRow {V : Type} (o : MatrixNiceOutputer) (render : V → Text)
    (matrix : DenseMatrix V) (t : Measures) (i : Nat) :
    Appends (fun out => o.equalWidthRow render matrix t i out) := by
  unfold MatrixNiceOutputer.equalWidthRow
  refine appends_comp _ (put [')']) ?_ (appends_put _)
  refine appends_comp
    (fun out => forLoop (fun j => decide (j + 1 < matrix.size2))
        (fun j out =>
          (fun afterComma =>
            afterComma.bind (fun written =>
              (o.spacesNeeded (t.elementOutputSizes i j) (t.columnWidths 0)).map
                (fun spaces => written ++ spaces)))
            (put [','] (put (render (matrix.elem i j)) out)))
        matrix.size2 0 (put ['('] out))
    (fun afterLoop =>
        if matrix.size2 ≥ 1 then
          putSpaces (t.columnWidths 0 - t.elementOutputSizes i (matrix.size2 - 1))
            (put (render (matrix.elem i (matrix.size2 - 1))) afterLoop)
        else afterLoop) ?_ ?_
  · refine appends_comp (put ['(']) (fun out => forLoop _ _ matrix.size2 0 out)
      (appends_put _) ?_
    apply appends_forLoop
    intro j
    exact appends_comp _ _
      (appends_comp (put (render (matrix.elem i j))) (put [',']) (appends_put _)
        (appends_put _))
      (appends_option _)
  · exact appends_ite _ _ _
      (appends_comp (put _) (putSpaces _) (appends_put _) (appends_putSpaces _)) appends_id

/-- The loop over the rows of a matrix with at least one row: whatever it
returns is the text written before, some text, and the closing `)`. -/
theorem rows_appends (m : Nat) (row : Nat → Option Text → Option Text)
    (hrow : ∀ i, Appends (row i)) (hm : 1 ≤ m) (x y : Text)
    (h : forLoop (fun i => decide (i < m))
        (fun i out => MatrixNiceOutputer.rowFrame m i (row i) out) m 0 (some x) = some y) :
    ∃ inner, y = x ++ (inner ++ [')']) := by
  obtain ⟨k, rfl⟩ : ∃ k, m = k + 1 := ⟨m - 1, by omega⟩
  rw [forLoop_eq_foldl _ _ (k + 1) 0 (k + 1) _ (fun j _ hj => by simp; omega) (by simp)
    (Nat.le_refl _)] at h
  rw [List.range'_concat, List.foldl_append] at h
  simp only [List.foldl_cons, List.foldl_nil, Nat.one_mul, Nat.zero_add] at h
  unfold MatrixNiceOutputer.rowFrame at h
  simp only [if_true] at h
  have hframe : ∀ i, Appends (fun out => MatrixNiceOutputer.rowFrame (k + 1) i (row i) out) := by
    intro i
    unfold MatrixNiceOutputer.rowFrame
    exact appends_comp _ _
      (appends_comp (fun out => if i = 0 then put ['('] out else put [' '] out) (row i)
        (appends_ite _ _ _ (appends_put _) (appends_put _)) (hrow i))
      (appends_ite _ _ _ (appends_put _) (appends_put _))
  have hbefore := appends_comp _ _
    (appends_comp _ (fun out => if k = 0 then put ['('] out else put [' '] out)
      (appends_foldl (fun i out => MatrixNiceOutputer.rowFrame (k + 1) i (row i) out) hframe
        (List.range' 0 k))
      (appends_ite _ _ _ (appends_put _) (appends_put _)))
    (hrow k)
  unfold MatrixNiceOutputer.rowFrame at hbefore
  generalize hz : row k (if k = 0 then put ['(']
      (List.foldl (fun (s : Option Text) j =>
        (fun afterRow => if j + 1 = k + 1 then put [')'] afterRow else put [',', '\n'] afterRow)
          (row j (if j = 0 then put ['('] s else put [' '] s))) (some x) (List.range' 0 k))
    else put [' ']
      (List.foldl (fun (s : Option Text) j =>
        (fun afterRow => if j + 1 = k + 1 then put [')'] afterRow else put [',', '\n'] afterRow)
          (row j (if j = 0 then put ['('] s else put [' '] s))) (some x) (List.range' 0 k)))
    = z at h
  cases z with
  | none => exact Option.noConfusion h
  | some zt =>
    obtain ⟨b, eb⟩ := hbefore.2 x zt hz
    refine ⟨b, ?_⟩
    have e : zt ++ [')'] = y := Option.some.inj h
    rw [← e, eb, List.append_assoc]

/-- The body of the matrix formatter, whatever the mode: what it returns is
the text written before, some text, and a closing `)`. -/
theorem matrixBody_appends {V : Type} (o : MatrixNiceOutputer) (render : V → Text)
    (matrix : DenseMatrix V) (x y : Text)
    (h : (if matrix.size1 = 0 then put ['(', ')'] (some x)
        else if o.placing_ = .SIMPLE then o.doSimply render (some x) matrix
        else if o.placing_ = .BY_COLUMNS then o.doJustifiedColumns render (some x) matrix
        else if o.placing_ = .BY_EQUALWIDTH_COLUMNS then
          o.doEqualWidthColumns render (some x) matrix
        else some x) = some y) :
    ∃ inner, y = x ++ (inner ++ [')']) := by
  by_cases hm : matrix.size1 = 0
  · rw [if_pos hm] at h
    exact ⟨['('], (Option.some.inj h).symm⟩
  · rw [if_neg hm] at h
    cases hp : o.placing_ with
    | SIMPLE =>
      rw [hp] at h
      simp only [if_true] at h
      unfold MatrixNiceOutputer.doSimply at h
      exact rows_appends matrix.size1
        (fun i out => o.toBaseNiceOutputer.outputRowSimply render out (matrix.row i))
        (fun i => appends_outputRowSimply _ render (matrix.row i)) (by omega) x y h
    | BY_COLUMNS =>
      rw [hp] at h
      simp only [if_true, reduceCtorEq, if_false] at h
      unfold MatrixNiceOutputer.doJustifiedColumns at h
      exact rows_appends matrix.size1
        (o.justifiedRow render matrix (MatrixNiceOutputer.measureColumns render matrix))
        (fun i => appends_justifiedRow o render matrix _ i) (by omega) x y h
    | BY_EQUALWIDTH_COLUMNS =>
      rw [hp] at h
      simp only [if_true, reduceCtorEq, if_false] at h
      unfold MatrixNiceOutputer.doEqualWidthColumns at h
      exact rows_appends matrix.size1
        (o.equalWidthRow render matrix (MatrixNiceOutputer.measureWidth render matrix))
        (fun i => appends_equalWidthRow o render matrix _ i) (by omega) x y h

/-- The matrix formatter returns for every mode when `minSpaces` is not
negative. -/
theorem matrixBody_returns {V : Type} (o : MatrixNiceOutputer) (render : V → Text)
    (matrix : DenseMatrix V) (x : Text) (hmin : 0 ≤ o.minSpaces_) :
    ∃ y, (if matrix.size1 = 0 then put ['(', ')'] (some x)
        else if o.placing_ = .SIMPLE then o.doSimply render (some x) matrix
        else if o.placing_ = .BY_COLUMNS then o.doJustifiedColumns render (some x) matrix
        else if o.placing_ = .BY_EQUALWIDTH_COLUMNS then
          o.doEqualWidthColumns render (some x) matrix
        else some x) = some y := by
  by_cases hm : matrix.size1 = 0
  · rw [if_pos hm]
    exact ⟨_, rfl⟩
  · rw [if_neg hm]
    cases hp : o.placing_ with
    | SIMPLE =>
      simp only [if_true]
      exact ⟨_, doSimply_eq o render matrix _ x
        (fun i _ w => outputRowSimply_eq o.toBaseNiceOutputer render w (matrix.row i) hmin)⟩
    | BY_COLUMNS =>
      simp only [if_true, reduceCtorEq, if_false]
      exact ⟨_, doJustifiedColumns_eq o render matrix x hmin⟩
    | BY_EQUALWIDTH_COLUMNS =>
      simp only [if_true, reduceCtorEq, if_false]
      exact ⟨_, doEqualWidthColumns_eq o render matrix x hmin⟩

/-! ## A fill reads its distributions only along the engine states it passes through -/

theorem fillAt_agree {σ C P V : Type} (assign : C → P → V → C) (die other : σ → V × σ)
    (f : P → V → V) (R : σ → Prop) (hstep : ∀ x, R x → R (die x).2)
    (hagree : ∀ x, R x → die x = other x) :
    ∀ (ps : List P) (s : Run σ C P V), R s.engine →
      Run.fillAt assign die f ps s = Run.fillAt assign other f ps s := by
  intro ps
  induction ps with
  | nil => intro s _; rfl
  | cons p t ih =>
    intro s hs
    have e : Run.assignDie assign die (f p) p s = Run.assignDie assign other (f p) p s := by
      unfold Run.assignDie
      rw [hagree _ hs]
    have hnext : R (Run.assignDie assign die (f p) p s).engine := hstep _ hs
    show Run.fillAt assign die f t (Run.assignDie assign die (f p) p s)
      = Run.fillAt assign other f t (Run.assignDie assign other (f p) p s)
    rw [← e]
    exact ih _ hnext

theorem vectorLoop_agree {σ V : Type} (itemDie otherItem : σ → V × σ)
    (indexDie otherIndex : σ → Nat × σ) (R : σ → Prop)
    (hitem : ∀ x, R x → R (itemDie x).2) (hindex : ∀ x, R x → R (indexDie x).2)
    (hsame : ∀ x, R x → itemDie x = otherItem x)
    (hsameIndex : ∀ x, R x → indexDie x = otherIndex x) :
    ∀ (fuel remained : Nat) (s : Run σ (SparseVector V) Nat V), R s.engine →
      SparseRandomizer_.vectorLoop itemDie indexDie fuel remained s
        = SparseRandomizer_.vectorLoop otherItem otherIndex fuel remained s := by
  intro fuel
  induction fuel with
  | zero => intro remained s _; rfl
  | succ f ih =>
    intro remained s hs
    unfold SparseRandomizer_.vectorLoop
    rw [← hsameIndex _ hs, ← hsame _ (hindex _ hs)]
    by_cases hr : remained > 0
    · rw [if_pos hr, if_pos hr]
      by_cases hfree : (s.container.find_element (indexDie s.engine).1).isNone = true
      · rw [if_pos hfree, if_pos hfree]
        exact ih _ _ (hitem _ (hindex _ hs))
      · rw [if_neg hfree, if_neg hfree]
        exact ih _ _ (hindex _ hs)
    · rw [if_neg hr, if_neg hr]

theorem matrixLoop_agree {σ V : Type} (itemDie otherItem : σ → V × σ)
    (index1Die index2Die otherIndex1 otherIndex2 : σ → Nat × σ) (R : σ → Prop)
    (hitem : ∀ x, R x → R (itemDie x).2) (hindex1 : ∀ x, R x → R (index1Die x).2)
    (hindex2 : ∀ x, R x → R (index2Die x).2)
    (hsame : ∀ x, R x → itemDie x = otherItem x)
    (hsame1 : ∀ x, R x → index1Die x = otherIndex1 x)
    (hsame2 : ∀ x, R x → index2Die x = otherIndex2 x) :
    ∀ (fuel remained : Nat) (s : Run σ (SparseMatrix V) (Nat × Nat) V), R s.engine →
      SparseRandomizer_.matrixLoop itemDie index1Die index2Die fuel remained s
        = SparseRandomizer_.matrixLoop otherItem otherIndex1 otherIndex2 fuel remained s := by
  intro fuel
  induction fuel with
  | zero => intro remained s _; rfl
  | succ f ih =>
    intro remained s hs
    unfold SparseRandomizer_.matrixLoop
    rw [← hsame1 _ hs, ← hsame2 _ (hindex1 _ hs), ← hsame _ (hindex2 _ (hindex1 _ hs))]
    by_cases hr : remained > 0
    · rw [if_pos hr, if_pos hr]
      by_cases hfree : (s.container.find_element (index1Die s.engine).1
          (index2Die (index1Die s.engine).2).1).isNone = true
      · rw [if_pos hfree, if_pos hfree]
        exact ih _ _ (hitem _ (hindex2 _ (hindex1 _ hs)))
      · rw [if_neg hfree, if_neg hfree]
        exact ih _ _ (hindex2 _ (hindex1 _ hs))
    · rw [if_neg hr, if_neg hr]

/-- A strategy run with two item distributions and two index distribution
creators that agree on a set of engine states which holds the start state
and is closed under the draws ends the same way. -/
theorem strategy_run_agree {σ V : Type} (w : Nat) (conj real : V → V) (fuel : Nat)
    (create otherCreate : Option (Nat → σ → Nat × σ)) (s : Strategy)
    (container : Container V) (engine : σ) (itemDist otherDist : σ → V × σ)
    (R : σ → Prop) (hstart : R engine)
    (hitem : ∀ x, R x → R (itemDist x).2)
    (hindex : ∀ c, create = some c → ∀ n x, R x → R (c n x).2)
    (hsame : ∀ x, R x → itemDist x = otherDist x)
    (hboth : create.isSome = otherCreate.isSome)
    (hsameIndex : ∀ c c2, create = some c → otherCreate = some c2 →
      ∀ n x, R x → c n x = c2 n x) :
    s.run ⟨w, create, conj, real, fuel⟩ container engine itemDist
      = s.run ⟨w, otherCreate, conj, real, fuel⟩ container engine otherDist := by
  have hfill : ∀ (C P : Type) (assign : C → P → V → C) (f : P → V → V) (ps : List P) (c : C),
      Run.fillAt assign itemDist f ps (Run.start c engine)
        = Run.fillAt assign otherDist f ps (Run.start c engine) :=
    fun C P assign f ps c => fillAt_agree assign itemDist otherDist f R hitem hsame ps _ hstart
  cases s <;> cases container <;> simp only [Strategy.run] <;>
    first
    | rfl
    | skip
  case fullVector.denseVector c =>
    rw [randomizeVector_eq, randomizeVector_eq, hfill]
  case fullMatrix.denseMatrix c =>
    rw [randomizeMatrix_eq, randomizeMatrix_eq, hfill]
  case lower.denseMatrix c =>
    rw [randomizeLower_eq, randomizeLower_eq, hfill]
  case unitLower.denseMatrix c =>
    rw [randomizeUnitLower_eq, randomizeUnitLower_eq, hfill]
  case upper.denseMatrix c =>
    rw [randomizeUpper_eq, randomizeUpper_eq, hfill]
  case unitUpper.denseMatrix c =>
    rw [randomizeUnitUpper_eq, randomizeUnitUpper_eq, hfill]
  case symmetric.mirrored c =>
    rw [symmetric_randomize_eq, symmetric_randomize_eq, hfill]
  case hermitian.mirrored c =>
    rw [hermitian_randomize_eq, hermitian_randomize_eq, hfill]
  case banded.banded p q c =>
    rw [banded_randomize_eq, banded_randomize_eq, hfill]
  case scalarVector.scalarVector c =>
    unfold Dispatch_scalar_vector.randomize
    rw [hsame _ hstart]
  case scalarMatrix.scalarMatrix c =>
    unfold Dispatch_scalar_matrix.randomize
    rw [hsame _ hstart]
  case unitVector.unitVector c =>
    cases hc : create with
    | none =>
      cases ho : otherCreate with
      | none => rfl
      | some c2 => rw [hc, ho] at hboth; exact Bool.noConfusion hboth
    | some c1 =>
      cases ho : otherCreate with
      | none => rw [hc, ho] at hboth; exact Bool.noConfusion hboth
      | some c2 =>
        simp only
        unfold Dispatch_unit_vector.randomize
        rw [hsameIndex c1 c2 hc ho _ _ hstart]
  case sparseVector.sparseVector c =>
    cases hc : create with
    | none =>
      cases ho : otherCreate with
      | none => rfl
      | some c2 => rw [hc, ho] at hboth; exact Bool.noConfusion hboth
    | some c1 =>
      cases ho : otherCreate with
      | none => rw [hc, ho] at hboth; exact Bool.noConfusion hboth
      | some c2 =>
        simp only
        have e : SparseRandomizer_.randomizeVector c1 fuel c engine itemDist
            = SparseRandomizer_.randomizeVector c2 fuel c engine otherDist := by
          unfold SparseRandomizer_.randomizeVector
          exact vectorLoop_agree itemDist otherDist _ _ R hitem
            (fun x hx => hindex c1 hc _ x hx) hsame
            (fun x hx => hsameIndex c1 c2 hc ho _ x hx) _ _ _ hstart
        rw [e]
  case sparseMatrix.sparseMatrix c =>
    cases hc : create with
    | none =>
      cases ho : otherCreate with
      | none => rfl
      | some c2 => rw [hc, ho] at hboth; exact Bool.noConfusion hboth
    | some c1 =>
      cases ho : otherCreate with
      | none => rw [hc, ho] at hboth; exact Bool.noConfusion hboth
      | some c2 =>
        simp only
        have e : SparseRandomizer_.randomizeMatrix c1 fuel c engine itemDist
            = SparseRandomizer_.randomizeMatrix c2 fuel c engine otherDist := by
          unfold SparseRandomizer_.randomizeMatrix
          exact matrixLoop_agree itemDist otherDist _ _ _ _ R hitem
            (fun x hx => hindex c1 hc _ x hx) (fun x hx => hindex c1 hc _ x hx) hsame
            (fun x hx => hsameIndex c1 c2 hc ho _ x hx)
            (fun x hx => hsameIndex c1 c2 hc ho _ x hx) _ _ _ hstart
        rw [e]

/-! ## The claims -/

/-- C1: the dense fill of a vector of size `n` assigns every index below `n`
exactly once and no other, and consumes exactly `n` item draws; the dense
fill of an `m x n` matrix assigns every position `(i, j)` with `i < m` and
`j < n` exactly once and no other, and consumes exactly `m * n` item draws,
which is 16 for a `4 x 4` matrix. -/
theorem dense_fill_assigns_each_position_once {σ C M V : Type}
    (accV : VectorAccess C V) (accM : MatrixAccess M V)
    (vect : C) (matr : M) (engine : σ) (itemDist : σ → V × σ) :
    (∀ i, ((FullRandomizer_.randomizeVector accV vect engine itemDist).writes.map
              Prod.fst).count i = if i < accV.size vect then 1 else 0) ∧
    (FullRandomizer_.randomizeVector accV vect engine itemDist).itemDraws = accV.size vect ∧
    (FullRandomizer_.randomizeVector accV vect engine itemDist).engine
      = advance itemDist (accV.size vect) engine ∧
    (∀ i j, ((FullRandomizer_.randomizeMatrix accM matr engine itemDist).writes.map
              Prod.fst).count (i, j)
        = if i < accM.size1 matr ∧ j < accM.size2 matr then 1 else 0) ∧
    (FullRandomizer_.randomizeMatrix accM matr engine itemDist).itemDraws
      = accM.size1 matr * accM.size2 matr ∧
    (FullRandomizer_.randomizeMatrix accM matr engine itemDist).engine
      = advance itemDist (accM.size1 matr * accM.size2 matr) engine ∧
    (accM.size1 matr = 4 → accM.size2 matr = 4 →
      (FullRandomizer_.randomizeMatrix accM matr engine itemDist).itemDraws = 16) := by
  have hm : (FullRandomizer_.randomizeMatrix accM matr engine itemDist).itemDraws
      = accM.size1 matr * accM.size2 matr := by
    rw [randomizeMatrix_eq, fillAt_itemDraws, length_rowsCols_const]
    simp [Run.start]
  refine ⟨?_, ?_, ?_, ?_, hm, ?_, ?_⟩
  · intro i
    rw [randomizeVector_eq, fillAt_positions]
    simp only [Run.start, List.map_nil, List.nil_append]
    rw [count_of_nodup _ _ (List.nodup_range' 0 _)]
    simp [List.mem_range'_1]
  · rw [randomizeVector_eq, fillAt_itemDraws]
    simp [Run.start]
  · rw [randomizeVector_eq, fillAt_engine]
    simp [Run.start]
  · intro i j
    rw [randomizeMatrix_eq, fillAt_positions]
    simp only [Run.start, List.map_nil, List.nil_append]
    rw [count_rowsCols _ _ (fun _ => List.nodup_range' 0 _)]
    simp [List.mem_range'_1]
  · rw [randomizeMatrix_eq, fillAt_engine, length_rowsCols_const]
    simp [Run.start]
  · intro h1 h2
    rw [hm, h1, h2]

theorem dense_fill_assigns_each_position_once_witness :
    (FullRandomizer_.randomizeMatrix (DenseMatrix.access Nat) ⟨4, 4, fun _ _ => 0⟩ 0
        counterDie).itemDraws = 16 :=
  (dense_fill_assigns_each_position_once (DenseVector.access Nat) (DenseMatrix.access Nat)
    ⟨0, fun _ => 0⟩ ⟨4, 4, fun _ _ => 0⟩ 0 counterDie).2.2.2.2.2.2 rfl rfl

/-- C2: for every sparse vector whose declared nonzero capacity `k` is at
most its size, and every sparse matrix whose capacity `k` is at most
`size1 * size2`, filled with index dice that draw in range: whenever the
Sparse fill terminates, the stored positions are pairwise distinct, there
are exactly `k` of them, all of them lie inside the container, and a
position holds a stored entry if and only if it is one of them (every other
position is unstored). -/
theorem sparse_fill_stores_capacity_many_distinct_positions {σ V : Type}
    (create : Nat → σ → Nat × σ) (vect : SparseVector V) (matr : SparseMatrix V)
    (engine : σ) (itemDist : σ → V × σ)
    (hrange : ∀ n e, 0 < n → (create n e).1 < n)
    (hkv : vect.nnz_capacity ≤ vect.size)
    (hkm : matr.nnz_capacity ≤ matr.size1 * matr.size2) :
    (∀ fuel r, SparseRandomizer_.randomizeVector create fuel vect engine itemDist = some r →
      (r.container.stored.map Prod.fst).Nodup ∧
      (r.container.stored.map Prod.fst).length = vect.nnz_capacity ∧
      (∀ p ∈ r.container.stored.map Prod.fst, p < vect.size) ∧
      (∀ p, (r.container.find_element p).isSome = true
          ↔ p ∈ r.container.stored.map Prod.fst)) ∧
    (∀ fuel r, SparseRandomizer_.randomizeMatrix create fuel matr engine itemDist = some r →
      (r.container.stored.map Prod.fst).Nodup ∧
      (r.container.stored.map Prod.fst).length = matr.nnz_capacity ∧
      (∀ p ∈ r.container.stored.map Prod.fst, p.1 < matr.size1 ∧ p.2 < matr.size2) ∧
      (∀ i j, (r.container.find_element i j).isSome = true
          ↔ (i, j) ∈ r.container.stored.map Prod.fst)) := by
  constructor
  · intro fuel r h
    have hfind : ∀ p, (r.container.find_element p).isSome = true
        ↔ p ∈ r.container.stored.map Prod.fst :=
      fun p => find_isSome_iff r.container.stored p
    unfold SparseRandomizer_.randomizeVector at h
    by_cases hk : vect.nnz_capacity = 0
    · have h0 : vect.clear.nnz_capacity = 0 := hk
      rw [h0, vectorLoop_done] at h
      simp only [Option.some.injEq] at h
      subst h
      refine ⟨?_, ?_, ?_, hfind⟩
      · simp [Run.start, SparseVector.clear]
      · simp [Run.start, SparseVector.clear, hk]
      · simp [Run.start, SparseVector.clear]
    · have hpos : 0 < vect.size := by omega
      have inv := vectorLoop_invariant itemDist (create vect.clear.size)
        (fun p => p < vect.size) (fun e => hrange vect.size e hpos) _ _ _ _ h
        (by simp [Run.start, SparseVector.clear])
        (by simp [Run.start, SparseVector.clear])
      obtain ⟨h1, h2, h3, _, _⟩ := inv
      refine ⟨h1, ?_, h2, hfind⟩
      simpa [Run.start, SparseVector.clear] using h3
  · intro fuel r h
    have hfind : ∀ i j, (r.container.find_element i j).isSome = true
        ↔ (i, j) ∈ r.container.stored.map Prod.fst :=
      fun i j => find_isSome_iff r.container.stored (i, j)
    unfold SparseRandomizer_.randomizeMatrix at h
    by_cases hk : matr.nnz_capacity = 0
    · have h0 : matr.clear.nnz_capacity = 0 := hk
      rw [h0, matrixLoop_done] at h
      simp only [Option.some.injEq] at h
      subst h
      refine ⟨?_, ?_, ?_, hfind⟩
      · simp [Run.start, SparseMatrix.clear]
      · simp [Run.start, SparseMatrix.clear, hk]
      · simp [Run.start, SparseMatrix.clear]
    · have hpos : 0 < matr.size1 * matr.size2 := by omega
      have hpos1 : 0 < matr.size1 := Nat.pos_of_mul_pos_right hpos
      have hpos2 : 0 < matr.size2 := Nat.pos_of_mul_pos_left hpos
      have inv := matrixLoop_invariant itemDist (create matr.clear.size1)
        (create matr.clear.size2)
        (fun p => p.1 < matr.size1 ∧ p.2 < matr.size2)
        (fun e => ⟨hrange matr.size1 e hpos1, hrange matr.size2 _ hpos2⟩) _ _ _ _ h
        (by simp [Run.start, SparseMatrix.clear])
        (by simp [Run.start, SparseMatrix.clear])
      obtain ⟨h1, h2, h3, _, _, _⟩ := inv
      refine ⟨h1, ?_, h2, hfind⟩
      simpa [Run.start, SparseMatrix.clear] using h3

theorem sparse_fill_stores_capacity_many_distinct_positions_witness :
    SparseRandomizer_.randomizeVector modCreate 3 ⟨2, 2, [(0, 7)]⟩ 0 counterDie
      = some ⟨⟨2, 2, [(0, 1), (1, 4)]⟩, 5, 2, 3, [(0, 1), (1, 4)]⟩ ∧
    (([(0, 1), (1, 4)] : List (Nat × Nat)).map Prod.fst).length = 2 :=
  ⟨rfl,
   ((sparse_fill_stores_capacity_many_distinct_positions modCreate
      (⟨2, 2, [(0, 7)]⟩ : SparseVector Nat) (⟨2, 2, 2, []⟩ : SparseMatrix Nat) 0 counterDie
      (fun _ e h => Nat.mod_lt e h) (by decide) (by decide)).1 3
      ⟨⟨2, 2, [(0, 1), (1, 4)]⟩, 5, 2, 3, [(0, 1), (1, 4)]⟩ rfl).2.1⟩

/-- C3: on every `m x n` matrix the Lower fill assigns exactly the positions
`(i, j)` with `i < m`, `j < n` and `j <= i`, and the UnitLower fill exactly
those with `i < m`, `j < n` and `j < i`, each of them once and no other
position; UnitLower never assigns a diagonal position. -/
theorem lower_fills_write_exactly_their_triangle {σ M V : Type} (acc : MatrixAccess M V)
    (matr : M) (engine : σ) (itemDist : σ → V × σ) :
    (∀ i j, ((TriangleRandomizer_.randomizeLower acc matr engine itemDist).writes.map
              Prod.fst).count (i, j)
        = if i < acc.size1 matr ∧ j < acc.size2 matr ∧ j ≤ i then 1 else 0) ∧
    (∀ i j, ((TriangleRandomizer_.randomizeUnitLower acc matr engine itemDist).writes.map
              Prod.fst).count (i, j)
        = if i < acc.size1 matr ∧ j < acc.size2 matr ∧ j < i then 1 else 0) ∧
    (∀ i, (i, i) ∉ (TriangleRandomizer_.randomizeUnitLower acc matr engine itemDist).writes.map
              Prod.fst) := by
  have hU : ∀ i j, ((TriangleRandomizer_.randomizeUnitLower acc matr engine itemDist).writes.map
              Prod.fst).count (i, j)
        = if i < acc.size1 matr ∧ j < acc.size2 matr ∧ j < i then 1 else 0 := by
    intro i j
    rw [randomizeUnitLower_eq, writes_count_fillAt _ _ _ _ _ (fun _ => List.nodup_range' 0 _)]
    simp only [List.mem_range'_1]
    congr 1
    apply propext
    constructor <;> intro h <;> omega
  refine ⟨?_, hU, ?_⟩
  · intro i j
    rw [randomizeLower_eq, writes_count_fillAt _ _ _ _ _ (fun _ => List.nodup_range' 0 _)]
    simp only [List.mem_range'_1]
    congr 1
    apply propext
    constructor <;> intro h <;> omega
  · intro i
    rw [← List.count_eq_zero, hU]
    simp

/-- C4: on every `m x n` matrix the Upper fill assigns exactly the positions
`(i, j)` with `i < m`, `j < n` and `j >= i`, and the UnitUpper fill exactly
those with `i < m`, `j < n` and `j > i`, each of them once and no other
position; UnitUpper never assigns a diagonal position. -/
theorem upper_fills_write_exactly_their_triangle {σ M V : Type} (acc : MatrixAccess M V)
    (matr : M) (engine : σ) (itemDist : σ → V × σ) :
    (∀ i j, ((TriangleRandomizer_.randomizeUpper acc matr engine itemDist).writes.map
              Prod.fst).count (i, j)
        = if i < acc.size1 matr ∧ j < acc.size2 matr ∧ j ≥ i then 1 else 0) ∧
    (∀ i j, ((TriangleRandomizer_.randomizeUnitUpper acc matr engine itemDist).writes.map
              Prod.fst).count (i, j)
        = if i < acc.size1 matr ∧ j < acc.size2 matr ∧ j > i then 1 else 0) ∧
    (∀ i, (i, i) ∉ (TriangleRandomizer_.randomizeUnitUpper acc matr engine itemDist).writes.map
              Prod.fst) := by
  have hU : ∀ i j, ((TriangleRandomizer_.randomizeUnitUpper acc matr engine itemDist).writes.map
              Prod.fst).count (i, j)
        = if i < acc.size1 matr ∧ j < acc.size2 matr ∧ j > i then 1 else 0 := by
    intro i j
    rw [randomizeUnitUpper_eq, writes_count_fillAt _ _ _ _ _ (fun _ => List.nodup_range' _ _)]
    simp only [List.mem_range'_1]
    congr 1
    apply propext
    constructor <;> intro h <;> omega
  refine ⟨?_, hU, ?_⟩
  · intro i j
    rw [randomizeUpper_eq, writes_count_fillAt _ _ _ _ _ (fun _ => List.nodup_range' _ _)]
    simp only [List.mem_range'_1]
    congr 1
    apply propext
    constructor <;> intro h <;> omega
  · intro i
    rw [← List.count_eq_zero, hU]
    simp

/-- C5: on every symmetric container of `n` rows the Symmetric fill assigns
exactly the positions `(i, j)` with `i < n` and `j <= i`, each of them once,
and never assigns a position `(j, i)` with `j < i`. -/
theorem symmetric_fill_writes_lower_triangle_only {σ M V : Type} (acc : MatrixAccess M V)
    (matr : M) (engine : σ) (itemDist : σ → V × σ) :
    (∀ i j, ((SymmetricRandomizer_.randomize acc matr engine itemDist).writes.map
              Prod.fst).count (i, j)
        = if i < acc.size1 matr ∧ j ≤ i then 1 else 0) ∧
    (∀ i j, j < i →
      (j, i) ∉ (SymmetricRandomizer_.randomize acc matr engine itemDist).writes.map Prod.fst) := by
  have hS : ∀ i j, ((SymmetricRandomizer_.randomize acc matr engine itemDist).writes.map
              Prod.fst).count (i, j)
        = if i < acc.size1 matr ∧ j ≤ i then 1 else 0 := by
    intro i j
    rw [symmetric_randomize_eq, writes_count_fillAt _ _ _ _ _ (fun _ => List.nodup_range' 0 _)]
    simp only [List.mem_range'_1]
    congr 1
    apply propext
    constructor <;> intro h <;> omega
  refine ⟨hS, ?_⟩
  intro i j hji
  rw [← List.count_eq_zero, hS]
  simp
  omega

theorem symmetric_fill_writes_lower_triangle_only_witness :
    (2, 0) ∈ (SymmetricRandomizer_.randomize (MirroredMatrix.access id)
        (MirroredMatrix.mk 3 (fun _ _ => 0)) 0 counterDie).writes.map Prod.fst ∧
    (0, 2) ∉ (SymmetricRandomizer_.randomize (MirroredMatrix.access id)
        (MirroredMatrix.mk 3 (fun _ _ => 0)) 0 counterDie).writes.map Prod.fst :=
  ⟨by decide,
   (symmetric_fill_writes_lower_triangle_only (MirroredMatrix.access id)
      (MirroredMatrix.mk 3 (fun _ _ => 0)) 0 counterDie).2 2 0 (by decide)⟩

/-- C6: after a Symmetric fill of a symmetric `n x n` container, every two
mirrored entries are equal, `entry(i, j) = entry(j, i)` for all `i, j < n`
(in particular `matrix(0, 2) = matrix(2, 0)` for a `3 x 3` matrix), and each
entry is one of the values drawn by the fill; after a Hermitian fill of a
hermitian `n x n` container over an element type whose conjugation is an
involution fixing real parts, `entry(i, j) = conj(entry(j, i))` for all
`i, j < n`, the diagonal included. -/
theorem mirrored_fills_yield_conjugate_symmetric_entries {σ V : Type} (conj real : V → V)
    (hcc : ∀ v, conj (conj v) = v) (hcr : ∀ v, conj (real v) = real v)
    (sym herm : MirroredMatrix V) (engine : σ) (itemDist : σ → V × σ) :
    (∀ i j, i < sym.size → j < sym.size →
      MirroredMatrix.entry id
          (SymmetricRandomizer_.randomize (MirroredMatrix.access id) sym engine
            itemDist).container i j
        = MirroredMatrix.entry id
          (SymmetricRandomizer_.randomize (MirroredMatrix.access id) sym engine
            itemDist).container j i ∧
      MirroredMatrix.entry id
          (SymmetricRandomizer_.randomize (MirroredMatrix.access id) sym engine
            itemDist).container i j
        ∈ draws itemDist
          (SymmetricRandomizer_.randomize (MirroredMatrix.access id) sym engine
            itemDist).itemDraws engine) ∧
    (∀ i j, i < herm.size → j < herm.size →
      MirroredMatrix.entry conj
          (HermitianRandomizer_.randomize (MirroredMatrix.access conj) real herm engine
            itemDist).container i j
        = conj (MirroredMatrix.entry conj
          (HermitianRandomizer_.randomize (MirroredMatrix.access conj) real herm engine
            itemDist).container j i)) ∧
    (sym.size = 3 →
      MirroredMatrix.entry id
          (SymmetricRandomizer_.randomize (MirroredMatrix.access id) sym engine
            itemDist).container 0 2
        = MirroredMatrix.entry id
          (SymmetricRandomizer_.randomize (MirroredMatrix.access id) sym engine
            itemDist).container 2 0) := by
  have hsym : ∀ (c : MirroredMatrix V) (i j : Nat),
      MirroredMatrix.entry id c i j = MirroredMatrix.entry id c j i := by
    intro c i j
    unfold MirroredMatrix.entry
    by_cases h1 : j ≤ i <;> by_cases h2 : i ≤ j
    · have : i = j := by omega
      subst this; rfl
    · simp [h1, h2]
    · simp [h1, h2]
    · omega
  refine ⟨?_, ?_, fun _ => hsym _ 0 2⟩
  · intro i j hi hj
    refine ⟨hsym _ i j, ?_⟩
    rw [symmetric_randomize_eq]
    unfold MirroredMatrix.entry
    by_cases h : j ≤ i
    · obtain ⟨v, hv, hs⟩ := mirrored_sweep_stored id itemDist (fun _ => id) sym engine
        sym.size i j hi h
      rw [if_pos h]
      have hs2 : (Run.fillAt (MirroredMatrix.access id).assign itemDist (fun _ => id)
          (rowsCols ((MirroredMatrix.access id).size1 sym) (fun i => List.range' 0 (i + 1)))
          (Run.start sym engine)).container.stored i j = v := hs
      rw [hs2]
      exact hv
    · obtain ⟨v, hv, hs⟩ := mirrored_sweep_stored id itemDist (fun _ => id) sym engine
        sym.size j i hj (by omega)
      rw [if_neg h]
      have hs2 : (Run.fillAt (MirroredMatrix.access id).assign itemDist (fun _ => id)
          (rowsCols ((MirroredMatrix.access id).size1 sym) (fun i => List.range' 0 (i + 1)))
          (Run.start sym engine)).container.stored j i = v := hs
      rw [hs2]
      exact hv
  · intro i j hi hj
    rw [hermitian_randomize_eq]
    unfold MirroredMatrix.entry
    by_cases h1 : j ≤ i <;> by_cases h2 : i ≤ j
    · have hij : i = j := by omega
      subst hij
      obtain ⟨v, hv, hs⟩ := mirrored_sweep_stored conj itemDist
        (fun p => if p.1 = p.2 then real else id) herm engine herm.size i i hi (Nat.le_refl _)
      have hs2 : (Run.fillAt (MirroredMatrix.access conj).assign itemDist
          (fun p => if p.1 = p.2 then real else id)
          (rowsCols ((MirroredMatrix.access conj).size1 herm)
            (fun i => List.range' 0 (i + 1)))
          (Run.start herm engine)).container.stored i i = real v := by
        simpa using hs
      simp only [le_refl, if_true]
      rw [hs2, hcr]
    · simp [h1, h2, hcc]
    · simp [h1, h2]
    · omega

theorem mirrored_fills_yield_conjugate_symmetric_entries_witness :
    MirroredMatrix.entry GaussInt.conj
        (HermitianRandomizer_.randomize (MirroredMatrix.access GaussInt.conj) GaussInt.real
          ⟨3, fun _ _ => ⟨0, 1⟩⟩ 0 gaussDie).container 1 1
      = GaussInt.conj (MirroredMatrix.entry GaussInt.conj
        (HermitianRandomizer_.randomize (MirroredMatrix.access GaussInt.conj) GaussInt.real
          ⟨3, fun _ _ => ⟨0, 1⟩⟩ 0 gaussDie).container 1 1) :=
  (mirrored_fills_yield_conjugate_symmetric_entries GaussInt.conj GaussInt.real
    (fun v => by cases v; simp [GaussInt.conj])
    (fun v => by cases v; simp [GaussInt.conj, GaussInt.real])
    ⟨3, fun _ _ => ⟨0, 1⟩⟩ ⟨3, fun _ _ => ⟨0, 1⟩⟩ 0 gaussDie).2.1 1 1 (by decide) (by decide)

/-- C7: the Hermitian fill of a container of `n` rows assigns exactly the
positions `(i, j)` with `i < n` and `j <= i`, each once, consuming one item
draw per assignment; the value assigned is the drawn value itself at every
off-diagonal position and the real part of the drawn value at every
diagonal position; hence, on a hermitian container over an element type
whose real parts have imaginary component zero, every diagonal entry has
imaginary component zero after the fill. -/
theorem hermitian_fill_keeps_diagonal_real {σ M V I : Type} (acc : MatrixAccess M V)
    (conj real : V → V) (imag : V → I) (zero : I) (himag : ∀ v, imag (real v) = zero)
    (matr : M) (herm : MirroredMatrix V) (engine : σ) (itemDist : σ → V × σ) :
    (∀ i j, ((HermitianRandomizer_.randomize acc real matr engine itemDist).writes.map
              Prod.fst).count (i, j)
        = if i < acc.size1 matr ∧ j ≤ i then 1 else 0) ∧
    (HermitianRandomizer_.randomize acc real matr engine itemDist).itemDraws
      = (HermitianRandomizer_.randomize acc real matr engine itemDist).writes.length ∧
    (HermitianRandomizer_.randomize acc real matr engine itemDist).writes.map Prod.snd
      = List.zipWith (fun p v => if p.1 = p.2 then real v else v)
          ((HermitianRandomizer_.randomize acc real matr engine itemDist).writes.map Prod.fst)
          (draws itemDist
            (HermitianRandomizer_.randomize acc real matr engine itemDist).itemDraws engine) ∧
    (∀ i, i < herm.size →
      imag (MirroredMatrix.entry conj
        (HermitianRandomizer_.randomize (MirroredMatrix.access conj) real herm engine
          itemDist).container i i) = zero) := by
  refine ⟨?_, ?_, ?_, ?_⟩
  · intro i j
    rw [hermitian_randomize_eq, writes_count_fillAt _ _ _ _ _ (fun _ => List.nodup_range' 0 _)]
    simp only [List.mem_range'_1]
    congr 1
    apply propext
    constructor <;> intro h <;> omega
  · rw [hermitian_randomize_eq, fillAt_itemDraws]
    have h := congrArg List.length (fillAt_positions acc.assign itemDist
      (fun p => if p.1 = p.2 then real else id)
      (rowsCols (acc.size1 matr) (fun i => List.range' 0 (i + 1))) (Run.start matr engine))
    simp only [List.length_map, List.length_append, Run.start, List.length_nil,
      Nat.zero_add] at h
    simp only [Run.start, Nat.zero_add]
    exact h.symm
  · rw [hermitian_randomize_eq, fillAt_start_values]
    congr 1
    funext p v
    by_cases h : p.1 = p.2 <;> simp [h]
  · intro i hi
    rw [hermitian_randomize_eq]
    obtain ⟨v, _, hs⟩ := mirrored_sweep_stored conj itemDist
      (fun p => if p.1 = p.2 then real else id) herm engine herm.size i i hi (Nat.le_refl _)
    have hs2 : (Run.fillAt (MirroredMatrix.access conj).assign itemDist
        (fun p => if p.1 = p.2 then real else id)
        (rowsCols ((MirroredMatrix.access conj).size1 herm)
          (fun i => List.range' 0 (i + 1)))
        (Run.start herm engine)).container.stored i i = real v := by
      simpa using hs
    unfold MirroredMatrix.entry
    simp only [le_refl, if_true]
    rw [hs2, himag]

theorem hermitian_fill_keeps_diagonal_real_witness :
    GaussInt.im (MirroredMatrix.entry GaussInt.conj
      (HermitianRandomizer_.randomize (MirroredMatrix.access GaussInt.conj) GaussInt.real
        ⟨3, fun _ _ => ⟨0, 1⟩⟩ 0 gaussDie).container 2 2) = 0 :=
  (hermitian_fill_keeps_diagonal_real (MirroredMatrix.access GaussInt.conj)
    GaussInt.conj GaussInt.real GaussInt.im 0 (fun _ => rfl)
    ⟨3, fun _ _ => ⟨0, 1⟩⟩ ⟨3, fun _ _ => ⟨0, 1⟩⟩ 0 gaussDie).2.2.2 2 (by decide)

/-- C9: filling a constant-zero vector, a constant-zero matrix or an identity
matrix is a no-op: the container after the fill is the container before it,
the engine state is unchanged, and no item or index draw is consumed. -/
theorem constant_containers_fill_is_noop {σ V : Type} (vect : ZeroVector) (zero : ZeroMatrix)
    (ident : IdentityMatrix) (engine : σ) (itemDist : σ → V × σ) :
    ((Dispatch_zero_vector.randomize vect engine itemDist).container = vect ∧
      (Dispatch_zero_vector.randomize vect engine itemDist).engine = engine ∧
      (Dispatch_zero_vector.randomize vect engine itemDist).itemDraws = 0 ∧
      (Dispatch_zero_vector.randomize vect engine itemDist).indexDraws = 0 ∧
      (Dispatch_zero_vector.randomize vect engine itemDist).writes = []) ∧
    ((Dispatch_zero_matrix.randomize zero engine itemDist).container = zero ∧
      (Dispatch_zero_matrix.randomize zero engine itemDist).engine = engine ∧
      (Dispatch_zero_matrix.randomize zero engine itemDist).itemDraws = 0 ∧
      (Dispatch_zero_matrix.randomize zero engine itemDist).indexDraws = 0 ∧
      (Dispatch_zero_matrix.randomize zero engine itemDist).writes = []) ∧
    ((Dispatch_identity_matrix.randomize ident engine itemDist).container = ident ∧
      (Dispatch_identity_matrix.randomize ident engine itemDist).engine = engine ∧
      (Dispatch_identity_matrix.randomize ident engine itemDist).itemDraws = 0 ∧
      (Dispatch_identity_matrix.randomize ident engine itemDist).indexDraws = 0 ∧
      (Dispatch_identity_matrix.randomize ident engine itemDist).writes = []) :=
  ⟨⟨rfl, rfl, rfl, rfl, rfl⟩, ⟨rfl, rfl, rfl, rfl, rfl⟩, ⟨rfl, rfl, rfl, rfl, rfl⟩⟩

/-- C10: filling a uniform-scalar vector or matrix consumes exactly one item
draw `v` and no index draw, leaves the engine in the state after that one
draw, and replaces the container by a uniform-scalar container of the same
dimensions in which every element equals `v`. -/
theorem scalar_containers_fill_draws_one_value {σ V : Type} (vect : ScalarVector V)
    (matr : ScalarMatrix V) (engine : σ) (itemDist : σ → V × σ) :
    ((Dispatch_scalar_vector.randomize vect engine itemDist).itemDraws = 1 ∧
      (Dispatch_scalar_vector.randomize vect engine itemDist).indexDraws = 0 ∧
      (Dispatch_scalar_vector.randomize vect engine itemDist).engine = advance itemDist 1 engine ∧
      (Dispatch_scalar_vector.randomize vect engine itemDist).container.size = vect.size ∧
      (∀ i, (Dispatch_scalar_vector.randomize vect engine itemDist).container.elem i
          = (itemDist engine).1) ∧
      [(itemDist engine).1] = draws itemDist 1 engine) ∧
    ((Dispatch_scalar_matrix.randomize matr engine itemDist).itemDraws = 1 ∧
      (Dispatch_scalar_matrix.randomize matr engine itemDist).indexDraws = 0 ∧
      (Dispatch_scalar_matrix.randomize matr engine itemDist).engine = advance itemDist 1 engine ∧
      (Dispatch_scalar_matrix.randomize matr engine itemDist).container.size1 = matr.size1 ∧
      (Dispatch_scalar_matrix.randomize matr engine itemDist).container.size2 = matr.size2 ∧
      (∀ i j, (Dispatch_scalar_matrix.randomize matr engine itemDist).container.elem i j
          = (itemDist engine).1)) :=
  ⟨⟨rfl, rfl, rfl, rfl, fun _ => rfl, rfl⟩, ⟨rfl, rfl, rfl, rfl, rfl, fun _ _ => rfl⟩⟩

/-- C11: filling a single-hot vector of size `n > 0` consumes exactly one
index draw `p`, made with the distribution created for size `n`, and no item
draw, leaves the engine in the state after that draw, and replaces the
container by the single-hot vector of size `n` with hot index `p`; when
`p < n` the hot index lies inside the vector, the element at `p` reads one
and every other element reads zero. -/
theorem unit_vector_fill_draws_one_index {σ V : Type} (create : Nat → σ → Nat × σ)
    (vect : UnitVector) (engine : σ) (itemDist : σ → V × σ) (zero one : V)
    (hn : 0 < vect.size) :
    (Dispatch_unit_vector.randomize create vect engine itemDist).indexDraws = 1 ∧
    (Dispatch_unit_vector.randomize create vect engine itemDist).itemDraws = 0 ∧
    (Dispatch_unit_vector.randomize create vect engine itemDist).engine
      = (create vect.size engine).2 ∧
    (Dispatch_unit_vector.randomize create vect engine itemDist).container
      = ⟨vect.size, (create vect.size engine).1⟩ ∧
    ((create vect.size engine).1 < vect.size →
      (Dispatch_unit_vector.randomize create vect engine itemDist).container.index
        < (Dispatch_unit_vector.randomize create vect engine itemDist).container.size ∧
      UnitVector.elem zero one
        (Dispatch_unit_vector.randomize create vect engine itemDist).container
        (create vect.size engine).1 = one ∧
      (∀ i, i ≠ (create vect.size engine).1 →
        UnitVector.elem zero one
          (Dispatch_unit_vector.randomize create vect engine itemDist).container i = zero)) := by
  have h : Dispatch_unit_vector.randomize create vect engine itemDist
      = ⟨⟨vect.size, (create vect.size engine).1⟩, (create vect.size engine).2, 0, 1, []⟩ := by
    unfold Dispatch_unit_vector.randomize
    rw [if_pos hn]
  rw [h]
  refine ⟨rfl, rfl, rfl, rfl, fun hp => ⟨hp, ?_, ?_⟩⟩
  · simp [UnitVector.elem]
  · intro i hi
    simp [UnitVector.elem, hi]

theorem unit_vector_fill_draws_one_index_witness :
    (Dispatch_unit_vector.randomize modCreate ⟨3, 0⟩ 5 counterDie).container = ⟨3, 2⟩ :=
  (unit_vector_fill_draws_one_index modCreate ⟨3, 0⟩ 5 counterDie 0 1 (by decide)).2.2.2.1

/-- C12: if the declared nonzero capacity of a sparse vector exceeds its
size, or that of a sparse matrix exceeds `size1 * size2`, and the index dice
draw in range, then the Sparse fill loop does not terminate: after any
number of iterations the remaining-budget counter is still positive, and no
allotment of iterations makes the fill return. -/
theorem sparse_fill_diverges_beyond_distinct_positions {σ V : Type}
    (create : Nat → σ → Nat × σ) (vect : SparseVector V) (matr : SparseMatrix V)
    (engine : σ) (itemDist : σ → V × σ)
    (hrv : ∀ e, (create vect.size e).1 < vect.size)
    (hkv : vect.size < vect.nnz_capacity)
    (hrm : ∀ e, (create matr.size1 e).1 < matr.size1 ∧ (create matr.size2 e).1 < matr.size2)
    (hkm : matr.size1 * matr.size2 < matr.nnz_capacity) :
    (∀ n, 0 < (SparseRandomizer_.vectorIter itemDist (create vect.size) n
        (vect.nnz_capacity, Run.start vect.clear engine)).1) ∧
    (∀ fuel, SparseRandomizer_.randomizeVector create fuel vect engine itemDist = none) ∧
    (∀ n, 0 < (SparseRandomizer_.matrixIter itemDist (create matr.size1) (create matr.size2) n
        (matr.nnz_capacity, Run.start matr.clear engine)).1) ∧
    (∀ fuel, SparseRandomizer_.randomizeMatrix create fuel matr engine itemDist = none) := by
  have hv : ∀ fuel, SparseRandomizer_.randomizeVector create fuel vect engine itemDist = none := by
    intro fuel
    cases hres : SparseRandomizer_.randomizeVector create fuel vect engine itemDist with
    | none => rfl
    | some r =>
      exfalso
      unfold SparseRandomizer_.randomizeVector at hres
      have inv := vectorLoop_invariant itemDist (create vect.clear.size)
        (fun p => p < vect.size) hrv _ _ _ _ hres
        (by simp [Run.start, SparseVector.clear])
        (by simp [Run.start, SparseVector.clear])
      obtain ⟨h1, h2, h3, _, _⟩ := inv
      have hle := length_le_of_nodup_lt _ _ h1 h2
      simp only [List.length_map, Run.start, SparseVector.clear, List.length_nil,
        Nat.zero_add] at hle h3
      omega
  have hm : ∀ fuel, SparseRandomizer_.randomizeMatrix create fuel matr engine itemDist = none := by
    intro fuel
    cases hres : SparseRandomizer_.randomizeMatrix create fuel matr engine itemDist with
    | none => rfl
    | some r =>
      exfalso
      unfold SparseRandomizer_.randomizeMatrix at hres
      have inv := matrixLoop_invariant itemDist (create matr.clear.size1)
        (create matr.clear.size2) (fun p => p.1 < matr.size1 ∧ p.2 < matr.size2)
        (fun e => ⟨(hrm e).1, (hrm _).2⟩) _ _ _ _ hres
        (by simp [Run.start, SparseMatrix.clear])
        (by simp [Run.start, SparseMatrix.clear])
      obtain ⟨h1, h2, h3, _, _, _⟩ := inv
      have hle := length_le_of_nodup_lt_pair _ _ _ h1 h2
      simp only [List.length_map, Run.start, SparseMatrix.clear, List.length_nil,
        Nat.zero_add] at hle h3
      omega
  refine ⟨?_, hv, ?_, hm⟩
  · intro n
    have h := hv n
    unfold SparseRandomizer_.randomizeVector at h
    rw [vectorLoop_eq_iter] at h
    by_contra hpos
    have h0 : ¬ (SparseRandomizer_.vectorIter itemDist (create vect.clear.size) n
        (vect.clear.nnz_capacity, Run.start vect.clear engine)).1 > 0 := hpos
    rw [if_neg h0] at h
    exact Option.noConfusion h
  · intro n
    have h := hm n
    unfold SparseRandomizer_.randomizeMatrix at h
    rw [matrixLoop_eq_iter] at h
    by_contra hpos
    have h0 : ¬ (SparseRandomizer_.matrixIter itemDist (create matr.clear.size1)
        (create matr.clear.size2) n
        (matr.clear.nnz_capacity, Run.start matr.clear engine)).1 > 0 := hpos
    rw [if_neg h0] at h
    exact Option.noConfusion h

theorem sparse_fill_diverges_beyond_distinct_positions_witness :
    SparseRandomizer_.randomizeVector modCreate 50 (⟨2, 3, []⟩ : SparseVector Nat) 0 counterDie
      = none :=
  (sparse_fill_diverges_beyond_distinct_positions modCreate
    (⟨2, 3, []⟩ : SparseVector Nat) (⟨2, 2, 5, []⟩ : SparseMatrix Nat) 0 counterDie
    (fun e => Nat.mod_lt e (by decide)) (by decide)
    (fun e => ⟨Nat.mod_lt e (by decide), Nat.mod_lt _ (by decide)⟩) (by decide)).2.1 50

/-- C13 (as the code has it): of the two named shapes only `mapped_matrix`
is left without a fill strategy: resolving it yields no strategy and the
facade rejects every fill of it; `generalized_vector_of_vector` is
registered and resolves to the Sparse matrix fill, which the facade runs. -/
theorem mapped_matrix_alone_is_left_unregistered {σ V : Type}
    (item orientation storage : CType) (dispatchRandomizer : DispatchRandomizer σ V)
    (cfg : Instantiation σ V) (g : RandomGenerator σ V) (container : Container V) :
    Dispatch_ (.mapped_matrix item orientation storage) = none ∧
    RandomGenerator.call dispatchRandomizer cfg g (.mapped_matrix item orientation storage)
        container = .rejected ∧
    Dispatch_ (.generalized_vector_of_vector item orientation storage)
      = some Strategy.sparseMatrix ∧
    RandomGenerator.call dispatchRandomizer cfg g
        (.generalized_vector_of_vector item orientation storage) container
      = Strategy.sparseMatrix.run cfg container g.engine_ g.itemDistribution_ :=
  ⟨rfl, rfl, rfl, rfl⟩

/-- C13, counterexample: `generalized_vector_of_vector` is not left without
a fill strategy; the registry resolves it to the Sparse matrix fill. -/
theorem generalized_vector_of_vector_is_registered :
    Dispatch_ (.generalized_vector_of_vector (.named "double") (.named "row_major")
        (.named "vector<compressed_vector<double> >"))
      = some Strategy.sparseMatrix ∧
    Dispatch_ (.generalized_vector_of_vector (.named "double") (.named "row_major")
        (.named "vector<compressed_vector<double> >")) ≠ none :=
  ⟨rfl, by decide⟩

/-- C14: the registry maps every supported shape to one strategy: `vector`,
`bounded_vector`, `c_vector` to the dense vector fill and `matrix`,
`bounded_matrix`, `c_matrix`, `vector_of_vector` to the dense matrix fill;
`mapped_vector`, `compressed_vector`, `coordinate_vector` to the sparse
vector fill and `compressed_matrix`, `coordinate_matrix` to the sparse matrix
fill; `triangular_matrix` and `triangular_adaptor` with tag `lower`,
`unit_lower`, `upper`, `unit_upper` to the Lower, UnitLower, Upper, UnitUpper
fill; `symmetric_matrix` and `symmetric_adaptor` to Symmetric;
`hermitian_matrix` and `hermitian_adaptor` to Hermitian; `banded_matrix` and
`banded_adaptor` to Banded; `zero_vector`, `zero_matrix` and
`identity_matrix` to the registered no-op; a type without a specialization
(any other type by name, any cv-qualified type) resolves to no strategy. -/
theorem registry_maps_each_supported_shape_to_its_strategy
    (a b c d : CType) (k m n : Nat) (name : String) :
    (Dispatch_ (.vector a b) = some .fullVector ∧
      Dispatch_ (.bounded_vector a n) = some .fullVector ∧
      Dispatch_ (.c_vector a n) = some .fullVector ∧
      Dispatch_ (.matrix a b c) = some .fullMatrix ∧
      Dispatch_ (.bounded_matrix a m n b) = some .fullMatrix ∧
      Dispatch_ (.c_matrix a m n) = some .fullMatrix ∧
      Dispatch_ (.vector_of_vector a b c) = some .fullMatrix) ∧
    (Dispatch_ (.mapped_vector a b) = some .sparseVector ∧
      Dispatch_ (.compressed_vector a k b c) = some .sparseVector ∧
      Dispatch_ (.coordinate_vector a k b c) = some .sparseVector ∧
      Dispatch_ (.compressed_matrix a b k c d) = some .sparseMatrix ∧
      Dispatch_ (.coordinate_matrix a b k c d) = some .sparseMatrix) ∧
    (Dispatch_ (.triangular_matrix a .lower b c) = some .lower ∧
      Dispatch_ (.triangular_matrix a .unit_lower b c) = some .unitLower ∧
      Dispatch_ (.triangular_matrix a .upper b c) = some .upper ∧
      Dispatch_ (.triangular_matrix a .unit_upper b c) = some .unitUpper ∧
      Dispatch_ (.triangular_adaptor a .lower) = some .lower ∧
      Dispatch_ (.triangular_adaptor a .unit_lower) = some .unitLower ∧
      Dispatch_ (.triangular_adaptor a .upper) = some .upper ∧
      Dispatch_ (.triangular_adaptor a .unit_upper) = some .unitUpper) ∧
    (Dispatch_ (.symmetric_matrix a b c d) = some .symmetric ∧
      Dispatch_ (.symmetric_adaptor a b) = some .symmetric ∧
      Dispatch_ (.hermitian_matrix a b c d) = some .hermitian ∧
      Dispatch_ (.hermitian_adaptor a b) = some .hermitian ∧
      Dispatch_ (.banded_matrix a b c) = some .banded ∧
      Dispatch_ (.banded_adaptor a) = some .banded) ∧
    (Dispatch_ (.zero_vector a b) = some .noop ∧
      Dispatch_ (.zero_matrix a b) = some .noop ∧
      Dispatch_ (.identity_matrix a b) = some .noop) ∧
    (Dispatch_ (.named name) = none ∧
      Dispatch_ (.const_ a) = none ∧
      Dispatch_ (.volatile_ a) = none) :=
  ⟨⟨rfl, rfl, rfl, rfl, rfl, rfl, rfl⟩, ⟨rfl, rfl, rfl, rfl, rfl⟩,
    ⟨rfl, rfl, rfl, rfl, rfl, rfl, rfl, rfl⟩, ⟨rfl, rfl, rfl, rfl, rfl, rfl⟩,
    ⟨rfl, rfl, rfl⟩, ⟨rfl, rfl, rfl⟩⟩

/-- C15: for every container whose type the registry resolves to a strategy,
invoking the facade gives exactly what that strategy gives when it is run
directly on the container with the engine bound at construction and the item
distribution stored at construction: the same container, the same engine
state and the same numbers of item and index draws. -/
theorem facade_runs_the_resolved_strategy {σ V : Type}
    (dispatchRandomizer : DispatchRandomizer σ V) (cfg : Instantiation σ V)
    (g : RandomGenerator σ V) (t : CType) (s : Strategy) (container : Container V)
    (hs : Dispatch_ t = some s) :
    RandomGenerator.call dispatchRandomizer cfg g t container
      = s.run cfg container g.engine_ g.itemDistribution_ := by
  unfold RandomGenerator.call StdDispatchRandomizer.randomize
  rw [hs]

theorem facade_runs_the_resolved_strategy_witness :
    RandomGenerator.call StdDispatchRandomizer.randomize counterInstantiation
        ⟨0, counterDie⟩ (.vector (.named "double") (.named "unbounded_array<double>"))
        (.denseVector ⟨3, fun _ => 0⟩)
      = .done (Run.outcome .denseVector
          (FullRandomizer_.randomizeVector (DenseVector.access Nat) ⟨3, fun _ => 0⟩ 0
            counterDie)) :=
  facade_runs_the_resolved_strategy StdDispatchRandomizer.randomize counterInstantiation
    ⟨0, counterDie⟩ (.vector (.named "double") (.named "unbounded_array<double>"))
    .fullVector (.denseVector ⟨3, fun _ => 0⟩) rfl

/-- C16 (as the code has it): filling a single-hot vector of size zero is
guarded by `vect.size() > 0`: the fill returns normally and is a no-op, with
no index draw, no item draw, the engine and the container unchanged, so no
single-hot vector is constructed for size zero. -/
theorem unit_vector_fill_of_size_zero_is_noop {σ V : Type} (create : Nat → σ → Nat × σ)
    (vect : UnitVector) (engine : σ) (itemDist : σ → V × σ) (h0 : vect.size = 0) :
    Dispatch_unit_vector.randomize create vect engine itemDist = Run.start vect engine ∧
    (Dispatch_unit_vector.randomize create vect engine itemDist).container = vect ∧
    (Dispatch_unit_vector.randomize create vect engine itemDist).engine = engine ∧
    (Dispatch_unit_vector.randomize create vect engine itemDist).indexDraws = 0 ∧
    (Dispatch_unit_vector.randomize create vect engine itemDist).itemDraws = 0 := by
  have h : Dispatch_unit_vector.randomize create vect engine itemDist
      = Run.start vect engine := by
    unfold Dispatch_unit_vector.randomize
    rw [if_neg (by omega)]
  rw [h]
  exact ⟨rfl, rfl, rfl, rfl, rfl⟩

theorem unit_vector_fill_of_size_zero_is_noop_witness :
    (Dispatch_unit_vector.randomize modCreate ⟨0, 7⟩ 5 counterDie).container = ⟨0, 7⟩ :=
  (unit_vector_fill_of_size_zero_is_noop modCreate ⟨0, 7⟩ 5 counterDie rfl).2.1

/-- C16, counterexample: the facade invoked on a single-hot vector of size
zero returns normally, with the container and the engine unchanged and no
draw made. -/
theorem unit_vector_fill_of_size_zero_returns_normally :
    RandomGenerator.call StdDispatchRandomizer.randomize counterInstantiation
        ⟨5, counterDie⟩ (.unit_vector (.named "double") (.named "std::allocator<double>"))
        (.unitVector ⟨0, 0⟩)
      = .done ⟨.unitVector ⟨0, 0⟩, 5, 0, 0⟩ :=
  rfl

/-- C17: the Sparse fill clears the container before placing anything: the
fills of two sparse vectors (matrices) with the same size (dimensions) and
the same declared capacity, whatever they stored before, give the same
result from the same engine and distributions; and when the fill returns,
the stored entries are exactly the entries the fill placed, in the order it
placed them. -/
theorem sparse_fill_forgets_previous_contents {σ V : Type} (create : Nat → σ → Nat × σ)
    (vect other : SparseVector V) (matr otherMatr : SparseMatrix V)
    (engine : σ) (itemDist : σ → V × σ)
    (hsize : vect.size = other.size) (hcap : vect.nnz_capacity = other.nnz_capacity)
    (hsize1 : matr.size1 = otherMatr.size1) (hsize2 : matr.size2 = otherMatr.size2)
    (hcapm : matr.nnz_capacity = otherMatr.nnz_capacity) :
    (∀ fuel, SparseRandomizer_.randomizeVector create fuel vect engine itemDist
        = SparseRandomizer_.randomizeVector create fuel other engine itemDist) ∧
    (∀ fuel r, SparseRandomizer_.randomizeVector create fuel vect engine itemDist = some r →
        r.container.stored = r.writes) ∧
    (∀ fuel, SparseRandomizer_.randomizeMatrix create fuel matr engine itemDist
        = SparseRandomizer_.randomizeMatrix create fuel otherMatr engine itemDist) ∧
    (∀ fuel r, SparseRandomizer_.randomizeMatrix create fuel matr engine itemDist = some r →
        r.container.stored = r.writes) := by
  refine ⟨?_, ?_, ?_, ?_⟩
  · intro fuel
    have hc : vect.clear = other.clear := by
      simp [SparseVector.clear, hsize, hcap]
    unfold SparseRandomizer_.randomizeVector
    rw [hc]
  · intro fuel r h
    obtain ⟨_, hr⟩ := randomizeVector_returns create fuel vect engine itemDist r h
    rw [hr]
    exact (vectorIter_invariant itemDist (create vect.size) fuel
      (vect.nnz_capacity, Run.start vect.clear engine)).2.2 rfl
  · intro fuel
    have hc : matr.clear = otherMatr.clear := by
      simp [SparseMatrix.clear, hsize1, hsize2, hcapm]
    unfold SparseRandomizer_.randomizeMatrix
    rw [hc]
  · intro fuel r h
    obtain ⟨_, hr⟩ := randomizeMatrix_returns create fuel matr engine itemDist r h
    rw [hr]
    exact (matrixIter_invariant itemDist (create matr.size1) (create matr.size2) fuel
      (matr.nnz_capacity, Run.start matr.clear engine)).2.2 rfl

theorem sparse_fill_forgets_previous_contents_witness :
    SparseRandomizer_.randomizeVector modCreate 3 (⟨2, 2, [(0, 7), (1, 9)]⟩ : SparseVector Nat)
        0 counterDie
      = SparseRandomizer_.randomizeVector modCreate 3 (⟨2, 2, []⟩ : SparseVector Nat)
        0 counterDie :=
  (sparse_fill_forgets_previous_contents modCreate
    (⟨2, 2, [(0, 7), (1, 9)]⟩ : SparseVector Nat) ⟨2, 2, []⟩
    (⟨2, 2, 1, [((1, 1), 4)]⟩ : SparseMatrix Nat) ⟨2, 2, 1, []⟩ 0 counterDie
    rfl rfl rfl rfl rfl).1 3

/-- C18: in every iteration of the Sparse fill loop (vector and matrix): if
the drawn position is occupied, the container and the budget counter are
unchanged and no item draw is made; if it is unoccupied, exactly one item
draw is made, the drawn value is inserted at the position and the counter
decreases by one.  Hence after any number of iterations the number of stored
entries plus the remaining budget is the declared capacity, and a fill that
returns has made exactly capacity many item draws. -/
theorem sparse_loop_spends_budget_only_on_insertions {σ V : Type}
    (create : Nat → σ → Nat × σ) (vect : SparseVector V) (matr : SparseMatrix V)
    (engine : σ) (itemDist : σ → V × σ) :
    (∀ (indexDie : σ → Nat × σ) (remained : Nat) (s : Run σ (SparseVector V) Nat V),
      0 < remained →
      ((s.container.find_element (indexDie s.engine).1).isSome = true →
        (SparseRandomizer_.vectorBody itemDist indexDie (remained, s)).1 = remained ∧
        (SparseRandomizer_.vectorBody itemDist indexDie (remained, s)).2.container
          = s.container ∧
        (SparseRandomizer_.vectorBody itemDist indexDie (remained, s)).2.itemDraws
          = s.itemDraws) ∧
      ((s.container.find_element (indexDie s.engine).1).isSome = false →
        (SparseRandomizer_.vectorBody itemDist indexDie (remained, s)).1 + 1 = remained ∧
        (SparseRandomizer_.vectorBody itemDist indexDie (remained, s)).2.container
          = s.container.insert_element (indexDie s.engine).1
              (itemDist (indexDie s.engine).2).1 ∧
        (SparseRandomizer_.vectorBody itemDist indexDie (remained, s)).2.itemDraws
          = s.itemDraws + 1)) ∧
    (∀ n,
      (SparseRandomizer_.vectorIter itemDist (create vect.size) n
          (vect.nnz_capacity, Run.start vect.clear engine)).2.container.stored.length
        + (SparseRandomizer_.vectorIter itemDist (create vect.size) n
          (vect.nnz_capacity, Run.start vect.clear engine)).1 = vect.nnz_capacity) ∧
    (∀ fuel r, SparseRandomizer_.randomizeVector create fuel vect engine itemDist = some r →
      r.itemDraws = vect.nnz_capacity ∧ r.container.stored.length = vect.nnz_capacity) ∧
    (∀ (index1Die index2Die : σ → Nat × σ) (remained : Nat)
        (s : Run σ (SparseMatrix V) (Nat × Nat) V),
      0 < remained →
      ((s.container.find_element (index1Die s.engine).1
            (index2Die (index1Die s.engine).2).1).isSome = true →
        (SparseRandomizer_.matrixBody itemDist index1Die index2Die (remained, s)).1
          = remained ∧
        (SparseRandomizer_.matrixBody itemDist index1Die index2Die (remained, s)).2.container
          = s.container ∧
        (SparseRandomizer_.matrixBody itemDist index1Die index2Die (remained, s)).2.itemDraws
          = s.itemDraws) ∧
      ((s.container.find_element (index1Die s.engine).1
            (index2Die (index1Die s.engine).2).1).isSome = false →
        (SparseRandomizer_.matrixBody itemDist index1Die index2Die (remained, s)).1 + 1
          = remained ∧
        (SparseRandomizer_.matrixBody itemDist index1Die index2Die (remained, s)).2.container
          = s.container.insert_element (index1Die s.engine).1
              (index2Die (index1Die s.engine).2).1
              (itemDist (index2Die (index1Die s.engine).2).2).1 ∧
        (SparseRandomizer_.matrixBody itemDist index1Die index2Die (remained, s)).2.itemDraws
          = s.itemDraws + 1)) ∧
    (∀ n,
      (SparseRandomizer_.matrixIter itemDist (create matr.size1) (create matr.size2) n
          (matr.nnz_capacity, Run.start matr.clear engine)).2.container.stored.length
        + (SparseRandomizer_.matrixIter itemDist (create matr.size1) (create matr.size2) n
          (matr.nnz_capacity, Run.start matr.clear engine)).1 = matr.nnz_capacity) ∧
    (∀ fuel r, SparseRandomizer_.randomizeMatrix create fuel matr engine itemDist = some r →
      r.itemDraws = matr.nnz_capacity ∧ r.container.stored.length = matr.nnz_capacity) := by
  refine ⟨?_, ?_, ?_, ?_, ?_, ?_⟩
  · intro indexDie remained s hr
    constructor
    · intro hocc
      have hn : ¬ (s.container.find_element (indexDie s.engine).1).isNone = true := by
        rw [Option.isNone_iff_eq_none]
        intro h
        rw [h] at hocc
        exact Bool.noConfusion hocc
      unfold SparseRandomizer_.vectorBody
      rw [if_neg hn]
      exact ⟨rfl, rfl, rfl⟩
    · intro hfree
      have hn : (s.container.find_element (indexDie s.engine).1).isNone = true := by
        cases hc : s.container.find_element (indexDie s.engine).1 with
        | none => rfl
        | some v => rw [hc] at hfree; exact Bool.noConfusion hfree
      unfold SparseRandomizer_.vectorBody
      rw [if_pos hn]
      exact ⟨by show remained - 1 + 1 = remained; omega, rfl, rfl⟩
  · intro n
    have h := (vectorIter_invariant itemDist (create vect.size) n
      (vect.nnz_capacity, Run.start vect.clear engine)).1
    simpa [Run.start, SparseVector.clear] using h
  · intro fuel r h
    obtain ⟨h0, hr⟩ := randomizeVector_returns create fuel vect engine itemDist r h
    obtain ⟨h1, h2, _⟩ := vectorIter_invariant itemDist (create vect.size) fuel
      (vect.nnz_capacity, Run.start vect.clear engine)
    rw [h0] at h1 h2
    rw [hr]
    constructor
    · simpa [Run.start] using h2
    · simpa [Run.start, SparseVector.clear] using h1
  · intro index1Die index2Die remained s hr
    constructor
    · intro hocc
      have hn : ¬ (s.container.find_element (index1Die s.engine).1
          (index2Die (index1Die s.engine).2).1).isNone = true := by
        rw [Option.isNone_iff_eq_none]
        intro h
        rw [h] at hocc
        exact Bool.noConfusion hocc
      unfold SparseRandomizer_.matrixBody
      rw [if_neg hn]
      exact ⟨rfl, rfl, rfl⟩
    · intro hfree
      have hn : (s.container.find_element (index1Die s.engine).1
          (index2Die (index1Die s.engine).2).1).isNone = true := by
        cases hc : s.container.find_element (index1Die s.engine).1
            (index2Die (index1Die s.engine).2).1 with
        | none => rfl
        | some v => rw [hc] at hfree; exact Bool.noConfusion hfree
      unfold SparseRandomizer_.matrixBody
      rw [if_pos hn]
      exact ⟨by show remained - 1 + 1 = remained; omega, rfl, rfl⟩
  · intro n
    have h := (matrixIter_invariant itemDist (create matr.size1) (create matr.size2) n
      (matr.nnz_capacity, Run.start matr.clear engine)).1
    simpa [Run.start, SparseMatrix.clear] using h
  · intro fuel r h
    obtain ⟨h0, hr⟩ := randomizeMatrix_returns create fuel matr engine itemDist r h
    obtain ⟨h1, h2, _⟩ := matrixIter_invariant itemDist (create matr.size1)
      (create matr.size2) fuel (matr.nnz_capacity, Run.start matr.clear engine)
    rw [h0] at h1 h2
    rw [hr]
    constructor
    · simpa [Run.start] using h2
    · simpa [Run.start, SparseMatrix.clear] using h1

theorem sparse_loop_spends_budget_only_on_insertions_witness :
    SparseRandomizer_.randomizeVector modCreate 3 (⟨2, 2, [(0, 7)]⟩ : SparseVector Nat) 0
        counterDie
      = some ⟨⟨2, 2, [(0, 1), (1, 4)]⟩, 5, 2, 3, [(0, 1), (1, 4)]⟩ ∧
    (2 : Nat) = (⟨2, 2, [(0, 7)]⟩ : SparseVector Nat).nnz_capacity :=
  ⟨rfl,
   ((sparse_loop_spends_budget_only_on_insertions modCreate
      (⟨2, 2, [(0, 7)]⟩ : SparseVector Nat) (⟨2, 2, 2, []⟩ : SparseMatrix Nat) 0
      counterDie).2.2.1 3 ⟨⟨2, 2, [(0, 1), (1, 4)]⟩, 5, 2, 3, [(0, 1), (1, 4)]⟩ rfl).1⟩

/-- C19: on a container whose element assignment leaves every other position
as it reads, filled by the Upper or the UnitUpper fill: if every position
below the diagonal reads as the structural default before the fill, every
entry `(i, j)` with `j < i` still reads as the default after it; and after a
UnitUpper fill of a unit triangular container, whose diagonal reads as the
unit value, every diagonal entry reads as the unit value. -/
theorem upper_fills_leave_the_lower_part_at_default {σ M V : Type} (acc : MatrixAccess M V)
    (entry : M → Nat × Nat → V) (zero one : V)
    (hframe : ∀ c p v q, q ≠ p → entry (acc.assign c p v) q = entry c q)
    (matr : M) (engine : σ) (itemDist : σ → V × σ)
    (hbelow : ∀ i j, j < i → entry matr (i, j) = zero) :
    (∀ i j, j < i →
      entry (TriangleRandomizer_.randomizeUpper acc matr engine itemDist).container (i, j)
        = zero) ∧
    (∀ i j, j < i →
      entry (TriangleRandomizer_.randomizeUnitUpper acc matr engine itemDist).container (i, j)
        = zero) ∧
    ((∀ i, entry matr (i, i) = one) →
      ∀ i, entry (TriangleRandomizer_.randomizeUnitUpper acc matr engine itemDist).container
        (i, i) = one) := by
  refine ⟨?_, ?_, ?_⟩
  · intro i j hji
    rw [randomizeUpper_eq, fillAt_frame acc.assign itemDist _ entry hframe (i, j)]
    · exact hbelow i j hji
    · rw [mem_rowsCols, List.mem_range'_1]
      omega
  · intro i j hji
    rw [randomizeUnitUpper_eq, fillAt_frame acc.assign itemDist _ entry hframe (i, j)]
    · exact hbelow i j hji
    · rw [mem_rowsCols, List.mem_range'_1]
      omega
  · intro hdiag i
    rw [randomizeUnitUpper_eq, fillAt_frame acc.assign itemDist _ entry hframe (i, i)]
    · exact hdiag i
    · rw [mem_rowsCols, List.mem_range'_1]
      omega

theorem upper_fills_leave_the_lower_part_at_default_witness :
    DenseMatrix.upperEntry 0 1 true
      (TriangleRandomizer_.randomizeUnitUpper (DenseMatrix.access Nat) ⟨3, 3, fun _ _ => 5⟩ 0
        counterDie).container 2 0 = 0 :=
  (upper_fills_leave_the_lower_part_at_default (DenseMatrix.access Nat)
    (fun c p => DenseMatrix.upperEntry 0 1 true c p.1 p.2) 0 1
    (fun c p v q hq => denseMatrix_frame (DenseMatrix.upperEntry 0 1 true)
      (fun c d i j h => by simp [DenseMatrix.upperEntry, h]) c p v q hq)
    ⟨3, 3, fun _ _ => 5⟩ 0 counterDie
    (fun i j h => by simp [DenseMatrix.upperEntry, h])).2.1 2 0 (by decide)

/-- C20: on a banded container with lower bandwidth `p` and upper bandwidth
`q` whose element assignment leaves every other position as it reads: if
every position outside the band reads as the structural default before the
Banded fill, every entry `(i, j)` with `j < i - p` or `j > i + q` reads as
the default after it. -/
theorem banded_fill_leaves_out_of_band_at_default {σ M V : Type} (w : Nat)
    (acc : BandedAccess M V) (entry : M → Nat × Nat → V) (zero : V)
    (hframe : ∀ c p v q, q ≠ p → entry (acc.assign c p v) q = entry c q)
    (matr : M) (engine : σ) (itemDist : σ → V × σ)
    (hout : ∀ i j : Nat, ((j : Int) < (i : Int) - (acc.lower matr : Int) ∨
        (j : Int) > (i : Int) + (acc.upper matr : Int)) → entry matr (i, j) = zero) :
    ∀ i j : Nat, ((j : Int) < (i : Int) - (acc.lower matr : Int) ∨
        (j : Int) > (i : Int) + (acc.upper matr : Int)) →
      entry (BandedRandomizer_.randomize w acc matr engine itemDist).container (i, j)
        = zero := by
  intro i j hij
  rw [banded_randomize_eq, fillAt_frame acc.assign itemDist _ entry hframe (i, j)]
  · exact hout i j hij
  · rw [mem_rowsCols, List.mem_range'_1]
    have hmod : (i + acc.upper matr) % 2 ^ w ≤ i + acc.upper matr := Nat.mod_le _ _
    unfold BandedRandomizer_.startFrom_
    split <;> omega

theorem banded_fill_leaves_out_of_band_at_default_witness :
    DenseMatrix.bandedEntry 0 1 1
      (BandedRandomizer_.randomize 64 (DenseMatrix.banded Nat 1 1) ⟨4, 4, fun _ _ => 5⟩ 0
        counterDie).container 3 0 = 0 :=
  banded_fill_leaves_out_of_band_at_default 64 (DenseMatrix.banded Nat 1 1)
    (fun c p => DenseMatrix.bandedEntry 0 1 1 c p.1 p.2) 0
    (fun c p v q hq => denseMatrix_frame (DenseMatrix.bandedEntry 0 1 1)
      (fun c d i j h => by simp [DenseMatrix.bandedEntry, h]) c p v q hq)
    ⟨4, 4, fun _ _ => 5⟩ 0 counterDie
    (fun i j h => by
      have h2 : j + 1 < i ∨ i + 1 < j := by
        simp only [DenseMatrix.banded] at h
        omega
      simp [DenseMatrix.bandedEntry, h2])
    3 0 (by decide)

/-- C21: the index distribution creator is used only by the fills that
choose positions (sparse vector, sparse matrix, single-hot vector): for every
other strategy (dense, triangular, symmetric, hermitian, banded, the no-op of
the constant-zero and identity containers, uniform scalar) the result of the
fill, and of the facade resolving to it, is the same whichever creator is
supplied, none included; without a creator the three position-choosing fills
are rejected. -/
theorem index_creator_matters_only_to_position_choosing_fills {σ V : Type}
    (w fuel : Nat) (conj real : V → V)
    (create other : Option (Nat → σ → Nat × σ)) (s : Strategy) (container : Container V)
    (engine : σ) (itemDist : σ → V × σ)
    (hs : s ≠ .sparseVector ∧ s ≠ .sparseMatrix ∧ s ≠ .unitVector) :
    Strategy.run ⟨w, create, conj, real, fuel⟩ s container engine itemDist
      = Strategy.run ⟨w, other, conj, real, fuel⟩ s container engine itemDist ∧
    Strategy.run ⟨w, create, conj, real, fuel⟩ s container engine itemDist
      = Strategy.run ⟨w, none, conj, real, fuel⟩ s container engine itemDist ∧
    (∀ (dispatchRandomizer : DispatchRandomizer σ V) (t : CType), Dispatch_ t = some s →
      RandomGenerator.call dispatchRandomizer ⟨w, create, conj, real, fuel⟩
          ⟨engine, itemDist⟩ t container
        = RandomGenerator.call dispatchRandomizer ⟨w, other, conj, real, fuel⟩
          ⟨engine, itemDist⟩ t container) ∧
    (∀ c, Strategy.run ⟨w, none, conj, real, fuel⟩ .sparseVector (.sparseVector c) engine
        itemDist = .rejected) ∧
    (∀ c, Strategy.run ⟨w, none, conj, real, fuel⟩ .sparseMatrix (.sparseMatrix c) engine
        itemDist = .rejected) ∧
    (∀ c, Strategy.run ⟨w, none, conj, real, fuel⟩ .unitVector (.unitVector c) engine
        itemDist = .rejected) := by
  have key : ∀ a b : Option (Nat → σ → Nat × σ),
      Strategy.run ⟨w, a, conj, real, fuel⟩ s container engine itemDist
        = Strategy.run ⟨w, b, conj, real, fuel⟩ s container engine itemDist := by
    intro a b
    obtain ⟨h1, h2, h3⟩ := hs
    cases s
    case sparseVector => exact absurd rfl h1
    case sparseMatrix => exact absurd rfl h2
    case unitVector => exact absurd rfl h3
    all_goals cases container <;> rfl
  refine ⟨key _ _, key _ _, ?_, fun _ => rfl, fun _ => rfl, fun _ => rfl⟩
  intro dispatchRandomizer t ht
  unfold RandomGenerator.call StdDispatchRandomizer.randomize
  rw [ht]
  exact key _ _

theorem index_creator_matters_only_to_position_choosing_fills_witness :
    Strategy.run ⟨64, some modCreate, id, id, 16⟩ .fullVector
        (.denseVector ⟨3, fun _ => 0⟩) 0 counterDie
      = Strategy.run ⟨64, none, id, id, 16⟩ .fullVector
        (.denseVector ⟨3, fun _ => 0⟩) 0 counterDie :=
  (index_creator_matters_only_to_position_choosing_fills 64 16 id id (some modCreate) none
    .fullVector (.denseVector ⟨3, fun _ => 0⟩) 0 counterDie
    ⟨by decide, by decide, by decide⟩).2.1

/-- C22: every fill strategy preserves the structural parameters of the
container: whenever a strategy, or the facade, returns, the container it
leaves has the same kind, the same dimensions and, where it has them, the
same bandwidths and the same declared nonzero capacity as the container it
was given, the whole-container replacements included. -/
theorem fills_preserve_structural_parameters {σ V : Type} (cfg : Instantiation σ V)
    (container : Container V) (engine : σ) (itemDist : σ → V × σ) (out : Outcome σ V) :
    (∀ s : Strategy, s.run cfg container engine itemDist = .done out →
      out.container.shape = container.shape) ∧
    (∀ (dispatchRandomizer : DispatchRandomizer σ V) (t : CType),
      RandomGenerator.call dispatchRandomizer cfg ⟨engine, itemDist⟩ t container = .done out →
      out.container.shape = container.shape) := by
  refine ⟨fun s h => strategy_run_shape cfg s container engine itemDist out h, ?_⟩
  intro dispatchRandomizer t h
  unfold RandomGenerator.call StdDispatchRandomizer.randomize at h
  cases hd : Dispatch_ t with
  | none => rw [hd] at h; exact Result.noConfusion h
  | some s =>
    rw [hd] at h
    exact strategy_run_shape cfg s container engine itemDist out h

theorem fills_preserve_structural_parameters_witness :
    (Container.scalarVector (⟨4, 1⟩ : ScalarVector Nat)).shape
      = (Container.scalarVector (⟨4, 0⟩ : ScalarVector Nat)).shape :=
  (fills_preserve_structural_parameters counterInstantiation
    (.scalarVector ⟨4, 0⟩) 1 counterDie ⟨.scalarVector ⟨4, 1⟩, 2, 1, 0⟩).1
    .scalarVector rfl

/-- C23, evaluation: a generator instantiated with a dispatch randomizer
that rejects every container still fills a dense vector, because
`operator()` calls the `randomize` of the base class `StdDispatchRandomizer`
and never the one of its `DispatchRandomizer` parameter. -/
theorem facade_ignores_its_dispatch_randomizer_parameter :
    RandomGenerator.call (fun _ _ _ _ _ => Result.rejected) counterInstantiation
        ⟨0, counterDie⟩ (.vector (.named "double") (.named "unbounded_array<double>"))
        (.denseVector ⟨3, fun _ => 0⟩)
      = StdDispatchRandomizer.randomize counterInstantiation
          (.vector (.named "double") (.named "unbounded_array<double>"))
          (.denseVector ⟨3, fun _ => 0⟩) 0 counterDie ∧
    RandomGenerator.call (fun _ _ _ _ _ => Result.rejected) counterInstantiation
        ⟨0, counterDie⟩ (.vector (.named "double") (.named "unbounded_array<double>"))
        (.denseVector ⟨3, fun _ => 0⟩)
      ≠ (fun _ _ _ _ _ => Result.rejected : DispatchRandomizer Nat Nat) counterInstantiation
          (.vector (.named "double") (.named "unbounded_array<double>"))
          (.denseVector ⟨3, fun _ => 0⟩) 0 counterDie :=
  ⟨rfl, fun h => Result.noConfusion h⟩

/-- C24: for every container type for which the substitution is defined and
every new element type `new`, `Replace<C, new>::Answer` is the same container
template with the same orientation, type tag, static sizes and other
arguments and with element type `new`; for a triangular, symmetric,
hermitian or banded adaptor over a matrix type it is the same adaptor, with the
same type tag, over the answer for the matrix type, computed recursively;
top-level cv-qualifiers of the container type are ignored. -/
theorem replace_keeps_the_shape_and_changes_the_element_type
    (item new a b c : CType) (k m n : Nat) (matrix tag answer : CType) :
    (TypeReplacer.Replace (.vector item a) new = some (.vector new a) ∧
      TypeReplacer.Replace (.bounded_vector item n) new = some (.bounded_vector new n) ∧
      TypeReplacer.Replace (.c_vector item n) new = some (.c_vector new n) ∧
      TypeReplacer.Replace (.zero_vector item a) new = some (.zero_vector new a) ∧
      TypeReplacer.Replace (.unit_vector item a) new = some (.unit_vector new a) ∧
      TypeReplacer.Replace (.scalar_vector item a) new = some (.scalar_vector new a) ∧
      TypeReplacer.Replace (.mapped_vector item a) new = some (.mapped_vector new a) ∧
      TypeReplacer.Replace (.compressed_vector item k a b) new
        = some (.compressed_vector new k a b) ∧
      TypeReplacer.Replace (.coordinate_vector item k a b) new
        = some (.coordinate_vector new k a b)) ∧
    (TypeReplacer.Replace (.matrix item a b) new = some (.matrix new a b) ∧
      TypeReplacer.Replace (.bounded_matrix item m n a) new
        = some (.bounded_matrix new m n a) ∧
      TypeReplacer.Replace (.c_matrix item m n) new = some (.c_matrix new m n) ∧
      TypeReplacer.Replace (.vector_of_vector item a b) new
        = some (.vector_of_vector new a b) ∧
      TypeReplacer.Replace (.zero_matrix item a) new = some (.zero_matrix new a) ∧
      TypeReplacer.Replace (.identity_matrix item a) new = some (.identity_matrix new a) ∧
      TypeReplacer.Replace (.scalar_matrix item a) new = some (.scalar_matrix new a)) ∧
    (TypeReplacer.Replace (.triangular_matrix item tag a b) new
        = some (.triangular_matrix new tag a b) ∧
      TypeReplacer.Replace (.symmetric_matrix item tag a b) new
        = some (.symmetric_matrix new tag a b) ∧
      TypeReplacer.Replace (.hermitian_matrix item tag a b) new
        = some (.hermitian_matrix new tag a b) ∧
      TypeReplacer.Replace (.banded_matrix item a b) new = some (.banded_matrix new a b) ∧
      TypeReplacer.Replace (.mapped_matrix item a b) new = some (.mapped_matrix new a b) ∧
      TypeReplacer.Replace (.compressed_matrix item a k b c) new
        = some (.compressed_matrix new a k b c) ∧
      TypeReplacer.Replace (.coordinate_matrix item a k b c) new
        = some (.coordinate_matrix new a k b c) ∧
      TypeReplacer.Replace (.generalized_vector_of_vector item a b) new
        = some (.generalized_vector_of_vector new a b)) ∧
    ((TypeReplacer.Replace (.triangular_adaptor matrix tag) new = some answer →
        ∃ matrixAnswer, TypeReplacer.Replace matrix new = some matrixAnswer ∧
          answer = .triangular_adaptor matrixAnswer tag) ∧
      (TypeReplacer.Replace (.symmetric_adaptor matrix tag) new = some answer →
        ∃ matrixAnswer, TypeReplacer.Replace matrix new = some matrixAnswer ∧
          answer = .symmetric_adaptor matrixAnswer tag) ∧
      (TypeReplacer.Replace (.hermitian_adaptor matrix tag) new = some answer →
        ∃ matrixAnswer, TypeReplacer.Replace matrix new = some matrixAnswer ∧
          answer = .hermitian_adaptor matrixAnswer tag) ∧
      (TypeReplacer.Replace (.banded_adaptor matrix) new = some answer →
        ∃ matrixAnswer, TypeReplacer.Replace matrix new = some matrixAnswer ∧
          answer = .banded_adaptor matrixAnswer)) ∧
    (TypeReplacer.Replace (.triangular_adaptor matrix tag) new
        = (TypeReplacer.ReplaceBackend matrix new).map (fun x => .triangular_adaptor x tag) ∧
      TypeReplacer.Replace (.symmetric_adaptor matrix tag) new
        = (TypeReplacer.ReplaceBackend matrix new).map (fun x => .symmetric_adaptor x tag) ∧
      TypeReplacer.Replace (.hermitian_adaptor matrix tag) new
        = (TypeReplacer.ReplaceBackend matrix new).map (fun x => .hermitian_adaptor x tag) ∧
      TypeReplacer.Replace (.banded_adaptor matrix) new
        = (TypeReplacer.ReplaceBackend matrix new).map (fun x => .banded_adaptor x)) ∧
    (TypeReplacer.Replace (.const_ item) new = TypeReplacer.Replace item new ∧
      TypeReplacer.Replace (.volatile_ item) new = TypeReplacer.Replace item new ∧
      TypeReplacer.Replace (.const_ (.volatile_ item)) new = TypeReplacer.Replace item new) :=
  ⟨⟨rfl, rfl, rfl, rfl, rfl, rfl, rfl, rfl, rfl⟩, ⟨rfl, rfl, rfl, rfl, rfl, rfl, rfl⟩,
    ⟨rfl, rfl, rfl, rfl, rfl, rfl, rfl, rfl⟩,
    ⟨replace_adaptor_answer (fun x => .triangular_adaptor x tag) matrix new answer,
      replace_adaptor_answer (fun x => .symmetric_adaptor x tag) matrix new answer,
      replace_adaptor_answer (fun x => .hermitian_adaptor x tag) matrix new answer,
      replace_adaptor_answer (fun x => .banded_adaptor x) matrix new answer⟩,
    ⟨rfl, rfl, rfl, rfl⟩, ⟨rfl, rfl, rfl⟩⟩

theorem replace_keeps_the_shape_and_changes_the_element_type_witness :
    TypeReplacer.Replace
        (.triangular_adaptor (.matrix (.named "double") (.named "row_major") (.named "S"))
          .lower) (.named "float")
      = some (.triangular_adaptor
          (.matrix (.named "float") (.named "row_major") (.named "S")) .lower) ∧
    (TypeReplacer.Replace (.matrix (.named "double") (.named "row_major") (.named "S"))
        (.named "float")).isSome = true :=
  ⟨rfl,
   ((replace_keeps_the_shape_and_changes_the_element_type (.named "double") (.named "float")
      (.named "row_major") (.named "S") (.named "S") 0 0 0
      (.matrix (.named "double") (.named "row_major") (.named "S")) .lower
      (.triangular_adaptor (.matrix (.named "float") (.named "row_major") (.named "S"))
        .lower)).2.2.2.1.1 rfl).elim (fun _ h => by rw [h.1]; rfl)⟩

/-- C25: for a count `minSpaces` (not negative) the vector formatter returns,
having appended to the stream exactly: `[`, the size, `]`; a line feed iff
`isLineFeedAfterSize`; `(`; the rendered elements in index order with a comma
and `minSpaces` spaces between every two adjacent ones; `)`; a line feed iff
`isLineFeedAfterAll`.  The body of an empty vector is `()`, and the body of a
vector of size `k + 1` is every element before the last one followed by the
separator, then the last element with nothing after it. -/
theorem vector_outputer_writes_size_then_separated_elements {V : Type}
    (o : VectorNiceOutputer) (render : V → Text) (renderSize : Nat → Text)
    (written : Text) (vector : DenseVector V) (hmin : 0 ≤ o.minSpaces_) :
    o.call render renderSize (some written) vector
      = some (written ++ (['['] ++ renderSize vector.size ++ [']'])
          ++ (if o.isLineFeedAfterSize_ then ['\n'] else [])
          ++ (['('] ++ List.intercalate (',' :: List.replicate o.minSpaces_.toNat ' ')
                ((List.range vector.size).map (fun i => render (vector.elem i))) ++ [')'])
          ++ (if o.isLineFeedAfterAll_ then ['\n'] else []))
    ∧ (vector.size = 0 →
        List.intercalate (',' :: List.replicate o.minSpaces_.toNat ' ')
            ((List.range vector.size).map (fun i => render (vector.elem i))) = [])
    ∧ (∀ k, vector.size = k + 1 →
        List.intercalate (',' :: List.replicate o.minSpaces_.toNat ' ')
            ((List.range vector.size).map (fun i => render (vector.elem i)))
          = (List.range k).flatMap (fun i =>
                render (vector.elem i) ++ (',' :: List.replicate o.minSpaces_.toNat ' '))
              ++ render (vector.elem k)) := by
  refine ⟨?_, ?_, ?_⟩
  · unfold VectorNiceOutputer.call
    cases h1 : o.isLineFeedAfterSize_ <;> cases h2 : o.isLineFeedAfterAll_ <;>
      simp [put_some, outputRowSimply_eq _ _ _ _ hmin]
  · intro h0
    simp [h0, List.intercalate]
  · intro k hk
    rw [hk, intercalate_range_succ, List.range_eq_range']

theorem vector_outputer_writes_size_then_separated_elements_witness :
    (0 : Int) ≤ 2
    ∧ (VectorNiceOutputer.mk ⟨2, true⟩ false).call (fun n : Nat => List.replicate n 'x')
        (fun n => List.replicate n 'i') (some []) ⟨3, fun i => i + 1⟩
      = some ['[', 'i', 'i', 'i', ']', '(', 'x', ',', ' ', ' ', 'x', 'x', ',', ' ', ' ',
          'x', 'x', 'x', ')', '\n'] :=
  ⟨by decide,
    (vector_outputer_writes_size_then_separated_elements
      (VectorNiceOutputer.mk ⟨2, true⟩ false) (fun n : Nat => List.replicate n 'x')
      (fun n => List.replicate n 'i') [] ⟨3, fun i => i + 1⟩ (by decide)).1.trans (by decide)⟩

/-- C26: for a matrix with at least one row and a count `minSpaces` (not
negative), the matrix formatter in `BY_COLUMNS` mode returns, having appended
the header and the justified text (and the final line feed if asked); in it,
element `(i, j)` starts in the line of row `i` at the offset `columnOffset j`,
the same for every row; an element that is not the last of its row is
followed by a comma and its padding, which is at least `minSpaces` spaces and
exactly `minSpaces` for an element as wide as its column, and every column
has such an element; the bracketed bodies of all rows have the same length. -/
theorem justified_columns_are_aligned {V : Type} (o : MatrixNiceOutputer)
    (render : V → Text) (renderSize : Nat → Text) (written : Text) (matrix : DenseMatrix V)
    (hm : 1 ≤ matrix.size1) (hmin : 0 ≤ o.minSpaces_) (hp : o.placing_ = .BY_COLUMNS) :
    o.call render renderSize (some written) matrix
      = some (written
          ++ (['['] ++ renderSize matrix.size1 ++ [',', ' '] ++ renderSize matrix.size2
              ++ [']', '\n'])
          ++ justifiedText o.minSpaces_.toNat render matrix
          ++ (if o.isLineFeedAfterAll_ then ['\n'] else []))
    ∧ (∀ i j, i < matrix.size1 → j < matrix.size2 →
        ∃ before after,
          justifiedLine o.minSpaces_.toNat render matrix i
              = before ++ render (matrix.elem i j) ++ after
          ∧ before.length = columnOffset o.minSpaces_.toNat render matrix j
          ∧ (j + 1 < matrix.size2 → ∃ rest,
              after = ',' :: List.replicate
                  (justifiedPadding o.minSpaces_.toNat render matrix i j) ' ' ++ rest))
    ∧ (∀ i j, i < matrix.size1 → j < matrix.size2 →
        o.minSpaces_.toNat ≤ justifiedPadding o.minSpaces_.toNat render matrix i j
        ∧ ((render (matrix.elem i j)).length = columnWidth render matrix j ↔
            justifiedPadding o.minSpaces_.toNat render matrix i j = o.minSpaces_.toNat))
    ∧ (∀ j, j < matrix.size2 → ∃ i, i < matrix.size1
        ∧ (∀ a, a < matrix.size1 →
            (render (matrix.elem a j)).length ≤ (render (matrix.elem i j)).length)
        ∧ justifiedPadding o.minSpaces_.toNat render matrix i j = o.minSpaces_.toNat)
    ∧ (∀ i a, i < matrix.size1 → a < matrix.size1 →
        (justifiedBody o.minSpaces_.toNat render matrix i).length
          = (justifiedBody o.minSpaces_.toNat render matrix a).length) := by
  refine ⟨?_, ?_, ?_, ?_, ?_⟩
  · unfold MatrixNiceOutputer.call
    have h0 : ¬ matrix.size1 = 0 := by omega
    simp only [h0, hp, if_false, put_some, doJustifiedColumns_eq o render matrix _ hmin]
    cases o.isLineFeedAfterAll_ <;> simp [put_some]
  · intro i j hi hj
    exact justifiedLine_split _ render matrix i j hi hj
  · intro i j hi _
    have hle := le_columnWidth render matrix i j hi
    unfold justifiedPadding
    constructor
    · omega
    · constructor <;> intro h <;> omega
  · intro j _
    obtain ⟨i, hi, e⟩ := columnWidth_attained render matrix j hm
    refine ⟨i, hi, ?_, ?_⟩
    · intro a ha
      rw [e]
      exact le_columnWidth render matrix a j ha
    · unfold justifiedPadding
      omega
  · intro i a hi ha
    rw [justifiedBody_length _ render matrix i hi, justifiedBody_length _ render matrix a ha]

theorem justified_columns_are_aligned_witness :
    (MatrixNiceOutputer.mk ⟨1, false⟩ .BY_COLUMNS).call (fun n : Nat => List.replicate n 'x')
        (fun n => List.replicate n 'i') (some [])
        ⟨2, 2, fun i j => if i = j then 3 else 1⟩
      = some ['[', 'i', 'i', ',', ' ', 'i', 'i', ']', '\n',
          '(', '(', 'x', 'x', 'x', ',', ' ', 'x', ' ', ' ', ')', ',', '\n',
          ' ', '(', 'x', ',', ' ', ' ', ' ', 'x', 'x', 'x', ')', ')'] :=
  (justified_columns_are_aligned (MatrixNiceOutputer.mk ⟨1, false⟩ .BY_COLUMNS)
    (fun n : Nat => List.replicate n 'x') (fun n => List.replicate n 'i') []
    ⟨2, 2, fun i j => if i = j then 3 else 1⟩ (by decide) (by decide) rfl).1.trans (by decide)

/-- C27: after a Dense fill of a vector, element `i` is the `i`-th value
drawn (the draw made after `i` earlier draws), and after a Dense fill of an
`m x n` matrix the element at `(i, j)` is the `(i * n + j)`-th value drawn,
in row-major order; consequently, if every value drawn by the fill satisfies
a predicate, every element of the filled container satisfies it. -/
theorem dense_fill_places_draws_in_row_major_order {σ V : Type} (vect : DenseVector V)
    (matr : DenseMatrix V) (engine : σ) (itemDist : σ → V × σ) :
    (∀ i, i < vect.size →
      (FullRandomizer_.randomizeVector (DenseVector.access V) vect engine
          itemDist).container.elem i
        = (itemDist (advance itemDist i engine)).1) ∧
    (∀ i j, i < matr.size1 → j < matr.size2 →
      (FullRandomizer_.randomizeMatrix (DenseMatrix.access V) matr engine
          itemDist).container.elem i j
        = (itemDist (advance itemDist (i * matr.size2 + j) engine)).1) ∧
    (∀ inRange : V → Prop,
      (∀ k, k < vect.size → inRange (itemDist (advance itemDist k engine)).1) →
      ∀ i, i < vect.size →
        inRange ((FullRandomizer_.randomizeVector (DenseVector.access V) vect engine
          itemDist).container.elem i)) ∧
    (∀ inRange : V → Prop,
      (∀ k, k < matr.size1 * matr.size2 →
        inRange (itemDist (advance itemDist k engine)).1) →
      ∀ i j, i < matr.size1 → j < matr.size2 →
        inRange ((FullRandomizer_.randomizeMatrix (DenseMatrix.access V) matr engine
          itemDist).container.elem i j)) := by
  have hv : ∀ i, i < vect.size →
      (FullRandomizer_.randomizeVector (DenseVector.access V) vect engine
          itemDist).container.elem i
        = (itemDist (advance itemDist i engine)).1 := by
    intro i hi
    rw [randomizeVector_eq]
    exact fillAt_start_read DenseVector.assign itemDist (fun _ => id)
      (fun c p => c.elem p) (fun c p v => by simp [DenseVector.assign])
      (fun c p v q hq => by simp [DenseVector.assign, hq]) vect engine _
      (List.nodup_range' 0 _) i i
      (by
        show (List.range' 0 vect.size)[i]? = some i
        simp [List.getElem?_range', hi])
  have hm : ∀ i j, i < matr.size1 → j < matr.size2 →
      (FullRandomizer_.randomizeMatrix (DenseMatrix.access V) matr engine
          itemDist).container.elem i j
        = (itemDist (advance itemDist (i * matr.size2 + j) engine)).1 := by
    intro i j hi hj
    rw [randomizeMatrix_eq]
    exact fillAt_start_read DenseMatrix.assign itemDist (fun _ => id)
      (fun c p => c.elem p.1 p.2) (fun c p v => by simp [DenseMatrix.assign])
      (fun c p v q hq => by
        have : ¬ (q.1 = p.1 ∧ q.2 = p.2) := fun h => hq (Prod.ext h.1 h.2)
        simp [DenseMatrix.assign, this])
      matr engine _ (nodup_rowsCols _ _ (fun _ => List.nodup_range' 0 _))
      (i * matr.size2 + j) (i, j) (rowsCols_const_get matr.size2 matr.size1 i j hi hj)
  refine ⟨hv, hm, ?_, ?_⟩
  · intro inRange hall i hi
    rw [hv i hi]
    exact hall i hi
  · intro inRange hall i j hi hj
    rw [hm i j hi hj]
    apply hall
    have h1 : (i + 1) * matr.size2 ≤ matr.size1 * matr.size2 :=
      Nat.mul_le_mul_right _ hi
    have h2 : (i + 1) * matr.size2 = i * matr.size2 + matr.size2 := by ring
    omega

theorem dense_fill_places_draws_in_row_major_order_witness :
    (FullRandomizer_.randomizeMatrix (DenseMatrix.access Nat) ⟨4, 4, fun _ _ => 0⟩ 10
        counterDie).container.elem 2 3 = 21 :=
  ((dense_fill_places_draws_in_row_major_order (⟨0, fun _ => 0⟩ : DenseVector Nat)
    (⟨4, 4, fun _ _ => 0⟩ : DenseMatrix Nat) 10 counterDie).2.1 2 3
    (by decide) (by decide)).trans (by decide)

/-- C28: the Sparse fill on given sequences of draws.  For a sparse vector of
capacity `k`, a sequence `I` of index draws in range and a sequence `J` of
item draws: the fill returns within `fuel` iterations if and only if the
first `fuel` index draws hold at least `k` distinct values, so it terminates
if and only if the sequence holds at least `k` distinct values; when it
returns it has made `T` index draws, where the first `T` draws hold `k`
distinct values and no shorter start of the sequence does; the stored
positions are the first `k` distinct values drawn, in range, and the `t`-th
of them holds the `t`-th item draw.  For a sparse matrix the same holds for
the pairs `(K (2 a), K (2 a + 1))` of a sequence `K` of index draws, the row
index being drawn first, with `2 T` index draws made. -/
theorem sparse_fill_stores_the_first_distinct_positions {V : Type}
    (I K : Nat → Nat) (J : Nat → V) (vect : SparseVector V) (matr : SparseMatrix V)
    (fuel : Nat) (hvect : ∀ n, I n < vect.size)
    (hmatr : ∀ a, K (2 * a) < matr.size1 ∧ K (2 * a + 1) < matr.size2) :
    ((SparseRandomizer_.randomizeVector (fun _ => replayIndex I) fuel vect (0, 0)
          (replayItem J)).isSome = true
        ↔ vect.nnz_capacity ≤ (vectorPositions I fuel).length)
    ∧ ((∃ n, (SparseRandomizer_.randomizeVector (fun _ => replayIndex I) n vect (0, 0)
          (replayItem J)).isSome = true)
        ↔ ∃ n, vect.nnz_capacity ≤ (vectorPositions I n).length)
    ∧ (∀ r, SparseRandomizer_.randomizeVector (fun _ => replayIndex I) fuel vect (0, 0)
          (replayItem J) = some r →
        ∃ T, T ≤ fuel ∧ r.indexDraws = T
          ∧ (vectorPositions I T).length = vect.nnz_capacity
          ∧ (∀ a, a < T → (vectorPositions I a).length < vect.nnz_capacity)
          ∧ r.container.stored.map Prod.fst = vectorPositions I T
          ∧ r.container.stored.map Prod.fst
              = (vectorPositions I fuel).take vect.nnz_capacity
          ∧ r.container.stored
              = ((vectorPositions I fuel).take vect.nnz_capacity).zip
                  ((List.range vect.nnz_capacity).map J)
          ∧ (∀ p ∈ r.container.stored.map Prod.fst, p < vect.size))
    ∧ ((SparseRandomizer_.randomizeMatrix (fun _ => replayIndex K) fuel matr (0, 0)
          (replayItem J)).isSome = true
        ↔ matr.nnz_capacity ≤ (matrixPositions K fuel).length)
    ∧ ((∃ n, (SparseRandomizer_.randomizeMatrix (fun _ => replayIndex K) n matr (0, 0)
          (replayItem J)).isSome = true)
        ↔ ∃ n, matr.nnz_capacity ≤ (matrixPositions K n).length)
    ∧ (∀ r, SparseRandomizer_.randomizeMatrix (fun _ => replayIndex K) fuel matr (0, 0)
          (replayItem J) = some r →
        ∃ T, T ≤ fuel ∧ r.indexDraws = 2 * T
          ∧ (matrixPositions K T).length = matr.nnz_capacity
          ∧ (∀ a, a < T → (matrixPositions K a).length < matr.nnz_capacity)
          ∧ r.container.stored.map Prod.fst = matrixPositions K T
          ∧ r.container.stored.map Prod.fst
              = (matrixPositions K fuel).take matr.nnz_capacity
          ∧ r.container.stored
              = ((matrixPositions K fuel).take matr.nnz_capacity).zip
                  ((List.range matr.nnz_capacity).map J)
          ∧ (∀ p ∈ r.container.stored.map Prod.fst, p.1 < matr.size1 ∧ p.2 < matr.size2)) := by
  have hv : ∀ n, ((SparseRandomizer_.randomizeVector (fun _ => replayIndex I) n vect (0, 0)
          (replayItem J)).isSome = true
        ↔ vect.nnz_capacity ≤ (vectorPositions I n).length) := by
    intro n
    obtain ⟨hyes, hno⟩ := randomizeVector_replay I J vect n
    constructor
    · intro h
      by_contra hcon
      rw [hno (by omega)] at h
      exact Bool.noConfusion h
    · intro h
      obtain ⟨T, _, _, _, e⟩ := hyes h
      rw [e]; rfl
  have hm : ∀ n, ((SparseRandomizer_.randomizeMatrix (fun _ => replayIndex K) n matr (0, 0)
          (replayItem J)).isSome = true
        ↔ matr.nnz_capacity ≤ (matrixPositions K n).length) := by
    intro n
    obtain ⟨hyes, hno⟩ := randomizeMatrix_replay K J matr n
    constructor
    · intro h
      by_contra hcon
      rw [hno (by omega)] at h
      exact Bool.noConfusion h
    · intro h
      obtain ⟨T, _, _, _, e⟩ := hyes h
      rw [e]; rfl
  refine ⟨hv fuel, ?_, ?_, hm fuel, ?_, ?_⟩
  · constructor
    · rintro ⟨n, h⟩
      exact ⟨n, (hv n).mp h⟩
    · rintro ⟨n, h⟩
      exact ⟨n, (hv n).mpr h⟩
  · intro r h
    have hk : vect.nnz_capacity ≤ (vectorPositions I fuel).length :=
      (hv fuel).mp (by rw [h]; rfl)
    obtain ⟨T, hT, e, hbefore, hres⟩ := (randomizeVector_replay I J vect fuel).1 hk
    rw [h] at hres
    have hr : r = (replayVector I J vect T).2 := Option.some.inj hres
    obtain ⟨_, h2, h3, _, h5, _⟩ := replayVector_running I J vect T hbefore
    have htake : vectorPositions I T = (vectorPositions I fuel).take vect.nnz_capacity := by
      have hp := List.prefix_iff_eq_take.mp (vectorPositions_initial I T fuel hT)
      rw [e] at hp
      exact hp
    rw [hr]
    refine ⟨T, hT, h5, e, hbefore, h2, h2.trans htake, ?_, ?_⟩
    · rw [e] at h3
      exact List.zip_of_prod (h2.trans htake) h3
    · intro p hp
      rw [h2] at hp
      have hmem := (mem_firstOccurrences _ _).mp hp
      simp only [List.mem_map, List.mem_range] at hmem
      obtain ⟨a, _, ea⟩ := hmem
      rw [← ea]
      exact hvect a
  · constructor
    · rintro ⟨n, h⟩
      exact ⟨n, (hm n).mp h⟩
    · rintro ⟨n, h⟩
      exact ⟨n, (hm n).mpr h⟩
  · intro r h
    have hk : matr.nnz_capacity ≤ (matrixPositions K fuel).length :=
      (hm fuel).mp (by rw [h]; rfl)
    obtain ⟨T, hT, e, hbefore, hres⟩ := (randomizeMatrix_replay K J matr fuel).1 hk
    rw [h] at hres
    have hr : r = (replayMatrix K J matr T).2 := Option.some.inj hres
    obtain ⟨_, h2, h3, _, h5, _⟩ := replayMatrix_running K J matr T hbefore
    have htake : matrixPositions K T = (matrixPositions K fuel).take matr.nnz_capacity := by
      have hp := List.prefix_iff_eq_take.mp (matrixPositions_initial K T fuel hT)
      rw [e] at hp
      exact hp
    rw [hr]
    refine ⟨T, hT, h5, e, hbefore, h2, h2.trans htake, ?_, ?_⟩
    · rw [e] at h3
      exact List.zip_of_prod (h2.trans htake) h3
    · intro p hp
      rw [h2] at hp
      have hmem := (mem_firstOccurrences _ _).mp hp
      simp only [List.mem_map, List.mem_range] at hmem
      obtain ⟨a, _, ea⟩ := hmem
      rw [← ea]
      exact hmatr a

theorem sparse_fill_stores_the_first_distinct_positions_witness :
    SparseRandomizer_.randomizeVector (fun _ => replayIndex (fun n => (n / 2) % 3)) 5
        ⟨3, 2, [(0, 7)]⟩ (0, 0) (replayItem (fun t => t + 10))
      = some ⟨⟨3, 2, [(0, 10), (1, 11)]⟩, (3, 2), 2, 3, [(0, 10), (1, 11)]⟩ ∧
    (SparseRandomizer_.randomizeVector (fun _ => replayIndex (fun n => (n / 2) % 3)) 2
        ⟨3, 2, [(0, 7)]⟩ (0, 0) (replayItem (fun t => t + 10))).isSome = false ∧
    (([(0, 10), (1, 11)] : List (Nat × Nat)).map Prod.fst
        = (vectorPositions (fun n => (n / 2) % 3) 5).take 2
      ∧ ([(0, 10), (1, 11)] : List (Nat × Nat))
        = ((vectorPositions (fun n => (n / 2) % 3) 5).take 2).zip
            ((List.range 2).map (fun t => t + 10))) :=
  ⟨rfl, rfl,
   ((sparse_fill_stores_the_first_distinct_positions (fun n => (n / 2) % 3)
      (fun n => (n / 2) % 2) (fun t => t + 10)
      (⟨3, 2, [(0, 7)]⟩ : SparseVector Nat) (⟨2, 2, 2, []⟩ : SparseMatrix Nat) 5
      (fun _ => Nat.mod_lt _ (by decide))
      (fun _ => ⟨Nat.mod_lt _ (by decide), Nat.mod_lt _ (by decide)⟩)).2.2.1
      ⟨⟨3, 2, [(0, 10), (1, 11)]⟩, (3, 2), 2, 3, [(0, 10), (1, 11)]⟩ (by rfl)).elim
    (fun _ h => ⟨h.2.2.2.2.2.1, h.2.2.2.2.2.2.1⟩)⟩

/-- C29: the outcome of a fill is determined by the container, the engine
state and the values its distributions yield on the engine states the fill
can pass through, and by nothing else.  Two fills by the same strategy
started from equal containers and equal engine states, with item
distributions and index distribution creators that agree on a set of engine
states which holds the start state and is closed under the draws, end alike:
both are rejected, both are still running after the allotted iterations, or
both return with equal containers, equal final engine states and equal draw
counts; likewise through the facade.  With equal distributions the set of all
engine states serves. -/
theorem fills_are_determined_by_container_engine_and_draws {σ V : Type}
    (w : Nat) (conj real : V → V) (fuel : Nat)
    (create otherCreate : Option (Nat → σ → Nat × σ)) (s : Strategy)
    (container other : Container V) (engine otherEngine : σ)
    (itemDist otherDist : σ → V × σ) (R : σ → Prop)
    (hc : container = other) (he : engine = otherEngine)
    (hstart : R engine)
    (hitem : ∀ x, R x → R (itemDist x).2)
    (hindex : ∀ c, create = some c → ∀ n x, R x → R (c n x).2)
    (hsame : ∀ x, R x → itemDist x = otherDist x)
    (hboth : create.isSome = otherCreate.isSome)
    (hsameIndex : ∀ c c2, create = some c → otherCreate = some c2 →
      ∀ n x, R x → c n x = c2 n x) :
    s.run ⟨w, create, conj, real, fuel⟩ container engine itemDist
      = s.run ⟨w, otherCreate, conj, real, fuel⟩ other otherEngine otherDist ∧
    (∀ (dispatchRandomizer : DispatchRandomizer σ V) (t : CType),
      RandomGenerator.call dispatchRandomizer ⟨w, create, conj, real, fuel⟩
          ⟨engine, itemDist⟩ t container
        = RandomGenerator.call dispatchRandomizer ⟨w, otherCreate, conj, real, fuel⟩
          ⟨otherEngine, otherDist⟩ t other) := by
  subst hc he
  refine ⟨strategy_run_agree w conj real fuel create otherCreate s container engine itemDist
    otherDist R hstart hitem hindex hsame hboth hsameIndex, ?_⟩
  intro _ t
  unfold RandomGenerator.call StdDispatchRandomizer.randomize
  cases Dispatch_ t with
  | none => rfl
  | some s2 =>
    exact strategy_run_agree w conj real fuel create otherCreate s2 container engine itemDist
      otherDist R hstart hitem hindex hsame hboth hsameIndex

theorem fills_are_determined_by_container_engine_and_draws_witness :
    Strategy.run ⟨64, some modCreate, id, id, 16⟩ .sparseVector
        (.sparseVector ⟨3, 2, [(0, 7)]⟩) 5 counterDie
      = Strategy.run
        ⟨64, some (fun n e => if e < 5 then (0, 0) else (e % n, e + 1)), id, id, 16⟩
        .sparseVector (.sparseVector ⟨3, 2, [(0, 7)]⟩) 5
        (fun e => if e < 5 then (0, 0) else (e, e + 1)) ∧
    counterDie 0 ≠ (fun e : Nat => if e < 5 then ((0 : Nat), (0 : Nat)) else (e, e + 1)) 0 :=
  ⟨(fills_are_determined_by_container_engine_and_draws 64 id id 16 (some modCreate)
      (some (fun n e => if e < 5 then (0, 0) else (e % n, e + 1))) .sparseVector
      (.sparseVector ⟨3, 2, [(0, 7)]⟩) (.sparseVector ⟨3, 2, [(0, 7)]⟩) 5 5 counterDie
      (fun e => if e < 5 then (0, 0) else (e, e + 1)) (fun x => 5 ≤ x) rfl rfl
      (Nat.le_refl 5)
      (fun _ hx => Nat.le_succ_of_le hx)
      (fun _ hc _ _ hx => by cases hc; exact Nat.le_succ_of_le hx)
      (fun _ hx => (if_neg (Nat.not_lt.mpr hx)).symm)
      rfl
      (fun _ _ h1 h2 _ _ hx => by
        cases h1; cases h2; exact (if_neg (Nat.not_lt.mpr hx)).symm)).1,
   by decide⟩

/-- C30: on a square `n x n` container the Lower, Upper, Symmetric and
Hermitian fills consume exactly `n (n + 1) / 2` item draws and the UnitLower
and UnitUpper fills exactly `n (n - 1) / 2`; on a general `m x n` container
the Lower fill consumes the sum over `i < m` of `min (i + 1) n` item draws. -/
theorem triangular_fills_draw_counts {σ M V : Type} (acc : MatrixAccess M V) (real : V → V)
    (matr : M) (engine : σ) (itemDist : σ → V × σ) (n : Nat)
    (h1 : acc.size1 matr = n) (h2 : acc.size2 matr = n) :
    (TriangleRandomizer_.randomizeLower acc matr engine itemDist).itemDraws
      = n * (n + 1) / 2 ∧
    (TriangleRandomizer_.randomizeUpper acc matr engine itemDist).itemDraws
      = n * (n + 1) / 2 ∧
    (SymmetricRandomizer_.randomize acc matr engine itemDist).itemDraws
      = n * (n + 1) / 2 ∧
    (HermitianRandomizer_.randomize acc real matr engine itemDist).itemDraws
      = n * (n + 1) / 2 ∧
    (TriangleRandomizer_.randomizeUnitLower acc matr engine itemDist).itemDraws
      = n * (n - 1) / 2 ∧
    (TriangleRandomizer_.randomizeUnitUpper acc matr engine itemDist).itemDraws
      = n * (n - 1) / 2 ∧
    (∀ (general : M),
      (TriangleRandomizer_.randomizeLower acc general engine itemDist).itemDraws
        = ((List.range (acc.size1 general)).map
            (fun i => min (i + 1) (acc.size2 general))).sum) := by
  refine ⟨?_, ?_, ?_, ?_, ?_, ?_, ?_⟩
  · rw [randomizeLower_eq, itemDraws_fillAt_rows, h1, h2,
      sum_range'_congr _ (fun i => i + 1) n (fun i hi => by dsimp only; omega)]
    exact sum_succ_eq n
  · rw [randomizeUpper_eq, itemDraws_fillAt_rows, h1, h2]
    exact sum_rev_eq n
  · rw [symmetric_randomize_eq, itemDraws_fillAt_rows, h1]
    exact sum_succ_eq n
  · rw [hermitian_randomize_eq, itemDraws_fillAt_rows, h1]
    exact sum_succ_eq n
  · rw [randomizeUnitLower_eq, itemDraws_fillAt_rows, h1, h2,
      sum_range'_congr _ (fun i => i) n (fun i hi => by dsimp only; omega)]
    exact sum_id_eq n
  · rw [randomizeUnitUpper_eq, itemDraws_fillAt_rows, h1, h2]
    exact sum_rev_pred_eq n
  · intro general
    rw [randomizeLower_eq, itemDraws_fillAt_rows, List.range_eq_range']
    exact sum_range'_congr _ _ _ (fun i _ => Nat.min_comm _ _)

theorem triangular_fills_draw_counts_witness :
    (TriangleRandomizer_.randomizeUnitUpper (DenseMatrix.access Nat) ⟨4, 4, fun _ _ => 0⟩ 0
        counterDie).itemDraws = 4 * (4 - 1) / 2 :=
  (triangular_fills_draw_counts (DenseMatrix.access Nat) id ⟨4, 4, fun _ _ => 0⟩ 0
    counterDie 4 rfl rfl).2.2.2.2.2.1

/-- C31: the Symmetric and the Hermitian fill assign exactly the positions
`(i, j)` with `i < size1` and `j <= i`, whatever `size2` is; so every position
they assign is in range (`i < size1` and `j < size2`) if and only if
`size1 <= size2`, and in particular on every square container. -/
theorem mirrored_fills_stay_in_range_iff_rows_at_most_columns {σ M V : Type}
    (acc : MatrixAccess M V) (real : V → V) (matr : M) (engine : σ) (itemDist : σ → V × σ) :
    (∀ i j, (i, j) ∈ (SymmetricRandomizer_.randomize acc matr engine itemDist).writes.map
          Prod.fst ↔ i < acc.size1 matr ∧ j ≤ i) ∧
    (∀ i j, (i, j) ∈ (HermitianRandomizer_.randomize acc real matr engine
          itemDist).writes.map Prod.fst ↔ i < acc.size1 matr ∧ j ≤ i) ∧
    ((∀ p ∈ (SymmetricRandomizer_.randomize acc matr engine itemDist).writes.map Prod.fst,
        p.1 < acc.size1 matr ∧ p.2 < acc.size2 matr) ↔ acc.size1 matr ≤ acc.size2 matr) ∧
    ((∀ p ∈ (HermitianRandomizer_.randomize acc real matr engine itemDist).writes.map
          Prod.fst,
        p.1 < acc.size1 matr ∧ p.2 < acc.size2 matr) ↔ acc.size1 matr ≤ acc.size2 matr) ∧
    (acc.size1 matr = acc.size2 matr →
      (∀ p ∈ (SymmetricRandomizer_.randomize acc matr engine itemDist).writes.map Prod.fst,
        p.1 < acc.size1 matr ∧ p.2 < acc.size2 matr) ∧
      (∀ p ∈ (HermitianRandomizer_.randomize acc real matr engine itemDist).writes.map
          Prod.fst,
        p.1 < acc.size1 matr ∧ p.2 < acc.size2 matr)) := by
  have hmem : ∀ i j, (i, j) ∈ rowsCols (acc.size1 matr) (fun i => List.range' 0 (i + 1))
      ↔ i < acc.size1 matr ∧ j ≤ i := by
    intro i j
    rw [mem_rowsCols, List.mem_range'_1]
    constructor
    · rintro ⟨h1, _, h2⟩
      exact ⟨h1, by omega⟩
    · rintro ⟨h1, h2⟩
      exact ⟨h1, Nat.zero_le _, by omega⟩
  rw [symmetric_positions, hermitian_positions]
  refine ⟨hmem, hmem, lower_positions_in_range_iff _ _, lower_positions_in_range_iff _ _, ?_⟩
  intro hsq
  exact ⟨(lower_positions_in_range_iff _ _).mpr (by omega),
    (lower_positions_in_range_iff _ _).mpr (by omega)⟩

theorem mirrored_fills_stay_in_range_iff_rows_at_most_columns_witness :
    (2, 2) ∈ (SymmetricRandomizer_.randomize (DenseMatrix.access Nat)
        ⟨3, 2, fun _ _ => 0⟩ 0 counterDie).writes.map Prod.fst ∧
    ¬ (3 ≤ 2) ∧ ((2 : Nat) < 3 ∧ (2 : Nat) < 3) :=
  ⟨by decide, by decide,
   ((mirrored_fills_stay_in_range_iff_rows_at_most_columns (DenseMatrix.access Nat) id
      ⟨3, 3, fun _ _ => 0⟩ 0 counterDie).2.2.2.2 rfl).1 (2, 2) (by decide)⟩

/-- C32: for an element type on which taking the real part is the identity,
the Hermitian fill is the Symmetric fill: on every container, engine state
and distribution the two runs are equal, so they make the same assignments
in the same order with the same values, leave the same container and the
same engine state, and make the same number of draws. -/
theorem hermitian_fill_is_symmetric_fill_on_real_elements {σ M V : Type}
    (acc : MatrixAccess M V) (real : V → V) (matr : M) (engine : σ) (itemDist : σ → V × σ)
    (hreal : ∀ v, real v = v) :
    HermitianRandomizer_.randomize acc real matr engine itemDist
      = SymmetricRandomizer_.randomize acc matr engine itemDist ∧
    (HermitianRandomizer_.randomize acc real matr engine itemDist).writes
      = (SymmetricRandomizer_.randomize acc matr engine itemDist).writes ∧
    (HermitianRandomizer_.randomize acc real matr engine itemDist).engine
      = (SymmetricRandomizer_.randomize acc matr engine itemDist).engine ∧
    (HermitianRandomizer_.randomize acc real matr engine itemDist).container
      = (SymmetricRandomizer_.randomize acc matr engine itemDist).container ∧
    (HermitianRandomizer_.randomize acc real matr engine itemDist).itemDraws
      = (SymmetricRandomizer_.randomize acc matr engine itemDist).itemDraws := by
  have h := hermitian_eq_symmetric acc real matr engine itemDist hreal
  exact ⟨h, by rw [h], by rw [h], by rw [h], by rw [h]⟩

theorem hermitian_fill_is_symmetric_fill_on_real_elements_witness :
    (HermitianRandomizer_.randomize (MirroredMatrix.access id) id
        (MirroredMatrix.mk 3 (fun _ _ => 0)) 0 counterDie).writes
      = (SymmetricRandomizer_.randomize (MirroredMatrix.access id)
        (MirroredMatrix.mk 3 (fun _ _ => 0)) 0 counterDie).writes ∧
    (SymmetricRandomizer_.randomize (MirroredMatrix.access id)
        (MirroredMatrix.mk 3 (fun _ _ => 0)) 0 counterDie).writes
      = [((0, 0), 0), ((1, 0), 1), ((1, 1), 2), ((2, 0), 3), ((2, 1), 4), ((2, 2), 5)] :=
  ⟨(hermitian_fill_is_symmetric_fill_on_real_elements (MirroredMatrix.access id) id
      (MirroredMatrix.mk 3 (fun _ _ => 0)) 0 counterDie (fun _ => rfl)).2.1, by decide⟩

/-- C33: whatever the matrix formatter returns is the text written before,
then the header `[m, n]` and a line feed, then a body that ends with `)`,
then a line feed if and only if `isLineFeedAfterAll` is set; for a matrix
without rows the body is exactly `()` in every placing mode and for every
`minSpaces`; and the formatter returns in every mode when `minSpaces` is not
negative. -/
theorem matrix_outputer_writes_header_body_and_final_line_feed {V : Type}
    (o : MatrixNiceOutputer) (render : V → Text) (renderSize : Nat → Text) (written : Text)
    (matrix : DenseMatrix V) :
    (∀ text, o.call render renderSize (some written) matrix = some text →
      ∃ inner, text = written
        ++ (['['] ++ renderSize matrix.size1 ++ [',', ' '] ++ renderSize matrix.size2
            ++ [']', '\n'])
        ++ (inner ++ [')'])
        ++ (if o.isLineFeedAfterAll_ then ['\n'] else [])) ∧
    (matrix.size1 = 0 →
      o.call render renderSize (some written) matrix
        = some (written
          ++ (['['] ++ renderSize matrix.size1 ++ [',', ' '] ++ renderSize matrix.size2
              ++ [']', '\n'])
          ++ ['(', ')']
          ++ (if o.isLineFeedAfterAll_ then ['\n'] else []))) ∧
    (0 ≤ o.minSpaces_ → (o.call render renderSize (some written) matrix).isSome = true) := by
  refine ⟨?_, ?_, ?_⟩
  · intro text h
    unfold MatrixNiceOutputer.call at h
    simp only [put_some] at h
    generalize hb : (if matrix.size1 = 0 then
        some (written ++ (['['] ++ renderSize matrix.size1 ++ [',', ' ']
          ++ renderSize matrix.size2 ++ [']', '\n']) ++ ['(', ')'])
      else if o.placing_ = .SIMPLE then
        o.doSimply render (some (written ++ (['['] ++ renderSize matrix.size1 ++ [',', ' ']
          ++ renderSize matrix.size2 ++ [']', '\n']))) matrix
      else if o.placing_ = .BY_COLUMNS then
        o.doJustifiedColumns render (some (written ++ (['['] ++ renderSize matrix.size1
          ++ [',', ' '] ++ renderSize matrix.size2 ++ [']', '\n']))) matrix
      else if o.placing_ = .BY_EQUALWIDTH_COLUMNS then
        o.doEqualWidthColumns render (some (written ++ (['['] ++ renderSize matrix.size1
          ++ [',', ' '] ++ renderSize matrix.size2 ++ [']', '\n']))) matrix
      else some (written ++ (['['] ++ renderSize matrix.size1 ++ [',', ' ']
          ++ renderSize matrix.size2 ++ [']', '\n']))) = body at h
    cases body with
    | none =>
      cases o.isLineFeedAfterAll_ <;> simp [put] at h
    | some y =>
      obtain ⟨inner, e⟩ := matrixBody_appends o render matrix _ y hb
      refine ⟨inner, ?_⟩
      cases hl : o.isLineFeedAfterAll_ with
      | false =>
        rw [hl] at h
        simp only [Bool.false_eq_true, if_false, Option.some.injEq] at h
        rw [← h, e]
        simp
      | true =>
        rw [hl] at h
        simp only [if_true, put_some, Option.some.injEq] at h
        rw [← h, e]
        simp
  · intro hm
    unfold MatrixNiceOutputer.call
    simp only [hm, if_true, put_some]
    cases o.isLineFeedAfterAll_ <;> simp [put_some]
  · intro hmin
    unfold MatrixNiceOutputer.call
    obtain ⟨y, hy⟩ := matrixBody_returns o render matrix
      (written ++ (['['] ++ renderSize matrix.size1 ++ [',', ' ']
        ++ renderSize matrix.size2 ++ [']', '\n'])) hmin
    simp only [put_some] at hy ⊢
    rw [hy]
    cases o.isLineFeedAfterAll_ <;> simp [put_some]

theorem matrix_outputer_writes_header_body_and_final_line_feed_witness :
    (MatrixNiceOutputer.mk ⟨-3, true⟩ .BY_COLUMNS).call (fun n : Nat => List.replicate n 'x')
        (fun n : Nat => List.replicate n 'i') (some ['>']) ⟨0, 2, fun _ _ => 5⟩
      = some ['>', '[', ',', ' ', 'i', 'i', ']', '\n', '(', ')', '\n'] ∧
    ((MatrixNiceOutputer.mk ⟨1, false⟩ .SIMPLE).call (fun n : Nat => List.replicate n 'x')
        (fun n : Nat => List.replicate n 'i') (some ['>']) ⟨2, 2, fun _ _ => 1⟩).isSome
      = true :=
  ⟨((matrix_outputer_writes_header_body_and_final_line_feed
      (MatrixNiceOutputer.mk ⟨-3, true⟩ .BY_COLUMNS) (fun n : Nat => List.replicate n 'x')
      (fun n : Nat => List.replicate n 'i') ['>'] ⟨0, 2, fun _ _ => 5⟩).2.1 rfl).trans
      (by decide),
   (matrix_outputer_writes_header_body_and_final_line_feed
      (MatrixNiceOutputer.mk ⟨1, false⟩ .SIMPLE) (fun n : Nat => List.replicate n 'x')
      (fun n : Nat => List.replicate n 'i') ['>'] ⟨2, 2, fun _ _ => 1⟩).2.2 (by decide)⟩

/-- C34: for a matrix with at least one row and a count `minSpaces` (not
negative), the matrix formatter in `BY_EQUALWIDTH_COLUMNS` mode returns,
having appended the header and the framed rows of the equal-width layout
(and the final line feed if asked).  The one width `w` is the greatest
rendered length over all elements of the matrix; in the body of row `i`,
element `(i, j)` starts at offset `1 + j (w + 1 + minSpaces)`; an element
that is not the last of its row is followed by a comma and padding, together
with them `w + 1 + minSpaces` characters; the last element of a row is
followed by padding up to `w` characters and the closing `)`, whatever the
greatest length in the last column is. -/
theorem equal_width_columns_share_one_width {V : Type} (o : MatrixNiceOutputer)
    (render : V → Text) (renderSize : Nat → Text) (written : Text) (matrix : DenseMatrix V)
    (hm : 1 ≤ matrix.size1) (hmin : 0 ≤ o.minSpaces_)
    (hp : o.placing_ = .BY_EQUALWIDTH_COLUMNS) :
    o.call render renderSize (some written) matrix
      = some (written
          ++ (['['] ++ renderSize matrix.size1 ++ [',', ' '] ++ renderSize matrix.size2
              ++ [']', '\n'])
          ++ framedRows matrix.size1 (equalWidthBody o.minSpaces_.toNat render matrix)
          ++ (if o.isLineFeedAfterAll_ then ['\n'] else []))
    ∧ (∀ i j, i < matrix.size1 → j < matrix.size2 →
        (render (matrix.elem i j)).length ≤ matrixWidth render matrix)
    ∧ (1 ≤ matrix.size2 → ∃ i j, i < matrix.size1 ∧ j < matrix.size2
        ∧ (render (matrix.elem i j)).length = matrixWidth render matrix)
    ∧ (∀ i j, i < matrix.size1 → j < matrix.size2 →
        ∃ before after,
          equalWidthBody o.minSpaces_.toNat render matrix i
              = before ++ render (matrix.elem i j) ++ after
          ∧ before.length = 1 + j * (matrixWidth render matrix + 1 + o.minSpaces_.toNat)
          ∧ (j + 1 < matrix.size2 → ∃ rest,
              after = ',' :: List.replicate
                  (matrixWidth render matrix - (render (matrix.elem i j)).length
                    + o.minSpaces_.toNat) ' ' ++ rest)
          ∧ (j + 1 = matrix.size2 →
              after = List.replicate
                  (matrixWidth render matrix - (render (matrix.elem i j)).length) ' '
                ++ [')']))
    ∧ (∀ i j, i < matrix.size1 → j + 1 < matrix.size2 →
        (render (matrix.elem i j) ++ ',' :: List.replicate
            (matrixWidth render matrix - (render (matrix.elem i j)).length
              + o.minSpaces_.toNat) ' ').length
          = matrixWidth render matrix + 1 + o.minSpaces_.toNat)
    ∧ (∀ i j, i < matrix.size1 → j + 1 = matrix.size2 →
        (render (matrix.elem i j) ++ List.replicate
            (matrixWidth render matrix - (render (matrix.elem i j)).length) ' ').length
          = matrixWidth render matrix) := by
  refine ⟨?_, ?_, ?_, ?_, ?_, ?_⟩
  · unfold MatrixNiceOutputer.call
    have h0 : ¬ matrix.size1 = 0 := by omega
    simp only [h0, hp, if_false, if_true, reduceCtorEq, put_some,
      doEqualWidthColumns_eq o render matrix _ hmin]
    cases o.isLineFeedAfterAll_ <;> simp [put_some]
  · intro i j hi hj
    exact le_matrixWidth render matrix i j hi hj
  · intro hn
    exact matrixWidth_attained render matrix hm hn
  · intro i j hi hj
    exact equalWidthBody_split _ render matrix i j hi hj
  · intro i j hi hj
    exact equalWidthCell_length _ render matrix i j hi (by omega)
  · intro i j hi hj
    have hle := le_matrixWidth render matrix i j hi (by omega)
    simp only [List.length_append, List.length_replicate]
    omega

theorem equal_width_columns_share_one_width_witness :
    (MatrixNiceOutputer.mk ⟨1, false⟩ .BY_EQUALWIDTH_COLUMNS).call
        (fun n : Nat => List.replicate n 'x') (fun n : Nat => List.replicate n 'i') (some [])
        ⟨2, 2, fun i j => if i = 0 ∧ j = 0 then 3 else 1⟩
      = some ['[', 'i', 'i', ',', ' ', 'i', 'i', ']', '\n',
          '(', '(', 'x', 'x', 'x', ',', ' ', 'x', ' ', ' ', ')', ',', '\n',
          ' ', '(', 'x', ',', ' ', ' ', ' ', 'x', ' ', ' ', ')', ')'] :=
  (equal_width_columns_share_one_width (MatrixNiceOutputer.mk ⟨1, false⟩ .BY_EQUALWIDTH_COLUMNS)
    (fun n : Nat => List.replicate n 'x') (fun n : Nat => List.replicate n 'i') []
    ⟨2, 2, fun i j => if i = 0 ∧ j = 0 then 3 else 1⟩ (by decide) (by decide) rfl).1.trans
    (by decide)

/-- C35: for a matrix with at least one row, the matrix formatter in `SIMPLE`
mode appends the header and the framed rows (and the final line feed if
asked), where the body of row `i` is the text the row writer
`outputRowSimply` appends for the vector `row(matrix, i)`: `(` stands before
the first row and one space before every later row, a comma and a line feed
after each row but the last, and `)` after the last.  For a count
`minSpaces` (not negative) the body of a row is `(`, its rendered elements
separated by a comma and `minSpaces` spaces, and `)`. -/
theorem simple_mode_writes_rows_as_vectors {V : Type} (o : MatrixNiceOutputer)
    (render : V → Text) (renderSize : Nat → Text) (written : Text) (matrix : DenseMatrix V)
    (hm : 1 ≤ matrix.size1) (hp : o.placing_ = .SIMPLE) :
    (∀ rowText : Nat → Text,
      (∀ i, i < matrix.size1 → ∀ x,
        o.toBaseNiceOutputer.outputRowSimply render (some x) (matrix.row i)
          = some (x ++ rowText i)) →
      o.call render renderSize (some written) matrix
        = some (written
            ++ (['['] ++ renderSize matrix.size1 ++ [',', ' '] ++ renderSize matrix.size2
                ++ [']', '\n'])
            ++ (List.range matrix.size1).flatMap (fun i =>
                (if i = 0 then ['('] else [' ']) ++ rowText i
                  ++ (if i + 1 = matrix.size1 then [')'] else [',', '\n']))
            ++ (if o.isLineFeedAfterAll_ then ['\n'] else []))) ∧
    (0 ≤ o.minSpaces_ →
      o.call render renderSize (some written) matrix
        = some (written
            ++ (['['] ++ renderSize matrix.size1 ++ [',', ' '] ++ renderSize matrix.size2
                ++ [']', '\n'])
            ++ (List.range matrix.size1).flatMap (fun i =>
                (if i = 0 then ['('] else [' '])
                  ++ (['('] ++ List.intercalate (',' :: List.replicate o.minSpaces_.toNat ' ')
                        ((List.range matrix.size2).map (fun j => render (matrix.elem i j)))
                      ++ [')'])
                  ++ (if i + 1 = matrix.size1 then [')'] else [',', '\n']))
            ++ (if o.isLineFeedAfterAll_ then ['\n'] else []))) := by
  have h0 : ¬ matrix.size1 = 0 := by omega
  have key : ∀ rowText : Nat → Text,
      (∀ i, i < matrix.size1 → ∀ x,
        o.toBaseNiceOutputer.outputRowSimply render (some x) (matrix.row i)
          = some (x ++ rowText i)) →
      o.call render renderSize (some written) matrix
        = some (written
            ++ (['['] ++ renderSize matrix.size1 ++ [',', ' '] ++ renderSize matrix.size2
                ++ [']', '\n'])
            ++ (List.range matrix.size1).flatMap (fun i =>
                (if i = 0 then ['('] else [' ']) ++ rowText i
                  ++ (if i + 1 = matrix.size1 then [')'] else [',', '\n']))
            ++ (if o.isLineFeedAfterAll_ then ['\n'] else [])) := by
    intro rowText hrow
    unfold MatrixNiceOutputer.call
    simp only [h0, hp, if_false, if_true, put_some,
      doSimply_eq o render matrix rowText _ hrow, framedRows]
    cases o.isLineFeedAfterAll_ <;> simp [put_some]
  refine ⟨key, ?_⟩
  intro hmin
  exact key _ (fun i _ x => outputRowSimply_eq o.toBaseNiceOutputer render x (matrix.row i) hmin)

theorem simple_mode_writes_rows_as_vectors_witness :
    (MatrixNiceOutputer.mk ⟨1, false⟩ .SIMPLE).call
        (fun n : Nat => List.replicate n 'x') (fun n : Nat => List.replicate n 'i') (some [])
        ⟨2, 2, fun i j => if i = 0 ∧ j = 0 then 3 else 1⟩
      = some ['[', 'i', 'i', ',', ' ', 'i', 'i', ']', '\n',
          '(', '(', 'x', 'x', 'x', ',', ' ', 'x', ')', ',', '\n',
          ' ', '(', 'x', ',', ' ', 'x', ')', ')'] :=
  ((simple_mode_writes_rows_as_vectors (MatrixNiceOutputer.mk ⟨1, false⟩ .SIMPLE)
    (fun n : Nat => List.replicate n 'x') (fun n : Nat => List.replicate n 'i') []
    ⟨2, 2, fun i j => if i = 0 ∧ j = 0 then 3 else 1⟩ (by decide) rfl).2 (by decide)).trans
    (by decide)

/-- C36: type substitution is absorbing and has an identity.  Whether a
container type is supported does not depend on the new element type; for a
supported container type `c`, substituting `b` in the answer for `a` gives
the answer for `b`; and for a supported container type `c` without
cv-qualifiers whose element type is `e`, the answer for `e` is `c` itself. -/
theorem replace_is_absorbing_and_has_an_identity (c a b e : CType) :
    ((TypeReplacer.Replace c a).isSome = (TypeReplacer.Replace c b).isSome) ∧
    (∀ x, TypeReplacer.Replace c a = some x →
      TypeReplacer.Replace x b = TypeReplacer.Replace c b) ∧
    (remove_cv c = c → value_type c = some e → (TypeReplacer.Replace c a).isSome = true →
      TypeReplacer.Replace c e = some c) := by
  refine ⟨replaceBackend_isSome_any a b (remove_cv c), ?_, ?_⟩
  · intro x h
    unfold TypeReplacer.Replace at h ⊢
    rw [replaceBackend_answer_unqualified _ a x h]
    exact replaceBackend_absorbs a b _ x h
  · intro hcv hv hs
    unfold TypeReplacer.Replace at hs ⊢
    rw [hcv] at hs ⊢
    rw [replaceBackend_isSome_any a e c] at hs
    cases hx : TypeReplacer.ReplaceBackend c e with
    | none => rw [hx] at hs; exact Bool.noConfusion hs
    | some x => rw [replaceBackend_of_value_type c e x hv hx]

theorem replace_is_absorbing_and_has_an_identity_witness :
    TypeReplacer.Replace
        (.triangular_adaptor (.matrix (.named "float") (.named "row_major") (.named "S"))
          .lower) (.named "int")
      = TypeReplacer.Replace
        (.const_ (.triangular_adaptor
          (.matrix (.named "double") (.named "row_major") (.named "S")) .lower))
        (.named "int") ∧
    TypeReplacer.Replace
        (.triangular_adaptor (.matrix (.named "double") (.named "row_major") (.named "S"))
          .lower) (.named "double")
      = some (.triangular_adaptor
          (.matrix (.named "double") (.named "row_major") (.named "S")) .lower) :=
  ⟨(replace_is_absorbing_and_has_an_identity
      (.const_ (.triangular_adaptor
        (.matrix (.named "double") (.named "row_major") (.named "S")) .lower))
      (.named "float") (.named "int") (.named "double")).2.1
      (.triangular_adaptor (.matrix (.named "float") (.named "row_major") (.named "S"))
        .lower) rfl,
   (replace_is_absorbing_and_has_an_identity
      (.triangular_adaptor (.matrix (.named "double") (.named "row_major") (.named "S"))
        .lower)
      (.named "float") (.named "int") (.named "double")).2.2 rfl rfl rfl⟩

/-- C37: the substitution changes the element-type argument only.  For every
container template with a `Storage`, `Alloc`, `IndexArray` or `ItemArray`
argument the answer carries that argument as it stands, whatever it is; so
the answer for a vector or a matrix over a storage differs from the same
template over any other storage, in particular from the one over the storage
rebound to the new element type. -/
theorem replace_carries_storage_arguments_verbatim
    (item new tag orientation storage alloc indexArray itemArray other : CType) (ib : Nat) :
    (TypeReplacer.Replace (.vector item storage) new = some (.vector new storage) ∧
      TypeReplacer.Replace (.zero_vector item alloc) new = some (.zero_vector new alloc) ∧
      TypeReplacer.Replace (.unit_vector item alloc) new = some (.unit_vector new alloc) ∧
      TypeReplacer.Replace (.scalar_vector item alloc) new = some (.scalar_vector new alloc) ∧
      TypeReplacer.Replace (.mapped_vector item storage) new
        = some (.mapped_vector new storage) ∧
      TypeReplacer.Replace (.compressed_vector item ib indexArray itemArray) new
        = some (.compressed_vector new ib indexArray itemArray) ∧
      TypeReplacer.Replace (.coordinate_vector item ib indexArray itemArray) new
        = some (.coordinate_vector new ib indexArray itemArray)) ∧
    (TypeReplacer.Replace (.matrix item orientation storage) new
        = some (.matrix new orientation storage) ∧
      TypeReplacer.Replace (.vector_of_vector item orientation storage) new
        = some (.vector_of_vector new orientation storage) ∧
      TypeReplacer.Replace (.zero_matrix item alloc) new = some (.zero_matrix new alloc) ∧
      TypeReplacer.Replace (.identity_matrix item alloc) new
        = some (.identity_matrix new alloc) ∧
      TypeReplacer.Replace (.scalar_matrix item alloc) new = some (.scalar_matrix new alloc) ∧
      TypeReplacer.Replace (.triangular_matrix item tag orientation storage) new
        = some (.triangular_matrix new tag orientation storage) ∧
      TypeReplacer.Replace (.symmetric_matrix item tag orientation storage) new
        = some (.symmetric_matrix new tag orientation storage) ∧
      TypeReplacer.Replace (.hermitian_matrix item tag orientation storage) new
        = some (.hermitian_matrix new tag orientation storage) ∧
      TypeReplacer.Replace (.banded_matrix item orientation storage) new
        = some (.banded_matrix new orientation storage)) ∧
    (TypeReplacer.Replace (.mapped_matrix item orientation storage) new
        = some (.mapped_matrix new orientation storage) ∧
      TypeReplacer.Replace (.compressed_matrix item orientation ib indexArray itemArray) new
        = some (.compressed_matrix new orientation ib indexArray itemArray) ∧
      TypeReplacer.Replace (.coordinate_matrix item orientation ib indexArray itemArray) new
        = some (.coordinate_matrix new orientation ib indexArray itemArray) ∧
      TypeReplacer.Replace (.generalized_vector_of_vector item orientation storage) new
        = some (.generalized_vector_of_vector new orientation storage)) ∧
    (storage ≠ other →
      TypeReplacer.Replace (.vector item storage) new ≠ some (.vector new other) ∧
      TypeReplacer.Replace (.matrix item orientation storage) new
        ≠ some (.matrix new orientation other) ∧
      TypeReplacer.Replace (.mapped_vector item storage) new
        ≠ some (.mapped_vector new other)) ∧
    (itemArray ≠ other →
      TypeReplacer.Replace (.compressed_vector item ib indexArray itemArray) new
        ≠ some (.compressed_vector new ib indexArray other) ∧
      TypeReplacer.Replace (.compressed_matrix item orientation ib indexArray itemArray) new
        ≠ some (.compressed_matrix new orientation ib indexArray other)) := by
  refine ⟨⟨rfl, rfl, rfl, rfl, rfl, rfl, rfl⟩, ⟨rfl, rfl, rfl, rfl, rfl, rfl, rfl, rfl, rfl⟩,
    ⟨rfl, rfl, rfl, rfl⟩, ?_, ?_⟩
  · intro hne
    refine ⟨?_, ?_, ?_⟩
    · intro h
      have e : CType.vector new storage = CType.vector new other := Option.some.inj h
      exact hne (CType.vector.inj e).2
    · intro h
      have e : CType.matrix new orientation storage = CType.matrix new orientation other :=
        Option.some.inj h
      exact hne (CType.matrix.inj e).2.2
    · intro h
      have e : CType.mapped_vector new storage = CType.mapped_vector new other :=
        Option.some.inj h
      exact hne (CType.mapped_vector.inj e).2
  · intro hne
    refine ⟨?_, ?_⟩
    · intro h
      have e : CType.compressed_vector new ib indexArray itemArray
          = CType.compressed_vector new ib indexArray other := Option.some.inj h
      exact hne (CType.compressed_vector.inj e).2.2.2
    · intro h
      have e : CType.compressed_matrix new orientation ib indexArray itemArray
          = CType.compressed_matrix new orientation ib indexArray other := Option.some.inj h
      exact hne (CType.compressed_matrix.inj e).2.2.2.2

theorem replace_carries_storage_arguments_verbatim_witness :
    TypeReplacer.Replace (.vector (.named "double") (.named "unbounded_array<double>"))
        (.named "float")
      ≠ some (.vector (.named "float") (.named "unbounded_array<float>")) ∧
    TypeReplacer.Replace (.vector (.named "double") (.named "unbounded_array<double>"))
        (.named "float")
      = some (.vector (.named "float") (.named "unbounded_array<double>")) :=
  ⟨((replace_carries_storage_arguments_verbatim (.named "double") (.named "float") .lower
      (.named "row_major") (.named "unbounded_array<double>") (.named "std::allocator<double>")
      (.named "unbounded_array<std::size_t>") (.named "unbounded_array<double>")
      (.named "unbounded_array<float>") 0).2.2.2.1 (by decide)).1, rfl⟩

end Ublasaux
